import Mathlib

/-!
Shallow embedding of `src/dequeue.rs`: a doubly-linked list (`DequeueList`)
over manually managed heap nodes, with a mutating cursor (`CursorMut`).

Raw pointers are modelled as `Nat` addresses, the heap as a function
`Nat → Option (Node T)`.  Every operation that in Rust dereferences a raw
pointer or calls `unwrap` is embedded in the `Option` monad: a `none`
result marks undefined behaviour / a panic, which under the representation
invariants proved below never occurs.  `usize` subtraction is modelled by
truncated `Nat` subtraction; in every verified run the subtrahend is
bounded so the two agree.
-/

namespace Dequeue

/-- `struct Node<T> { next: Link<T>, prev: Link<T>, elem: T }` with
`Link<T> = Option<NonNull<Node<T>>>` modelled as `Option Nat`. -/
structure Node (T : Type) where
  next : Option Nat
  prev : Option Nat
  elem : T
deriving DecidableEq, Repr

/-- The heap: partial map from addresses to nodes. -/
def Heap (T : Type) : Type := Nat → Option (Node T)

/-- The allocator state: the heap plus the next fresh address.  `Box::new`
always returns an address distinct from every live allocation; we realize
that by keeping all live addresses below `free`. -/
structure Mem (T : Type) where
  heap : Heap T
  free : Nat

/-- Point update of a heap. -/
def hupd (h : Heap T) (a : Nat) (v : Option (Node T)) : Heap T :=
  fun x => if x = a then v else h x

/-- Read a node (`*p`); `none` = dereference of a dangling pointer (UB). -/
def Mem.read (m : Mem T) (a : Nat) : Option (Node T) := m.heap a

/-- `(*p).next = v` -/
def Mem.setNext (m : Mem T) (a : Nat) (v : Option Nat) : Option (Mem T) :=
  (m.heap a).map fun nd => { m with heap := hupd m.heap a (some { nd with next := v }) }

/-- `(*p).prev = v` -/
def Mem.setPrev (m : Mem T) (a : Nat) (v : Option Nat) : Option (Mem T) :=
  (m.heap a).map fun nd => { m with heap := hupd m.heap a (some { nd with prev := v }) }

/-- `Box::into_raw(Box::new(node))`: returns a fresh address. -/
def Mem.alloc (m : Mem T) (nd : Node T) : Nat × Mem T :=
  (m.free, { heap := hupd m.heap m.free (some nd), free := m.free + 1 })

/-- Dropping a `Box` obtained by `Box::from_raw`. -/
def Mem.dealloc (m : Mem T) (a : Nat) : Mem T :=
  { m with heap := hupd m.heap a none }

/-- `struct DequeueList<T> { head, tail: Link<T>, len: usize }`
(the elements live in the heap, so the struct itself needs no parameter). -/
structure DequeueList where
  head : Option Nat
  tail : Option Nat
  len : Nat
deriving DecidableEq, Repr

/-- `DequeueList::new()` -/
def DequeueList.new : DequeueList := { head := none, tail := none, len := 0 }

/-- `DequeueList::len` -/
def DequeueList.length (l : DequeueList) : Nat := l.len

/-- `DequeueList::is_empty` -/
def DequeueList.is_empty (l : DequeueList) : Bool := l.len = 0

/-- `DequeueList::push_front` -/
def push_front (m : Mem T) (l : DequeueList) (elem : T) : Option (Mem T × DequeueList) :=
  let (new_node, m1) := m.alloc ⟨none, none, elem⟩
  match l.head with
  | some old_head => do
      let m2 ← m1.setPrev old_head (some new_node)
      let m3 ← m2.setNext new_node (some old_head)
      pure (m3, { head := some new_node, tail := l.tail, len := l.len + 1 })
  | none =>
      pure (m1, { head := some new_node, tail := some new_node, len := l.len + 1 })

/-- `DequeueList::push_back` -/
def push_back (m : Mem T) (l : DequeueList) (elem : T) : Option (Mem T × DequeueList) :=
  let (new_node, m1) := m.alloc ⟨none, none, elem⟩
  match l.tail with
  | some old_tail => do
      let m2 ← m1.setNext old_tail (some new_node)
      let m3 ← m2.setPrev new_node (some old_tail)
      pure (m3, { head := l.head, tail := some new_node, len := l.len + 1 })
  | none =>
      pure (m1, { head := some new_node, tail := some new_node, len := l.len + 1 })

/-- `DequeueList::pop_front` (inner `Option T` is the Rust return value). -/
def pop_front (m : Mem T) (l : DequeueList) : Option (Mem T × DequeueList × Option T) :=
  match l.head with
  | none => some (m, l, none)
  | some node => do
      let current_head ← m.read node
      let elem := current_head.elem
      let newHead := current_head.next
      let res ← match newHead with
        | some new_head => do
            let m2 ← m.setPrev new_head none
            pure (m2, ({ head := newHead, tail := l.tail, len := l.len - 1 } : DequeueList))
        | none =>
            pure (m, ({ head := newHead, tail := none, len := l.len - 1 } : DequeueList))
      pure (res.1.dealloc node, res.2, some elem)

/-- `DequeueList::pop_back` -/
def pop_back (m : Mem T) (l : DequeueList) : Option (Mem T × DequeueList × Option T) :=
  match l.tail with
  | none => some (m, l, none)
  | some node => do
      let current_tail ← m.read node
      let elem := current_tail.elem
      let newTail := current_tail.prev
      let res ← match newTail with
        | some new_tail => do
            let m2 ← m.setNext new_tail none
            pure (m2, ({ head := l.head, tail := newTail, len := l.len - 1 } : DequeueList))
        | none =>
            pure (m, ({ head := none, tail := newTail, len := l.len - 1 } : DequeueList))
      pure (res.1.dealloc node, res.2, some elem)

/-- `DequeueList::front` -/
def front (m : Mem T) (l : DequeueList) : Option (Option T) :=
  match l.head with
  | none => some none
  | some a => (m.read a).map fun nd => some nd.elem

/-- `DequeueList::back` -/
def back (m : Mem T) (l : DequeueList) : Option (Option T) :=
  match l.tail with
  | none => some none
  | some a => (m.read a).map fun nd => some nd.elem

/-- `DequeueList::clear`: `while self.pop_front().is_some() {}`, embedded
with explicit fuel (the loop terminates because every `pop_front` on a
well-formed list removes one node; `l.len + 1` rounds always suffice). -/
def clearLoop (fuel : Nat) (m : Mem T) (l : DequeueList) : Option (Mem T × DequeueList) :=
  match fuel with
  | 0 => none
  | fuel + 1 => do
      let (m1, l1, r) ← pop_front m l
      match r with
      | some _ => clearLoop fuel m1 l1
      | none => pure (m1, l1)

/-- `DequeueList::clear` -/
def clear (m : Mem T) (l : DequeueList) : Option (Mem T × DequeueList) :=
  clearLoop (l.len + 1) m l

/-- `Extend::extend` specialised to a list input: pushes each element
to the back in input order. -/
def extend (m : Mem T) (l : DequeueList) : List T → Option (Mem T × DequeueList)
  | [] => some (m, l)
  | x :: rest => do
      let (m1, l1) ← push_back m l x
      extend m1 l1 rest

/-- `FromIterator::from_iter`: `Self::new()` then `extend`. -/
def from_iter (m : Mem T) (xs : List T) : Option (Mem T × DequeueList) :=
  extend m DequeueList.new xs

/-- `struct Iter { head, tail: Link, len: usize }` (shared by `Iter`,
`IterMut`: both walk the same pointers). -/
structure IterSt where
  head : Option Nat
  tail : Option Nat
  len : Nat
deriving DecidableEq, Repr

/-- `DequeueList::iter` -/
def iter (l : DequeueList) : IterSt := { head := l.head, tail := l.tail, len := l.len }

/-- `Iterator::next` for `Iter` -/
def iterNext (m : Mem T) (it : IterSt) : Option (Option T × IterSt) :=
  if it.len = 0 then
    some (none, it)
  else
    match it.head with
    | none => some (none, it)
    | some node => do
        let nd ← m.read node
        pure (some nd.elem, { it with len := it.len - 1, head := nd.next })

/-- `DoubleEndedIterator::next_back` for `Iter` -/
def iterNextBack (m : Mem T) (it : IterSt) : Option (Option T × IterSt) :=
  if it.len = 0 then
    some (none, it)
  else
    match it.tail with
    | none => some (none, it)
    | some node => do
        let nd ← m.read node
        pure (some nd.elem, { it with len := it.len - 1, tail := nd.prev })

/-- `struct CursorMut { current: Link, list: &mut DequeueList, index: Option<usize> }`,
bundled with the heap so cursor operations are state transformers. -/
structure CursorSt (T : Type) where
  mem : Mem T
  list : DequeueList
  current : Option Nat
  index : Option Nat

/-- `DequeueList::cursor_mut` -/
def cursor_mut (m : Mem T) (l : DequeueList) : CursorSt T :=
  { mem := m, list := l, current := none, index := none }

namespace CursorSt

/-- `CursorMut::move_next` -/
def move_next (c : CursorSt T) : Option (CursorSt T) :=
  match c.current with
  | some current => do
      let nd ← c.mem.read current
      match nd.next with
      | some nxt => do
          let i ← c.index    -- `self.index.as_mut().unwrap()`
          pure { c with current := some nxt, index := some (i + 1) }
      | none =>
          pure { c with current := none, index := none }
  | none =>
      if c.list.is_empty then
        pure c    -- Ghost
      else
        pure { c with current := c.list.head, index := some 0 }

/-- `CursorMut::move_prev` -/
def move_prev (c : CursorSt T) : Option (CursorSt T) :=
  match c.current with
  | some current => do
      let nd ← c.mem.read current
      match nd.prev with
      | some prv => do
          let i ← c.index    -- `self.index.as_mut().unwrap()`
          pure { c with current := some prv, index := some (i - 1) }
      | none =>
          pure { c with current := none, index := none }
  | none =>
      if c.list.is_empty then
        pure c    -- Ghost
      else
        pure { c with current := c.list.tail, index := some (c.list.len - 1) }

/-- `CursorMut::current` (named apart from the field of the same name). -/
def current_elem (c : CursorSt T) : Option (Option T) :=
  match c.current with
  | none => some none
  | some a => (c.mem.read a).map fun nd => some nd.elem

/-- `CursorMut::peek_next` -/
def peek_next (c : CursorSt T) : Option (Option T) := do
  let next ← match c.current with
    | some current => do
        let nd ← c.mem.read current
        pure nd.next
    | none => pure c.list.head
  match next with
  | none => pure none
  | some a => do
      let nd ← c.mem.read a
      pure (some nd.elem)

/-- `CursorMut::peek_prev` -/
def peek_prev (c : CursorSt T) : Option (Option T) := do
  let prv ← match c.current with
    | some current => do
        let nd ← c.mem.read current
        pure nd.prev
    | none => pure c.list.tail
  match prv with
  | none => pure none
  | some a => do
      let nd ← c.mem.read a
      pure (some nd.elem)

/-- `CursorMut::split_before`: returns the updated cursor (bound list
inside) and the standalone list that was split off. -/
def split_before (c : CursorSt T) : Option (CursorSt T × DequeueList) :=
  match c.current with
  | none =>
      -- `std::mem::replace(self.list, DequeueList::new())`
      some ({ c with list := DequeueList.new }, c.list)
  | some current => do
      let old_len := c.list.len
      let old_idx ← c.index                     -- `self.index.unwrap()`
      let nd ← c.mem.read current
      let prev := nd.prev
      let new_len := old_len - old_idx
      let new_head := c.current
      let new_tail := c.list.tail
      let output_len := old_len - new_len
      let output_head := c.list.head
      let output_tail := prev
      let m ← match prev with
        | some prevA => do
            let m1 ← c.mem.setPrev current none
            m1.setNext prevA none
        | none => pure c.mem
      pure ({ mem := m,
              list := { head := new_head, tail := new_tail, len := new_len },
              current := c.current, index := some 0 },
            { head := output_head, tail := output_tail, len := output_len })

/-- `CursorMut::split_after` -/
def split_after (c : CursorSt T) : Option (CursorSt T × DequeueList) :=
  match c.current with
  | none =>
      some ({ c with list := DequeueList.new }, c.list)
  | some current => do
      let old_len := c.list.len
      let old_idx ← c.index                     -- `self.index.unwrap()`
      let nd ← c.mem.read current
      let next := nd.next
      let new_len := old_idx + 1
      let new_head := c.list.head
      let new_tail := c.current
      let output_len := old_len - new_len
      let output_head := next
      let output_tail := c.list.tail
      let m ← match next with
        | some nextA => do
            let m1 ← c.mem.setNext current none
            m1.setPrev nextA none
        | none => pure c.mem
      pure ({ mem := m,
              list := { head := new_head, tail := new_tail, len := new_len },
              current := c.current, index := some old_idx },
            { head := output_head, tail := output_tail, len := output_len })

/-- `CursorMut::splice_before`.  The donor is passed by value in Rust; the
second component of the result is its final state: `some` of the struct it
holds when it is dropped at the end of the call, and `none` in the branch
where it is moved wholesale into the bound list (`*self.list = input`). -/
def splice_before (c : CursorSt T) (input : DequeueList) :
    Option (CursorSt T × Option DequeueList) :=
  if input.is_empty then
    some (c, some input)
  else if c.list.is_empty then
    some ({ c with list := input }, none)
  else do
    let input_head ← input.head                 -- `take().unwrap()`
    let input_tail ← input.tail
    let res ← match c.current with
      | some current => do
          let nd ← c.mem.read current
          match nd.prev with
          | some prevA => do
              let m1 ← c.mem.setNext prevA (some input_head)
              let m2 ← m1.setPrev input_head (some prevA)
              let m3 ← m2.setPrev current (some input_tail)
              let m4 ← m3.setNext input_tail (some current)
              pure (m4, c.list)
          | none => do
              let m1 ← c.mem.setPrev current (some input_tail)
              let m2 ← m1.setNext input_tail (some current)
              pure (m2, { c.list with head := some input_head })
      | none => do
          let tailA ← c.list.tail               -- `self.list.tail.unwrap()`
          let m1 ← c.mem.setNext tailA (some input_head)
          let m2 ← m1.setPrev input_head c.list.tail
          pure (m2, { c.list with tail := some input_tail })
    let (m, l) := res
    pure ({ c with mem := m, list := { l with len := l.len + input.len } },
          some { head := none, tail := none, len := 0 })

/-- `CursorMut::splice_after` -/
def splice_after (c : CursorSt T) (input : DequeueList) :
    Option (CursorSt T × Option DequeueList) :=
  if input.is_empty then
    some (c, some input)
  else if c.list.is_empty then
    some ({ c with list := input }, none)
  else do
    let input_head ← input.head                 -- `take().unwrap()`
    let input_tail ← input.tail
    let res ← match c.current with
      | some current => do
          let nd ← c.mem.read current
          match nd.next with
          | some nextA => do
              let m1 ← c.mem.setPrev nextA (some input_tail)
              let m2 ← m1.setNext input_tail (some nextA)
              let m3 ← m2.setNext current (some input_head)
              let m4 ← m3.setPrev input_head (some current)
              pure (m4, c.list)
          | none => do
              let m1 ← c.mem.setNext current (some input_head)
              let m2 ← m1.setPrev input_head (some current)
              pure (m2, { c.list with tail := some input_tail })
      | none => do
          let headA ← c.list.head               -- `self.list.head.unwrap()`
          let m1 ← c.mem.setPrev headA (some input_tail)
          let m2 ← m1.setNext input_tail c.list.head
          pure (m2, { c.list with head := some input_head })
    let (m, l) := res
    pure ({ c with mem := m, list := { l with len := l.len + input.len } },
          some { head := none, tail := none, len := 0 })

/-- `CursorMut::remove_current`.  Note the source never assigns
`self.index` here. -/
def remove_current (c : CursorSt T) : Option (CursorSt T × Option T) :=
  if c.list.is_empty then
    some (c, none)
  else
    match c.current with
    | none => some (c, none)
    | some curA => do
        let nd ← c.mem.read curA                -- `Box::from_raw`
        let value := nd.elem
        let res ← match nd.next with
          | some nxt =>
              match nd.prev with
              | some prevA => do
                  let m1 ← c.mem.setNext prevA (some nxt)
                  let m2 ← m1.setPrev nxt (some prevA)
                  pure (m2, c.list, some nxt)
              | none => do
                  let m1 ← c.mem.setPrev nxt none
                  pure (m1, { c.list with head := some nxt }, some nxt)
          | none =>
              match nd.prev with
              | some prevA => do
                  let m1 ← c.mem.setNext prevA none
                  pure (m1, { c.list with tail := some prevA }, (none : Option Nat))
              | none =>
                  pure (c.mem, { c.list with head := none, tail := none },
                        (none : Option Nat))
        let (m0, l0, cur0) := res
        let m := m0.dealloc curA                -- the box is dropped here
        pure ({ mem := m,
                list := { l0 with len := l0.len - 1 },
                current := cur0, index := c.index },
              some value)

end CursorSt

/-! ## Representation invariants -/

/-- The all-empty heap with no allocations. -/
def Mem.empty (T : Type) : Mem T := { heap := fun _ => none, free := 0 }

/-- Address of the first cell of a chain segment, or the given fallback
pointer when the segment is empty. -/
def frontPtr (cs : List (Nat × T)) (q : Option Nat) : Option Nat :=
  match cs with
  | [] => q
  | c :: _ => some c.1

/-- Address of the last cell of a chain segment, or the given fallback. -/
def backPtr (p : Option Nat) : List (Nat × T) → Option Nat
  | [] => p
  | c :: cs => backPtr (some c.1) cs

/-- `seg h p cs q`: the cells `cs` (address/element pairs) form a
doubly-linked chain in heap `h`; the first cell's `prev` is `p`, the last
cell's `next` is `q`, and consecutive cells point at each other. -/
def seg (h : Heap T) : Option Nat → List (Nat × T) → Option Nat → Prop
  | _, [], _ => True
  | p, (a, x) :: rest, q =>
      h a = some ⟨frontPtr rest q, p, x⟩ ∧ seg h (some a) rest q

instance segDec [DecidableEq T] (h : Heap T) :
    (p : Option Nat) → (cs : List (Nat × T)) → (q : Option Nat) →
    Decidable (seg h p cs q)
  | _, [], _ => .isTrue trivial
  | p, (a, x) :: rest, q =>
      haveI : Decidable (seg h (some a) rest q) := segDec h (some a) rest q
      inferInstanceAs (Decidable (_ ∧ _))

/-- Addresses of a cell list. -/
def addrs (cs : List (Nat × T)) : List Nat := cs.map Prod.fst

/-- Elements of a cell list. -/
def elems (cs : List (Nat × T)) : List T := cs.map Prod.snd

/-- The list struct `l` represents the cell chain `cs` in heap `h`. -/
def ListRep (h : Heap T) (l : DequeueList) (cs : List (Nat × T)) : Prop :=
  seg h none cs none ∧ l.head = frontPtr cs none ∧ l.tail = backPtr none cs ∧
    l.len = cs.length ∧ (addrs cs).Nodup

instance [DecidableEq T] (h : Heap T) (l : DequeueList) (cs : List (Nat × T)) :
    Decidable (ListRep h l cs) := by
  unfold ListRep; infer_instance

/-- Everything at or above the allocation watermark is unallocated. -/
def MemOk (m : Mem T) : Prop := ∀ a, m.free ≤ a → m.heap a = none

/-- Cursor fields against the bound list's cells: on-node at position `i`
(`index = some i`, `current` the `i`-th address) or ghost (both `none`). -/
def CursorRep (cs : List (Nat × T)) (cur idx : Option Nat) : Prop :=
  match idx with
  | none => cur = none
  | some i => i < cs.length ∧ cur = (cs.get? i).map Prod.fst

instance [DecidableEq T] (cs : List (Nat × T)) (cur idx : Option Nat) :
    Decidable (CursorRep cs cur idx) := by
  unfold CursorRep; cases idx <;> infer_instance

/-- Full cursor-state invariant. -/
def CRep (c : CursorSt T) (cs : List (Nat × T)) : Prop :=
  ListRep c.mem.heap c.list cs ∧ CursorRep cs c.current c.index

/-- The list-level invariant of the spec:
`len == 0 ⇔ head == none ⇔ tail == none`. -/
def listInv (l : DequeueList) : Prop :=
  (l.len = 0 ↔ l.head = none) ∧ (l.len = 0 ↔ l.tail = none)

/-- Index dynamics of `move_next` on a list of length `n`. -/
def nextIndex (n : Nat) : Option Nat → Option Nat
  | none => if n = 0 then none else some 0
  | some i => if i + 1 < n then some (i + 1) else none
/-- Index dynamics of `move_prev` on a list of length `n`. -/
def prevIndex (n : Nat) : Option Nat → Option Nat
  | none => if n = 0 then none else some (n - 1)
  | some i => if i = 0 then none else some (i - 1)
/-- Heap after the four pointer writes of an interior splice. -/
def relink4 (h : Heap T) (a1 a2 a3 a4 : Nat) (v1 v2 v3 v4 : Option (Node T)) : Heap T :=
  hupd (hupd (hupd (hupd h a1 v1) a2 v2) a3 v3) a4 v4
/-- The insertion position of `splice_before`: the cursor index, or the
very back at the ghost. -/
def beforePos (n : Nat) : Option Nat → Nat
  | some i => i
  | none => n
/-- The insertion position of `splice_after`: one past the cursor index,
or the very front at the ghost. -/
def afterPos : Option Nat → Nat
  | some i => i + 1
  | none => 0
/-- Cells after grafting `dcs` into `bcs` at position `p`. -/
def insertAt (bcs dcs : List (Nat × T)) (p : Nat) : List (Nat × T) :=
  bcs.take p ++ dcs ++ bcs.drop p
/-- Invariant of `Iter` over the chain `cs` after `f` elements have been
consumed from the front and `b` from the back. -/
def IterInv (cs : List (Nat × T)) (it : IterSt) (f b : Nat) : Prop :=
  f + b ≤ cs.length ∧ it.len = cs.length - f - b ∧
  it.head = (cs.get? f).map Prod.fst ∧
  it.tail = backPtr none (cs.take (cs.length - b))
/-- Drive the iterator by a list of flags: `true` = `next`,
`false` = `next_back`.  Collects the elements yielded forwards and
backwards (in call order). -/
def runIter (m : Mem T) : IterSt → List Bool → Option (IterSt × List T × List T)
  | it, [] => some (it, [], [])
  | it, true :: ds =>
      match iterNext m it with
      | none => none
      | some (r, it') =>
          match runIter m it' ds with
          | none => none
          | some (itf, fs, bs) => some (itf, r.toList ++ fs, bs)
  | it, false :: ds =>
      match iterNextBack m it with
      | none => none
      | some (r, it') =>
          match runIter m it' ds with
          | none => none
          | some (itf, fs, bs) => some (itf, fs, r.toList ++ bs)
/-- How many elements a flag list consumes from the front (`.1`) and the
back (`.2`) of an iterator with `r` elements remaining. -/
def drain : List Bool → Nat → Nat × Nat
  | [], _ => (0, 0)
  | _ :: ds, 0 => drain ds 0
  | true :: ds, r + 1 => ((drain ds r).1 + 1, (drain ds r).2)
  | false :: ds, r + 1 => ((drain ds r).1, (drain ds r).2 + 1)
/-- Apply `move_next` `k` times. -/
def moveNextN : Nat → CursorSt T → Option (CursorSt T)
  | 0, c => some c
  | k + 1, c => do
      let c' ← c.move_next
      moveNextN k c'
/-- Apply `move_prev` `k` times. -/
def movePrevN : Nat → CursorSt T → Option (CursorSt T)
  | 0, c => some c
  | k + 1, c => do
      let c' ← c.move_prev
      movePrevN k c'
/-- A three-node heap holding the chain `10, 11, 12` at addresses `0,1,2`. -/
def exHeap : Heap Nat :=
  hupd (hupd (hupd (fun _ => none) 0 (some ⟨some 1, none, 10⟩))
    1 (some ⟨some 2, some 0, 11⟩)) 2 (some ⟨none, some 1, 12⟩)
def exMem : Mem Nat := ⟨exHeap, 3⟩
def exList : DequeueList := ⟨some 0, some 2, 3⟩
def exCells : List (Nat × Nat) := [(0, 10), (1, 11), (2, 12)]
/-- `exHeap` extended with a disjoint two-node donor chain `20, 21`. -/
def exHeap2 : Heap Nat :=
  hupd (hupd exHeap 3 (some ⟨some 4, none, 20⟩)) 4 (some ⟨none, some 3, 21⟩)
def exMem2 : Mem Nat := ⟨exHeap2, 5⟩
def exDonor : DequeueList := ⟨some 3, some 4, 2⟩
def exDonorCells : List (Nat × Nat) := [(3, 20), (4, 21)]

/-! ## Heap and segment lemmas -/

@[simp] theorem hupd_same (h : Heap T) (a : Nat) (v : Option (Node T)) :
    hupd h a v a = v := by simp [hupd]

theorem hupd_other (h : Heap T) {a x : Nat} (v : Option (Node T)) (hx : x ≠ a) :
    hupd h a v x = h x := by simp [hupd, hx]

@[simp] theorem seg_nil (h : Heap T) (p q : Option Nat) : seg h p [] q := trivial

theorem seg_cons (h : Heap T) (p q : Option Nat) (a : Nat) (x : T)
    (cs : List (Nat × T)) :
    seg h p ((a, x) :: cs) q ↔
      h a = some ⟨frontPtr cs q, p, x⟩ ∧ seg h (some a) cs q := Iff.rfl

@[simp] theorem frontPtr_nil (q : Option Nat) : frontPtr ([] : List (Nat × T)) q = q := rfl

@[simp] theorem frontPtr_cons (c : Nat × T) (cs : List (Nat × T)) (q : Option Nat) :
    frontPtr (c :: cs) q = some c.1 := rfl

@[simp] theorem backPtr_nil (p : Option Nat) : backPtr p ([] : List (Nat × T)) = p := rfl

@[simp] theorem backPtr_cons (p : Option Nat) (c : Nat × T) (cs : List (Nat × T)) :
    backPtr p (c :: cs) = backPtr (some c.1) cs := rfl

theorem frontPtr_append (as bs : List (Nat × T)) (q : Option Nat) :
    frontPtr (as ++ bs) q = frontPtr as (frontPtr bs q) := by
  cases as <;> simp

theorem backPtr_append (p : Option Nat) (as bs : List (Nat × T)) :
    backPtr p (as ++ bs) = backPtr (backPtr p as) bs := by
  induction as generalizing p with
  | nil => simp
  | cons c cs ih => simp [ih]

theorem seg_append (h : Heap T) (p q : Option Nat) (as bs : List (Nat × T)) :
    seg h p (as ++ bs) q ↔
      seg h p as (frontPtr bs q) ∧ seg h (backPtr p as) bs q := by
  induction as generalizing p with
  | nil => simp
  | cons c cs ih =>
      obtain ⟨a, x⟩ := c
      simp only [List.cons_append, seg_cons, backPtr_cons, ih, frontPtr_append,
        and_assoc]

theorem seg_frame {h h' : Heap T} {p q : Option Nat} {cs : List (Nat × T)}
    (hagree : ∀ a ∈ addrs cs, h' a = h a) (hs : seg h p cs q) :
    seg h' p cs q := by
  induction cs generalizing p with
  | nil => trivial
  | cons c cs ih =>
      obtain ⟨a, x⟩ := c
      obtain ⟨h1, h2⟩ := hs
      refine ⟨?_, ih (fun b hb => hagree b (by simp [addrs] at hb ⊢; exact Or.inr hb)) h2⟩
      rw [hagree a (by simp [addrs])]
      exact h1

theorem seg_singleton (h : Heap T) (p q : Option Nat) (a : Nat) (x : T) :
    seg h p [(a, x)] q ↔ h a = some ⟨q, p, x⟩ := by
  simp [seg_cons]

@[simp] theorem addrs_nil : addrs ([] : List (Nat × T)) = [] := rfl
@[simp] theorem addrs_cons (c : Nat × T) (cs : List (Nat × T)) :
    addrs (c :: cs) = c.1 :: addrs cs := rfl
@[simp] theorem addrs_append (as bs : List (Nat × T)) :
    addrs (as ++ bs) = addrs as ++ addrs bs := by simp [addrs]
@[simp] theorem elems_nil : elems ([] : List (Nat × T)) = [] := rfl
@[simp] theorem elems_cons (c : Nat × T) (cs : List (Nat × T)) :
    elems (c :: cs) = c.2 :: elems cs := rfl
@[simp] theorem elems_append (as bs : List (Nat × T)) :
    elems (as ++ bs) = elems as ++ elems bs := by simp [elems]
@[simp] theorem addrs_length (cs : List (Nat × T)) : (addrs cs).length = cs.length := by
  simp [addrs]
@[simp] theorem elems_length (cs : List (Nat × T)) : (elems cs).length = cs.length := by
  simp [elems]

/-! ## Toolkit lemmas -/

theorem backPtr_some (cs : List (Nat × T)) (a : Nat) :
    ∃ b, backPtr (some a) cs = some b := by
  induction cs generalizing a with
  | nil => exact ⟨a, rfl⟩
  | cons c cs ih => simpa using ih c.1

theorem backPtr_eq_none {cs : List (Nat × T)} (h : backPtr none cs = none) :
    cs = [] := by
  cases cs with
  | nil => rfl
  | cons c cs =>
      obtain ⟨b, hb⟩ := backPtr_some cs c.1
      simp [hb] at h

theorem backPtr_concat (p : Option Nat) (cs : List (Nat × T)) (c : Nat × T) :
    backPtr p (cs ++ [c]) = some c.1 := by
  simp [backPtr_append]

theorem frontPtr_irrel {cs : List (Nat × T)} (hne : cs ≠ []) (q q' : Option Nat) :
    frontPtr cs q = frontPtr cs q' := by
  cases cs with
  | nil => exact absurd rfl hne
  | cons c cs => rfl

theorem seg_isSome {h : Heap T} {p q : Option Nat} {cs : List (Nat × T)}
    (hs : seg h p cs q) : ∀ a ∈ addrs cs, ∃ nd, h a = some nd := by
  induction cs generalizing p with
  | nil => intro a ha; simp [addrs] at ha
  | cons c cs ih =>
      obtain ⟨a0, x0⟩ := c
      obtain ⟨h1, h2⟩ := hs
      intro a ha
      rcases (by simpa [addrs] using ha : a = a0 ∨ a ∈ addrs cs) with rfl | ha
      · exact ⟨_, h1⟩
      · exact ih h2 a ha

theorem addr_lt_free {m : Mem T} {p q : Option Nat} {cs : List (Nat × T)}
    (hm : MemOk m) (hs : seg m.heap p cs q) : ∀ a ∈ addrs cs, a < m.free := by
  intro a ha
  obtain ⟨nd, hnd⟩ := seg_isSome hs a ha
  by_contra hlt
  rw [hm a (Nat.le_of_not_lt hlt)] at hnd
  exact Option.noConfusion hnd

theorem rep_listInv {h : Heap T} {l : DequeueList} {cs : List (Nat × T)}
    (hrep : ListRep h l cs) : listInv l := by
  obtain ⟨-, hh, ht, hl, -⟩ := hrep
  constructor
  · rw [hh, hl]
    cases cs with
    | nil => simp
    | cons c cs => simp
  · rw [ht, hl]
    cases cs with
    | nil => simp
    | cons c cs =>
        obtain ⟨b, hb⟩ := backPtr_some cs c.1
        simp [hb]

/-- The empty heap state is a valid allocator state. -/
theorem memOk_empty (T : Type) : MemOk (Mem.empty T) := fun _ _ => rfl

/-- The fresh empty list is represented by no cells in any heap. -/
theorem rep_new (h : Heap T) : ListRep h DequeueList.new [] := by
  refine ⟨trivial, rfl, rfl, rfl, ?_⟩
  simp [addrs]

/-! ## `push_back` / `push_front` -/

theorem push_back_spec {m : Mem T} {l : DequeueList} {cs : List (Nat × T)}
    (hm : MemOk m) (hrep : ListRep m.heap l cs) (x : T) :
    ∃ m' l', push_back m l x = some (m', l') ∧
      ListRep m'.heap l' (cs ++ [(m.free, x)]) ∧ MemOk m' ∧ m'.free = m.free + 1 := by
  obtain ⟨hseg, hh, ht, hl, hnd⟩ := hrep
  have hfresh : ∀ a ∈ addrs cs, a < m.free := addr_lt_free hm hseg
  rcases List.eq_nil_or_concat cs with rfl | ⟨cs', c, rfl⟩
  · -- empty list: `self.tail` is `None`
    have htail : l.tail = none := by simpa using ht
    refine ⟨⟨hupd m.heap m.free (some ⟨none, none, x⟩), m.free + 1⟩,
            ⟨some m.free, some m.free, l.len + 1⟩, ?_, ?_, ?_, rfl⟩
    · simp [push_back, htail, Mem.alloc]
    · refine ⟨⟨by simp [hupd], trivial⟩, rfl, rfl, by simpa using hl, by simp [addrs]⟩
    · intro a ha
      have ha' : m.free + 1 ≤ a := ha
      show hupd m.heap m.free (some ⟨none, none, x⟩) a = none
      rw [hupd_other _ _ (by omega)]
      exact hm a (by omega)
  · -- non-empty: `self.tail` is the last cell
    obtain ⟨t, y⟩ := c
    simp only [List.concat_eq_append] at hseg hh ht hl hnd hfresh
    have htail : l.tail = some t := by rw [ht, backPtr_concat]
    rw [seg_append] at hseg
    obtain ⟨hseg', hsegt⟩ := hseg
    have hht : m.heap t = some ⟨none, backPtr none cs', y⟩ := by
      simpa [seg] using hsegt
    have htlt : t < m.free := hfresh t (by simp [addrs])
    have htne : t ≠ m.free := by omega
    have hndc : (addrs cs').Nodup ∧ t ∉ addrs cs' := by
      rw [addrs_append, List.nodup_append] at hnd
      exact ⟨hnd.1, fun hmem => hnd.2.2 hmem (by simp [addrs])⟩
    simp only [List.concat_eq_append]
    refine ⟨⟨hupd (hupd (hupd m.heap m.free (some ⟨none, none, x⟩)) t
                (some ⟨some m.free, backPtr none cs', y⟩)) m.free (some ⟨none, some t, x⟩),
             m.free + 1⟩,
            ⟨l.head, some m.free, l.len + 1⟩, ?_, ?_, ?_, rfl⟩
    · -- running the code
      simp only [push_back, htail, Mem.alloc, Mem.setNext, Mem.setPrev]
      rw [hupd_other _ _ htne, hht]
      simp [hupd_other _ _ (Ne.symm htne)]
    · refine ⟨?_, ?_, ?_, ?_, ?_⟩
      · -- the new chain
        rw [List.append_assoc, seg_append]
        constructor
        · refine seg_frame (fun a ha => ?_) hseg'
          have halt : a < m.free := hfresh a (by rw [addrs_append]; exact List.mem_append_left _ ha)
          have hat : a ≠ t := fun h => hndc.2 (h ▸ ha)
          have hane : a ≠ m.free := by omega
          simp [hupd, hat, hane]
        · simp only [List.singleton_append, seg, frontPtr]
          exact ⟨by simp [hupd, htne], by simp [hupd], trivial⟩
      · show l.head = frontPtr ((cs' ++ [(t, y)]) ++ [(m.free, x)]) none
        rw [frontPtr_append, hh]
        exact frontPtr_irrel (by simp) _ _
      · show some m.free = backPtr none ((cs' ++ [(t, y)]) ++ [(m.free, x)])
        rw [backPtr_concat]
      · show l.len + 1 = ((cs' ++ [(t, y)]) ++ [(m.free, x)]).length
        simp [hl]
      · rw [addrs_append]
        refine hnd.append (by simp [addrs]) ?_
        intro a ha hb
        have hab : a = m.free := by simpa [addrs] using hb
        subst hab
        exact absurd (hfresh _ ha) (by omega)
    · intro a ha
      have ha' : m.free + 1 ≤ a := ha
      show hupd (hupd (hupd m.heap m.free (some ⟨none, none, x⟩)) t
          (some ⟨some m.free, backPtr none cs', y⟩)) m.free (some ⟨none, some t, x⟩) a = none
      rw [hupd_other _ _ (by omega), hupd_other _ _ (by omega : a ≠ t), hupd_other _ _ (by omega)]
      exact hm a (by omega)

theorem push_front_spec {m : Mem T} {l : DequeueList} {cs : List (Nat × T)}
    (hm : MemOk m) (hrep : ListRep m.heap l cs) (x : T) :
    ∃ m' l', push_front m l x = some (m', l') ∧
      ListRep m'.heap l' ((m.free, x) :: cs) ∧ MemOk m' ∧ m'.free = m.free + 1 := by
  obtain ⟨hseg, hh, ht, hl, hnd⟩ := hrep
  have hfresh : ∀ a ∈ addrs cs, a < m.free := addr_lt_free hm hseg
  cases cs with
  | nil =>
      have hhead : l.head = none := by simpa using hh
      refine ⟨⟨hupd m.heap m.free (some ⟨none, none, x⟩), m.free + 1⟩,
              ⟨some m.free, some m.free, l.len + 1⟩, ?_, ?_, ?_, rfl⟩
      · simp [push_front, hhead, Mem.alloc]
      · refine ⟨⟨by simp [hupd], trivial⟩, rfl, rfl, by simpa using hl, by simp [addrs]⟩
      · intro a ha
        have ha' : m.free + 1 ≤ a := ha
        show hupd m.heap m.free (some ⟨none, none, x⟩) a = none
        rw [hupd_other _ _ (by omega)]
        exact hm a (by omega)
  | cons c rest =>
      obtain ⟨hd, y⟩ := c
      have hhead : l.head = some hd := by simpa using hh
      obtain ⟨hhd, hsegr⟩ := hseg
      have hdlt : hd < m.free := hfresh hd (by simp [addrs])
      have hdne : hd ≠ m.free := by omega
      have hndc : (addrs rest).Nodup ∧ hd ∉ addrs rest := by
        simp only [addrs_cons, List.nodup_cons] at hnd
        exact ⟨hnd.2, hnd.1⟩
      refine ⟨⟨hupd (hupd (hupd m.heap m.free (some ⟨none, none, x⟩)) hd
                  (some ⟨frontPtr rest none, some m.free, y⟩)) m.free
                  (some ⟨some hd, none, x⟩),
               m.free + 1⟩,
              ⟨some m.free, l.tail, l.len + 1⟩, ?_, ?_, ?_, rfl⟩
      · simp only [push_front, hhead, Mem.alloc, Mem.setNext, Mem.setPrev]
        rw [hupd_other _ _ hdne, hhd]
        simp [hupd_other _ _ (Ne.symm hdne)]
      · refine ⟨?_, rfl, ?_, ?_, ?_⟩
        · refine ⟨by simp [hupd], by simp [hupd, hdne], ?_⟩
          refine seg_frame (fun a ha => ?_) hsegr
          have halt : a < m.free := hfresh a (by simp [addrs_cons, ha])
          have hane : a ≠ m.free := by omega
          have hahd : a ≠ hd := fun h => hndc.2 (h ▸ ha)
          simp [hupd, hane, hahd]
        · show l.tail = backPtr (some m.free) ((hd, y) :: rest)
          rw [ht]
          rfl
        · show l.len + 1 = ((hd, y) :: rest).length + 1
          simp [hl]
        · show (addrs ((m.free, x) :: (hd, y) :: rest)).Nodup
          simp only [addrs_cons, List.nodup_cons, List.mem_cons]
          refine ⟨?_, hndc.2, hndc.1⟩
          push_neg
          refine ⟨by omega, ?_⟩
          intro hmem
          exact absurd (hfresh m.free
            (by simp only [addrs_cons, List.mem_cons]; exact Or.inr hmem)) (by omega)
      · intro a ha
        have ha' : m.free + 1 ≤ a := ha
        show hupd (hupd (hupd m.heap m.free (some ⟨none, none, x⟩)) hd
            (some ⟨frontPtr rest none, some m.free, y⟩)) m.free
            (some ⟨some hd, none, x⟩) a = none
        rw [hupd_other _ _ (by omega), hupd_other _ _ (by omega : a ≠ hd),
          hupd_other _ _ (by omega)]
        exact hm a (by omega)

theorem pop_front_spec {m : Mem T} {l : DequeueList} {cs : List (Nat × T)}
    (hm : MemOk m) (hrep : ListRep m.heap l cs) :
    ∃ m' l', pop_front m l = some (m', l', (cs.head?).map Prod.snd) ∧
      ListRep m'.heap l' cs.tail ∧ MemOk m' ∧ m'.free = m.free := by
  obtain ⟨hseg, hh, ht, hl, hnd⟩ := hrep
  cases cs with
  | nil =>
      have hhead : l.head = none := by simpa using hh
      exact ⟨m, l, by simp [pop_front, hhead], ⟨trivial, hh, ht, hl, hnd⟩, hm, rfl⟩
  | cons c rest =>
      obtain ⟨hd, y⟩ := c
      have hhead : l.head = some hd := by simpa using hh
      obtain ⟨hhd, hsegr⟩ := hseg
      simp only [addrs_cons, List.nodup_cons] at hnd
      cases rest with
      | nil =>
          refine ⟨(m.dealloc hd), ⟨none, none, l.len - 1⟩, ?_, ?_, ?_, rfl⟩
          · simp [pop_front, hhead, Mem.read, hhd, Mem.dealloc]
          · exact ⟨trivial, rfl, rfl, by simp [hl], by simp [addrs]⟩
          · intro a ha
            show hupd m.heap hd none a = none
            by_cases hah : a = hd
            · simp [hah]
            · rw [hupd_other _ _ hah]; exact hm a ha
      | cons c2 rest2 =>
          obtain ⟨h2, y2⟩ := c2
          obtain ⟨hh2, hsegr2⟩ := hsegr
          have h2ne : h2 ≠ hd := by
            intro h
            exact hnd.1 (by simp [addrs_cons, h])
          refine ⟨⟨hupd (hupd m.heap h2 (some ⟨frontPtr rest2 none, none, y2⟩)) hd none,
                   m.free⟩,
                  ⟨some h2, l.tail, l.len - 1⟩, ?_, ?_, ?_, rfl⟩
          · simp [pop_front, hhead, Mem.read, Mem.setPrev, Mem.dealloc, hhd, hh2]
          · refine ⟨?_, rfl, ?_, ?_, ?_⟩
            · refine ⟨by simp [hupd, h2ne], ?_⟩
              · refine seg_frame (fun a ha => ?_) hsegr2
                have hane2 : a ≠ h2 := by
                  intro h
                  simp only [addrs_cons, List.nodup_cons] at hnd
                  exact hnd.2.1 (h ▸ ha)
                have hanehd : a ≠ hd := by
                  intro h
                  exact hnd.1 (by simp only [addrs_cons, List.mem_cons]; exact Or.inr (h ▸ ha))
                show hupd (hupd m.heap h2 (some ⟨frontPtr rest2 none, none, y2⟩)) hd none a
                    = m.heap a
                rw [hupd_other _ _ hanehd, hupd_other _ _ hane2]
            · show l.tail = backPtr (some h2) rest2
              rw [ht]
              rfl
            · show l.len - 1 = ((h2, y2) :: rest2).length
              simp [hl]
            · exact hnd.2
          · intro a ha
            have ha' : m.free ≤ a := ha
            show hupd (hupd m.heap h2 (some ⟨frontPtr rest2 none, none, y2⟩)) hd none a = none
            by_cases hah : a = hd
            · simp [hah]
            · have h2lt : h2 < m.free :=
                addr_lt_free hm
                  (show seg m.heap (some hd) ((h2, y2) :: rest2) none from ⟨hh2, hsegr2⟩)
                  h2 (by simp [addrs_cons])
              rw [hupd_other _ _ hah, hupd_other _ _ (by omega : a ≠ h2)]
              exact hm a ha'

theorem pop_back_spec {m : Mem T} {l : DequeueList} {cs : List (Nat × T)}
    (hm : MemOk m) (hrep : ListRep m.heap l cs) :
    ∃ m' l', pop_back m l = some (m', l', (cs.getLast?).map Prod.snd) ∧
      ListRep m'.heap l' cs.dropLast ∧ MemOk m' ∧ m'.free = m.free := by
  obtain ⟨hseg, hh, ht, hl, hnd⟩ := hrep
  have hfresh : ∀ a ∈ addrs cs, a < m.free := addr_lt_free hm hseg
  rcases List.eq_nil_or_concat cs with rfl | ⟨cs', c, rfl⟩
  · have htail : l.tail = none := by simpa using ht
    exact ⟨m, l, by simp [pop_back, htail], ⟨trivial, hh, ht, hl, hnd⟩, hm, rfl⟩
  obtain ⟨t, y⟩ := c
  simp only [List.concat_eq_append] at hseg hh ht hl hnd hfresh ⊢
  have htail : l.tail = some t := by rw [ht, backPtr_concat]
  rw [seg_append] at hseg
  obtain ⟨hseg', hsegt⟩ := hseg
  have hht : m.heap t = some ⟨none, backPtr none cs', y⟩ := by
    simpa [seg] using hsegt
  have hndsplit : (addrs cs').Nodup ∧ t ∉ addrs cs' := by
    rw [addrs_append, List.nodup_append] at hnd
    exact ⟨hnd.1, fun hmem => hnd.2.2 hmem (by simp [addrs])⟩
  rcases List.eq_nil_or_concat cs' with rfl | ⟨cs'', c2, rfl⟩
  · -- singleton list
    have hprev : backPtr none ([] : List (Nat × T)) = none := rfl
    refine ⟨m.dealloc t, ⟨none, none, l.len - 1⟩, ?_, ?_, ?_, rfl⟩
    · simp [pop_back, htail, Mem.read, hht, hprev, Mem.dealloc]
    · exact ⟨trivial, rfl, rfl, by simp [hl], by simp [addrs]⟩
    · intro a ha
      have ha' : m.free ≤ a := ha
      show hupd m.heap t none a = none
      by_cases hat : a = t
      · simp [hat]
      · rw [hupd_other _ _ hat]; exact hm a ha'
  · -- at least two nodes
    obtain ⟨t2, y2⟩ := c2
    simp only [List.concat_eq_append] at hh ht hl hnd hfresh hsegt hseg' hndsplit hht ⊢
    have hprev : backPtr none (cs'' ++ [(t2, y2)]) = some t2 := backPtr_concat _ _ _
    rw [hprev] at hht
    rw [seg_append] at hseg'
    obtain ⟨hseg'', hsegt2⟩ := hseg'
    have hht2 : m.heap t2 = some ⟨some t, backPtr none cs'', y2⟩ := by
      simpa [seg] using hsegt2
    have ht2mem : t2 ∈ addrs (cs'' ++ [(t2, y2)]) := by simp [addrs_append, addrs]
    have ht2net : t2 ≠ t := fun h => hndsplit.2 (h ▸ ht2mem)
    have hnd'' : t2 ∉ addrs cs'' := by
      have h1 := hndsplit.1
      rw [addrs_append, List.nodup_append] at h1
      exact fun hmem => h1.2.2 hmem (by simp [addrs])
    have hdrop : ((cs'' ++ [(t2, y2)]) ++ [(t, y)]).dropLast = cs'' ++ [(t2, y2)] := by
      simp
    have hlast : ((cs'' ++ [(t2, y2)]) ++ [(t, y)]).getLast? = some (t, y) := by
      simp
    rw [hdrop, hlast]
    refine ⟨⟨hupd (hupd m.heap t2 (some ⟨none, backPtr none cs'', y2⟩)) t none, m.free⟩,
            ⟨l.head, some t2, l.len - 1⟩, ?_, ?_, ?_, rfl⟩
    · simp [pop_back, htail, Mem.read, Mem.setNext, Mem.dealloc, hht, hht2, hprev]
    · refine ⟨?_, ?_, ?_, ?_, ?_⟩
      · rw [seg_append]
        refine ⟨?_, ?_⟩
        · refine seg_frame (fun a ha => ?_) hseg''
          have hat2 : a ≠ t2 := fun h => hnd'' (h ▸ ha)
          have hat : a ≠ t := fun h => hndsplit.2 (h ▸ (by
            rw [addrs_append]; exact List.mem_append_left _ ha))
          show hupd (hupd m.heap t2 (some ⟨none, backPtr none cs'', y2⟩)) t none a = m.heap a
          rw [hupd_other _ _ hat, hupd_other _ _ hat2]
        · simp only [seg, frontPtr]
          refine ⟨?_, trivial⟩
          show hupd (hupd m.heap t2 (some ⟨none, backPtr none cs'', y2⟩)) t none t2
              = some ⟨none, backPtr none cs'', y2⟩
          rw [hupd_other _ _ ht2net, hupd_same]
      · show l.head = frontPtr (cs'' ++ [(t2, y2)]) none
        rw [hh, frontPtr_append]
        exact frontPtr_irrel (by simp) _ _
      · show some t2 = backPtr none (cs'' ++ [(t2, y2)])
        rw [backPtr_concat]
      · show l.len - 1 = (cs'' ++ [(t2, y2)]).length
        simp [hl]
      · exact hndsplit.1
    · intro a ha
      have ha' : m.free ≤ a := ha
      show hupd (hupd m.heap t2 (some ⟨none, backPtr none cs'', y2⟩)) t none a = none
      have htlt : t < m.free := hfresh t (by rw [addrs_append]; simp [addrs])
      have ht2lt : t2 < m.free := hfresh t2 (by
        rw [addrs_append]; exact List.mem_append_left _ ht2mem)
      rw [hupd_other _ _ (by omega : a ≠ t), hupd_other _ _ (by omega : a ≠ t2)]
      exact hm a ha'

theorem extend_spec {m : Mem T} {l : DequeueList} {cs : List (Nat × T)} (xs : List T)
    (hm : MemOk m) (hrep : ListRep m.heap l cs) :
    ∃ m' l' cs', extend m l xs = some (m', l') ∧
      ListRep m'.heap l' (cs ++ cs') ∧ elems cs' = xs ∧ MemOk m' := by
  induction xs generalizing m l cs with
  | nil => exact ⟨m, l, [], rfl, by simpa using hrep, rfl, hm⟩
  | cons x rest ih =>
      obtain ⟨m1, l1, heq, hrep1, hm1, -⟩ := push_back_spec hm hrep x
      obtain ⟨m', l', cs'', heq', hrep', helems, hm'⟩ := ih hm1 hrep1
      refine ⟨m', l', (m.free, x) :: cs'', ?_, ?_, ?_, hm'⟩
      · simp [extend, heq, heq']
      · simpa [List.append_assoc] using hrep'
      · simp [helems]

theorem from_iter_spec {m : Mem T} (xs : List T) (hm : MemOk m) :
    ∃ m' l' cs', from_iter m xs = some (m', l') ∧
      ListRep m'.heap l' cs' ∧ elems cs' = xs ∧ MemOk m' := by
  obtain ⟨m', l', cs', heq, hrep, helems, hm'⟩ := extend_spec xs hm (rep_new m.heap)
  exact ⟨m', l', cs', heq, by simpa using hrep, helems, hm'⟩

theorem clearLoop_spec {m : Mem T} {l : DequeueList} {cs : List (Nat × T)}
    (fuel : Nat) (hfuel : cs.length < fuel)
    (hm : MemOk m) (hrep : ListRep m.heap l cs) :
    ∃ m' l', clearLoop fuel m l = some (m', l') ∧
      ListRep m'.heap l' [] ∧ MemOk m' := by
  induction cs generalizing fuel m l with
  | nil =>
      obtain ⟨fuel, rfl⟩ : ∃ f, fuel = f + 1 :=
        ⟨fuel - 1, by omega⟩
      obtain ⟨m1, l1, heq, hrep1, hm1, -⟩ := pop_front_spec hm hrep
      exact ⟨m1, l1, by simp [clearLoop, heq], hrep1, hm1⟩
  | cons c rest ih =>
      obtain ⟨fuel, rfl⟩ : ∃ f, fuel = f + 1 :=
        ⟨fuel - 1, by omega⟩
      obtain ⟨m1, l1, heq, hrep1, hm1, -⟩ := pop_front_spec hm hrep
      obtain ⟨m', l', heq', hrep', hm'⟩ := ih fuel (by simp at hfuel ⊢; omega) hm1 hrep1
      exact ⟨m', l', by simp [clearLoop, heq, heq'], hrep', hm'⟩

theorem clear_spec {m : Mem T} {l : DequeueList} {cs : List (Nat × T)}
    (hm : MemOk m) (hrep : ListRep m.heap l cs) :
    ∃ m' l', clear m l = some (m', l') ∧ ListRep m'.heap l' [] ∧ MemOk m' := by
  have hlen : cs.length < l.len + 1 := by
    obtain ⟨-, -, -, hl, -⟩ := hrep
    omega
  exact clearLoop_spec (l.len + 1) hlen hm hrep

/-! ## Positional lemmas -/

theorem frontPtr_drop (cs : List (Nat × T)) (i : Nat) :
    frontPtr (cs.drop i) none = (cs.get? i).map Prod.fst := by
  induction cs generalizing i with
  | nil => simp
  | cons c cs ih =>
      cases i with
      | zero => simp
      | succ j => simpa using ih j

theorem backPtr_take (cs : List (Nat × T)) (p : Option Nat) :
    ∀ i, i ≤ cs.length →
      backPtr p (cs.take i) = if i = 0 then p else (cs.get? (i - 1)).map Prod.fst := by
  induction cs generalizing p with
  | nil =>
      intro i hi
      have hi0 : i = 0 := by simpa using hi
      subst hi0
      simp
  | cons c cs ih =>
      intro i hi
      cases i with
      | zero => simp
      | succ j =>
          have hj : j ≤ cs.length := by simpa using hi
          rw [List.take_succ_cons, backPtr_cons, ih (some c.1) j hj]
          cases j with
          | zero => simp
          | succ k => simp

theorem seg_split (h : Heap T) {cs : List (Nat × T)} (hseg : seg h none cs none)
    (i : Nat) :
    seg h none (cs.take i) (frontPtr (cs.drop i) none) ∧
      seg h (backPtr none (cs.take i)) (cs.drop i) none := by
  have := (seg_append h none none (cs.take i) (cs.drop i)).mp
    (by rwa [List.take_append_drop])
  exact this

theorem seg_read {h : Heap T} {cs : List (Nat × T)} (hseg : seg h none cs none)
    {i : Nat} (hi : i < cs.length) :
    h (cs.get ⟨i, hi⟩).1 =
      some ⟨(cs.get? (i + 1)).map Prod.fst, backPtr none (cs.take i),
            (cs.get ⟨i, hi⟩).2⟩ := by
  obtain ⟨-, hs2⟩ := seg_split h hseg i
  rw [List.drop_eq_getElem_cons hi] at hs2
  obtain ⟨hread, -⟩ := hs2
  rw [hread]
  congr 1
  show Node.mk (frontPtr (cs.drop (i + 1)) none) _ _ = _
  rw [frontPtr_drop]

theorem get?_lt_length {cs : List (Nat × T)} {i : Nat} {c : Nat × T}
    (h : cs.get? i = some c) : i < cs.length := by
  by_contra hlt
  rw [List.get?_eq_none.mpr (by omega)] at h
  exact Option.noConfusion h

/-! ## Cursor moves -/

theorem move_next_spec {c : CursorSt T} {cs : List (Nat × T)}
    (hrep : ListRep c.mem.heap c.list cs)
    (hcur : CursorRep cs c.current c.index) :
    ∃ c', c.move_next = some c' ∧ c'.mem = c.mem ∧ c'.list = c.list ∧
      CursorRep cs c'.current c'.index ∧ c'.index = nextIndex cs.length c.index := by
  obtain ⟨mem, list, cur, idx⟩ := c
  obtain ⟨hseg, hh, ht, hl, hnd⟩ := hrep
  dsimp only at hseg hh ht hl hnd hcur
  cases idx with
  | none =>
      have hc : cur = none := hcur
      subst hc
      cases cs with
      | nil =>
          have hemp : list.is_empty = true := by simp [DequeueList.is_empty, hl]
          exact ⟨⟨mem, list, none, none⟩, by simp [CursorSt.move_next, hemp], rfl, rfl,
            rfl, by simp [nextIndex]⟩
      | cons c0 rest =>
          have hemp : list.is_empty = false := by simp [DequeueList.is_empty, hl]
          refine ⟨⟨mem, list, list.head, some 0⟩, by simp [CursorSt.move_next, hemp],
            rfl, rfl, ?_, by simp [nextIndex]⟩
          refine ⟨by simp, ?_⟩
          show list.head = ((c0 :: rest).get? 0).map Prod.fst
          rw [hh]
          simp
  | some i =>
      obtain ⟨hi, hc⟩ := hcur
      rw [List.get?_eq_get hi, Option.map_some'] at hc
      subst hc
      have hread := seg_read hseg hi
      cases hnext : cs.get? (i + 1) with
      | some c2 =>
          have hin : i + 1 < cs.length := get?_lt_length hnext
          refine ⟨⟨mem, list, some c2.1, some (i + 1)⟩, ?_, rfl, rfl, ?_, ?_⟩
          · simp only [CursorSt.move_next, Mem.read, hread, hnext, Option.map_some',
              Option.some_bind]
            rfl
          · exact ⟨hin, by rw [hnext]; rfl⟩
          · simp [nextIndex, hin]
      | none =>
          have hin : ¬ i + 1 < cs.length := fun hlt => by
            rw [List.get?_eq_get hlt] at hnext
            exact Option.noConfusion hnext
          refine ⟨⟨mem, list, none, none⟩, ?_, rfl, rfl, ?_, ?_⟩
          · simp only [CursorSt.move_next, Mem.read, hread, hnext, Option.map_none',
              Option.some_bind]
            rfl
          · exact rfl
          · simp [nextIndex, hin]

theorem backPtr_whole (cs : List (Nat × T)) :
    backPtr none cs = if cs.length = 0 then none
      else (cs.get? (cs.length - 1)).map Prod.fst := by
  have := backPtr_take cs none cs.length (le_refl _)
  rwa [List.take_length] at this

theorem move_prev_spec {c : CursorSt T} {cs : List (Nat × T)}
    (hrep : ListRep c.mem.heap c.list cs)
    (hcur : CursorRep cs c.current c.index) :
    ∃ c', c.move_prev = some c' ∧ c'.mem = c.mem ∧ c'.list = c.list ∧
      CursorRep cs c'.current c'.index ∧ c'.index = prevIndex cs.length c.index := by
  obtain ⟨mem, list, cur, idx⟩ := c
  obtain ⟨hseg, hh, ht, hl, hnd⟩ := hrep
  dsimp only at hseg hh ht hl hnd hcur
  cases idx with
  | none =>
      have hc : cur = none := hcur
      subst hc
      cases cs with
      | nil =>
          have hemp : list.is_empty = true := by simp [DequeueList.is_empty, hl]
          exact ⟨⟨mem, list, none, none⟩, by simp [CursorSt.move_prev, hemp], rfl, rfl,
            rfl, by simp [prevIndex]⟩
      | cons c0 rest =>
          have hemp : list.is_empty = false := by simp [DequeueList.is_empty, hl]
          refine ⟨⟨mem, list, list.tail, some (list.len - 1)⟩,
            by simp [CursorSt.move_prev, hemp], rfl, rfl, ?_, by simp [prevIndex, hl]⟩
          rw [hl]
          refine ⟨by simp, ?_⟩
          show list.tail = (((c0 :: rest).get? ((c0 :: rest).length - 1))).map Prod.fst
          rw [ht, backPtr_whole]
          simp
  | some i =>
      obtain ⟨hi, hc⟩ := hcur
      rw [List.get?_eq_get hi, Option.map_some'] at hc
      subst hc
      have hread := seg_read hseg hi
      have hprev : backPtr none (cs.take i) =
          if i = 0 then none else (cs.get? (i - 1)).map Prod.fst :=
        backPtr_take cs none i (le_of_lt hi)
      cases i with
      | zero =>
          rw [if_pos rfl] at hprev
          rw [hprev] at hread
          refine ⟨⟨mem, list, none, none⟩, ?_, rfl, rfl, rfl, by simp [prevIndex]⟩
          simp only [CursorSt.move_prev, Mem.read, hread, Option.some_bind]
          rfl
      | succ j =>
          rw [if_neg (by omega)] at hprev
          have hj : j < cs.length := by omega
          rw [show j + 1 - 1 = j from rfl, List.get?_eq_get hj, Option.map_some'] at hprev
          rw [hprev] at hread
          refine ⟨⟨mem, list, some (cs.get ⟨j, hj⟩).1, some j⟩, ?_, rfl, rfl, ?_, ?_⟩
          · simp only [CursorSt.move_prev, Mem.read, hread, Option.some_bind]
            rfl
          · exact ⟨hj, by rw [List.get?_eq_get hj]; rfl⟩
          · simp [prevIndex]

theorem current_elem_spec {c : CursorSt T} {cs : List (Nat × T)}
    (hrep : ListRep c.mem.heap c.list cs)
    (hcur : CursorRep cs c.current c.index) :
    c.current_elem = some (match c.index with
      | none => none
      | some i => (cs.get? i).map Prod.snd) := by
  obtain ⟨mem, list, cur, idx⟩ := c
  obtain ⟨hseg, hh, ht, hl, hnd⟩ := hrep
  dsimp only at hseg hh ht hl hnd hcur ⊢
  cases idx with
  | none =>
      have hc : cur = none := hcur
      subst hc
      rfl
  | some i =>
      obtain ⟨hi, hc⟩ := hcur
      rw [List.get?_eq_get hi, Option.map_some'] at hc
      subst hc
      have hread := seg_read hseg hi
      simp only [CursorSt.current_elem, Mem.read, hread, Option.map_some']
      rw [List.get?_eq_get hi]
      rfl

theorem peek_next_spec {c : CursorSt T} {cs : List (Nat × T)}
    (hrep : ListRep c.mem.heap c.list cs)
    (hcur : CursorRep cs c.current c.index) :
    c.peek_next = some ((cs.get? (match c.index with
      | none => 0
      | some i => i + 1)).map Prod.snd) := by
  obtain ⟨mem, list, cur, idx⟩ := c
  obtain ⟨hseg, hh, ht, hl, hnd⟩ := hrep
  dsimp only at hseg hh ht hl hnd hcur ⊢
  cases idx with
  | none =>
      have hc : cur = none := hcur
      subst hc
      cases hcs : cs with
      | nil =>
          have hhead : list.head = none := by rw [hh, hcs]; rfl
          simp [CursorSt.peek_next, hhead, hcs]
      | cons c0 rest =>
          subst hcs
          have hhead : list.head = some c0.1 := by rw [hh]; rfl
          have hread := seg_read hseg (show 0 < (c0 :: rest).length by simp)
          simp only [CursorSt.peek_next, hhead, Option.pure_def, Option.bind_eq_bind, Option.some_bind, Mem.read]
          rw [show ((c0 :: rest).get ⟨0, by simp⟩).1 = c0.1 from rfl] at hread
          rw [hread]
          rfl
  | some i =>
      obtain ⟨hi, hc⟩ := hcur
      rw [List.get?_eq_get hi, Option.map_some'] at hc
      subst hc
      have hread := seg_read hseg hi
      simp only [CursorSt.peek_next, Mem.read, hread, Option.pure_def, Option.bind_eq_bind, Option.some_bind]
      cases hnext : cs.get? (i + 1) with
      | none => rfl
      | some c2 =>
          have hin : i + 1 < cs.length := get?_lt_length hnext
          have hread2 := seg_read hseg hin
          have hc2 : (cs.get ⟨i + 1, hin⟩) = c2 := by
            have := List.get?_eq_get hin
            rw [hnext] at this
            exact (Option.some.injEq _ _).mp this.symm
          simp only [Option.map_some', hc2] at hread2 ⊢
          rw [hread2]
          rfl

theorem peek_prev_spec {c : CursorSt T} {cs : List (Nat × T)}
    (hrep : ListRep c.mem.heap c.list cs)
    (hcur : CursorRep cs c.current c.index) :
    c.peek_prev = some (match c.index with
      | none => (cs.get? (cs.length - 1)).map Prod.snd
      | some i => if i = 0 then none else (cs.get? (i - 1)).map Prod.snd) := by
  obtain ⟨mem, list, cur, idx⟩ := c
  obtain ⟨hseg, hh, ht, hl, hnd⟩ := hrep
  dsimp only at hseg hh ht hl hnd hcur ⊢
  cases idx with
  | none =>
      have hc : cur = none := hcur
      subst hc
      cases hcs : cs with
      | nil =>
          have htail : list.tail = none := by rw [ht, hcs]; rfl
          simp [CursorSt.peek_prev, htail, hcs]
      | cons c0 rest =>
          subst hcs
          have hlen : (c0 :: rest).length - 1 < (c0 :: rest).length := by simp
          have htail : list.tail = some ((c0 :: rest).get
              ⟨(c0 :: rest).length - 1, hlen⟩).1 := by
            rw [ht, backPtr_whole, if_neg (by simp), List.get?_eq_get hlen]
            rfl
          have hread := seg_read hseg hlen
          simp only [CursorSt.peek_prev, htail, Option.pure_def, Option.bind_eq_bind, Option.some_bind, Mem.read, hread]
          rw [List.get?_eq_get hlen]
          rfl
  | some i =>
      obtain ⟨hi, hc⟩ := hcur
      rw [List.get?_eq_get hi, Option.map_some'] at hc
      subst hc
      have hread := seg_read hseg hi
      have hprev : backPtr none (cs.take i) =
          if i = 0 then none else (cs.get? (i - 1)).map Prod.fst :=
        backPtr_take cs none i (le_of_lt hi)
      cases i with
      | zero =>
          rw [if_pos rfl] at hprev
          rw [hprev] at hread
          simp only [CursorSt.peek_prev, Mem.read, hread, Option.pure_def, Option.bind_eq_bind, Option.some_bind]
          rfl
      | succ j =>
          rw [if_neg (by omega)] at hprev
          have hj : j < cs.length := by omega
          rw [show j + 1 - 1 = j from rfl, List.get?_eq_get hj, Option.map_some'] at hprev
          rw [hprev] at hread
          have hread2 := seg_read hseg hj
          simp only [CursorSt.peek_prev, Mem.read, hread, Option.pure_def, Option.bind_eq_bind, Option.some_bind, Option.map_some', hread2]
          rw [if_neg (by omega), show j + 1 - 1 = j from rfl, List.get?_eq_get hj]
          rfl

/-! ## Chain surgery helpers -/

theorem seg_retarget_back {h h' : Heap T} {p q v : Option Nat} {A : List (Nat × T)}
    {c0 : Nat × T}
    (hs : seg h p (A ++ [c0]) q)
    (hframe : ∀ a ∈ addrs A, h' a = h a)
    (hb : h' c0.1 = some ⟨v, backPtr p A, c0.2⟩) :
    seg h' p (A ++ [c0]) v := by
  obtain ⟨b, e⟩ := c0
  rw [seg_append] at hs ⊢
  exact ⟨seg_frame hframe hs.1, (seg_singleton h' _ v b e).mpr hb⟩

theorem seg_retarget_front {h h' : Heap T} {p q v : Option Nat} {B : List (Nat × T)}
    {c0 : Nat × T}
    (hs : seg h p (c0 :: B) q)
    (hframe : ∀ a ∈ addrs B, h' a = h a)
    (hb : h' c0.1 = some ⟨frontPtr B q, v, c0.2⟩) :
    seg h' v (c0 :: B) q := by
  obtain ⟨b, e⟩ := c0
  exact ⟨hb, seg_frame hframe hs.2⟩

theorem frontPtr_take {cs : List (Nat × T)} {i : Nat} (hi : i ≠ 0) (q : Option Nat) :
    frontPtr (cs.take i) q = frontPtr cs q := by
  cases cs with
  | nil => simp
  | cons c rest =>
      cases i with
      | zero => exact absurd rfl hi
      | succ j => rfl

theorem backPtr_acc_irrel {cs : List (Nat × T)} (hne : cs ≠ []) (p q : Option Nat) :
    backPtr p cs = backPtr q cs := by
  cases cs with
  | nil => exact absurd rfl hne
  | cons c rest => rfl

theorem backPtr_drop {cs : List (Nat × T)} {i : Nat} (hi : i < cs.length)
    (p : Option Nat) : backPtr p (cs.drop i) = backPtr none cs := by
  conv_rhs => rw [← List.take_append_drop i cs]
  rw [backPtr_append]
  exact backPtr_acc_irrel (by
    intro hdrop
    have := congrArg List.length hdrop
    simp at this
    omega) p _

theorem take_succ_get (cs : List (Nat × T)) :
    ∀ i (hi : i < cs.length), cs.take (i + 1) = cs.take i ++ [cs.get ⟨i, hi⟩] := by
  induction cs with
  | nil => intro i hi; simp at hi
  | cons c rest ih =>
      intro i hi
      cases i with
      | zero => simp
      | succ j =>
          have hj : j < rest.length := by simpa using hi
          simp only [List.take_succ_cons, List.cons_append, List.cons.injEq, true_and]
          exact ih j hj

theorem addrs_take (cs : List (Nat × T)) (i : Nat) :
    addrs (cs.take i) = (addrs cs).take i := by
  simp [addrs, List.map_take]

theorem addrs_drop (cs : List (Nat × T)) (i : Nat) :
    addrs (cs.drop i) = (addrs cs).drop i := by
  simp [addrs, List.map_drop]

theorem get_mem_drop {cs : List (Nat × T)} {j k : Nat} (hjk : j ≤ k)
    (hk : k < cs.length) : (cs.get ⟨k, hk⟩) ∈ cs.drop j := by
  have hk' : k - j < (cs.drop j).length := by simp; omega
  have h0 : (cs.drop j).get? (k - j) = cs.get? (j + (k - j)) := by
    simp [List.get?_eq_getElem?, List.getElem?_drop]
  rw [show j + (k - j) = k from by omega, List.get?_eq_get hk, List.get?_eq_get hk'] at h0
  have heq : (cs.drop j).get ⟨k - j, hk'⟩ = cs.get ⟨k, hk⟩ :=
    (Option.some.injEq _ _).mp h0
  rw [← heq]
  exact List.get_mem _ _ _

theorem get_mem_take {cs : List (Nat × T)} {j k : Nat} (hkj : k < j)
    (hk : k < cs.length) : (cs.get ⟨k, hk⟩) ∈ cs.take j := by
  have hk2 : k < (cs.take j).length := by simp; omega
  have h0 : (cs.take j).get? k = cs.get? k := by
    simp [List.get?_eq_getElem?, List.getElem?_take_of_lt hkj]
  rw [List.get?_eq_get hk, List.get?_eq_get hk2] at h0
  have heq : (cs.take j).get ⟨k, hk2⟩ = cs.get ⟨k, hk⟩ :=
    (Option.some.injEq _ _).mp h0
  rw [← heq]
  exact List.get_mem _ _ _

theorem mem_take_ne_get {cs : List (Nat × T)} (hnd : (addrs cs).Nodup)
    {j k : Nat} (hjk : j ≤ k) (hk : k < cs.length) :
    ∀ a ∈ addrs (cs.take j), a ≠ (cs.get ⟨k, hk⟩).1 := by
  intro a ha hak
  have hsplit := hnd
  rw [← List.take_append_drop j (addrs cs), List.nodup_append] at hsplit
  have hmem2 : (cs.get ⟨k, hk⟩).1 ∈ (addrs cs).drop j := by
    rw [← addrs_drop]
    exact List.mem_map_of_mem Prod.fst (get_mem_drop hjk hk)
  have hmem1 : a ∈ (addrs cs).take j := by rwa [← addrs_take]
  exact hsplit.2.2 hmem1 (hak ▸ hmem2)

theorem mem_drop_ne_get {cs : List (Nat × T)} (hnd : (addrs cs).Nodup)
    {j k : Nat} (hkj : k < j) (hk : k < cs.length) :
    ∀ a ∈ addrs (cs.drop j), a ≠ (cs.get ⟨k, hk⟩).1 := by
  intro a ha hak
  have hsplit := hnd
  rw [← List.take_append_drop j (addrs cs), List.nodup_append] at hsplit
  have hmem1 : (cs.get ⟨k, hk⟩).1 ∈ (addrs cs).take j := by
    rw [← addrs_take]
    exact List.mem_map_of_mem Prod.fst (get_mem_take hkj hk)
  have hmem2 : a ∈ (addrs cs).drop j := by rwa [← addrs_drop]
  exact hsplit.2.2 hmem1 (hak ▸ hmem2)

theorem addr_get_ne {cs : List (Nat × T)} (hnd : (addrs cs).Nodup)
    {i j : Nat} (hi : i < cs.length) (hj : j < cs.length) (hij : i ≠ j) :
    (cs.get ⟨i, hi⟩).1 ≠ (cs.get ⟨j, hj⟩).1 := by
  intro h
  have hi' : i < (addrs cs).length := by simpa using hi
  have hj' : j < (addrs cs).length := by simpa using hj
  have hgi : (addrs cs).get ⟨i, hi'⟩ = (cs.get ⟨i, hi⟩).1 := List.get_map _
  have hgj : (addrs cs).get ⟨j, hj'⟩ = (cs.get ⟨j, hj⟩).1 := List.get_map _
  have : (addrs cs).get ⟨i, hi'⟩ = (addrs cs).get ⟨j, hj'⟩ := by rw [hgi, hgj, h]
  have := List.Nodup.get_inj_iff hnd |>.mp this
  simp at this
  exact hij this

theorem cells_sub_nodup {cs : List (Nat × T)} (hnd : (addrs cs).Nodup) (i : Nat) :
    (addrs (cs.take i ++ cs.drop (i + 1))).Nodup := by
  have hsub : List.Sublist (cs.take i ++ cs.drop (i + 1)) cs := by
    conv_rhs => rw [← List.take_append_drop i cs]
    refine List.Sublist.append (List.Sublist.refl _) ?_
    rw [show cs.drop (i + 1) = (cs.drop i).drop 1 from by rw [List.drop_drop, Nat.add_comm]]
    exact List.drop_sublist 1 _
  have hsub2 : List.Sublist (addrs (cs.take i ++ cs.drop (i + 1))) (addrs cs) := by
    simpa [addrs] using hsub.map Prod.fst
  exact List.Nodup.sublist hsub2 hnd

/-! ## `remove_current` -/

theorem remove_current_ghost {c : CursorSt T} (hc : c.current = none) :
    c.remove_current = some (c, none) := by
  obtain ⟨mem, list, cur, idx⟩ := c
  dsimp only at hc
  subst hc
  by_cases h : list.is_empty <;> simp [CursorSt.remove_current, h]

theorem remove_current_spec {c : CursorSt T} {cs : List (Nat × T)} {i : Nat}
    (hm : MemOk c.mem)
    (hrep : ListRep c.mem.heap c.list cs)
    (hcur : CursorRep cs c.current c.index) (hidx : c.index = some i) :
    ∃ m', c.remove_current = some
      (⟨m', ⟨frontPtr (cs.take i ++ cs.drop (i + 1)) none,
             backPtr none (cs.take i ++ cs.drop (i + 1)),
             c.list.len - 1⟩,
        (cs.get? (i + 1)).map Prod.fst, c.index⟩,
       (cs.get? i).map Prod.snd) ∧
      ListRep m'.heap
        ⟨frontPtr (cs.take i ++ cs.drop (i + 1)) none,
         backPtr none (cs.take i ++ cs.drop (i + 1)), c.list.len - 1⟩
        (cs.take i ++ cs.drop (i + 1)) ∧
      MemOk m' ∧ m'.free = c.mem.free := by
  obtain ⟨mem, list, cur, idx⟩ := c
  obtain ⟨hseg, hh, ht, hl, hnd⟩ := hrep
  dsimp only at hm hseg hh ht hl hnd hcur hidx ⊢
  subst hidx
  obtain ⟨hi, hc⟩ := hcur
  rw [List.get?_eq_get hi, Option.map_some'] at hc
  subst hc
  have hne : list.is_empty = false := by
    have hlen0 : list.len ≠ 0 := by rw [hl]; omega
    simp [DequeueList.is_empty, hlen0]
  have hread := seg_read hseg hi
  have hfresh : ∀ a ∈ addrs cs, a < mem.free := addr_lt_free hm hseg
  have hailt : mem.heap (cs.get ⟨i, hi⟩).1 ≠ none := by rw [hread]; exact Option.noConfusion
  have hai_lt : (cs.get ⟨i, hi⟩).1 < mem.free :=
    hfresh _ (List.mem_map_of_mem Prod.fst (List.get_mem _ _ _))
  rw [List.get?_eq_get hi, Option.map_some']
  cases hnext : cs.get? (i + 1) with
  | some c2 =>
      have hin : i + 1 < cs.length := get?_lt_length hnext
      have hc2 : cs.get ⟨i + 1, hin⟩ = c2 := by
        have h0 := List.get?_eq_get hin
        rw [hnext] at h0
        exact (Option.some.injEq _ _).mp h0.symm
      have hna_lt : c2.1 < mem.free := by
        rw [← hc2]
        exact hfresh _ (List.mem_map_of_mem Prod.fst (List.get_mem _ _ _))
      have hnai : c2.1 ≠ (cs.get ⟨i, hi⟩).1 := by
        rw [← hc2]
        exact addr_get_ne hnd hin hi (by omega)
      have hfrontB : frontPtr (cs.drop (i + 1)) none = some c2.1 := by
        rw [frontPtr_drop, hnext, Option.map_some']
      have hreadna : mem.heap c2.1 = some ⟨(cs.get? (i + 2)).map Prod.fst,
          backPtr none (cs.take (i + 1)), c2.2⟩ := by
        have := seg_read hseg hin
        rwa [hc2] at this
      have hprev_i1 : backPtr none (cs.take (i + 1)) = some (cs.get ⟨i, hi⟩).1 := by
        rw [backPtr_take cs none (i + 1) (by omega), if_neg (by omega),
          show i + 1 - 1 = i from rfl, List.get?_eq_get hi, Option.map_some']
      rw [hprev_i1] at hreadna
      have hdropcons : cs.drop (i + 1) = c2 :: cs.drop (i + 2) := by
        rw [List.drop_eq_getElem_cons hin]
        congr 1
      have htail' : list.tail = backPtr none (cs.take i ++ cs.drop (i + 1)) := by
        rw [backPtr_append, backPtr_acc_irrel (by rw [hdropcons]; exact List.cons_ne_nil _ _)
          (backPtr none (cs.take i)) none, backPtr_drop hin, ht]
      cases i with
      | zero =>
          -- remove the head, successor exists
          have hprev : backPtr none (cs.take 0) = none := rfl
          rw [hprev] at hread
          have hhead' : some c2.1 =
              frontPtr (cs.take 0 ++ cs.drop 1) none := by
            rw [List.take_zero, List.nil_append, hfrontB]
          refine ⟨⟨hupd (hupd mem.heap c2.1
              (some ⟨(cs.get? 2).map Prod.fst, none, c2.2⟩)) (cs.get ⟨0, hi⟩).1 none,
              mem.free⟩, ?_, ?_, ?_, rfl⟩
          · rw [← htail', ← hhead']
            simp only [List.get_eq_getElem, List.get?_eq_getElem?] at hread hreadna hnai hnext
            simp [CursorSt.remove_current, hne, Mem.read, hread, hfrontB, Mem.setPrev,
              Mem.setNext, Mem.dealloc, hreadna, hupd, hnai, hnext, hl]
          · refine ⟨?_, rfl, rfl, ?_, cells_sub_nodup hnd 0⟩
            · rw [List.take_zero, List.nil_append, hdropcons]
              refine @seg_retarget_front T mem.heap _ (some (cs.get ⟨0, hi⟩).1) none none
                _ _ ?_ ?_ ?_
              · rw [← hdropcons]
                have := (seg_split mem.heap hseg 1).2
                rwa [backPtr_take cs none 1 (by omega), if_neg (by omega),
                  List.get?_eq_get hi, Option.map_some'] at this
              · intro a ha
                have h1 : a ≠ c2.1 := by
                  rw [← hc2]
                  exact mem_drop_ne_get hnd (by omega) hin a ha
                have h2 : a ≠ (cs.get ⟨0, hi⟩).1 := mem_drop_ne_get hnd (by omega) hi a ha
                show hupd (hupd mem.heap c2.1
                    (some ⟨(cs.get? 2).map Prod.fst, none, c2.2⟩))
                    (cs.get ⟨0, hi⟩).1 none a = mem.heap a
                rw [hupd_other _ _ h2, hupd_other _ _ h1]
              · show hupd (hupd mem.heap c2.1
                    (some ⟨(cs.get? 2).map Prod.fst, none, c2.2⟩))
                    (cs.get ⟨0, hi⟩).1 none c2.1
                  = some ⟨frontPtr (cs.drop (0 + 2)) none, none, c2.2⟩
                rw [hupd_other _ _ hnai, hupd_same, frontPtr_drop]
            · show list.len - 1 = (cs.take 0 ++ cs.drop 1).length
              simp [hl] <;> omega
          · intro a ha
            have ha' : mem.free ≤ a := ha
            show hupd (hupd mem.heap c2.1 _) (cs.get ⟨0, hi⟩).1 none a = none
            rw [hupd_other _ _ (by omega : a ≠ (cs.get ⟨0, hi⟩).1),
              hupd_other _ _ (by omega : a ≠ c2.1)]
            exact hm a ha'
      | succ j =>
          -- interior removal
          have hj : j < cs.length := by omega
          have hprev : backPtr none (cs.take (j + 1)) = some (cs.get ⟨j, hj⟩).1 := by
            rw [backPtr_take cs none (j + 1) (by omega), if_neg (by omega),
              show j + 1 - 1 = j from rfl, List.get?_eq_get hj, Option.map_some']
          rw [hprev] at hread
          have hreadpa : mem.heap (cs.get ⟨j, hj⟩).1 =
              some ⟨some (cs.get ⟨j + 1, hi⟩).1, backPtr none (cs.take j),
                (cs.get ⟨j, hj⟩).2⟩ := by
            have := seg_read hseg hj
            rwa [List.get?_eq_get hi, Option.map_some'] at this
          have hpa_lt : (cs.get ⟨j, hj⟩).1 < mem.free :=
            hfresh _ (List.mem_map_of_mem Prod.fst (List.get_mem _ _ _))
          have hpana : (cs.get ⟨j, hj⟩).1 ≠ c2.1 := by
            rw [← hc2]
            exact addr_get_ne hnd hj hin (by omega)
          have hpaai : (cs.get ⟨j, hj⟩).1 ≠ (cs.get ⟨j + 1, hi⟩).1 :=
            addr_get_ne hnd hj hi (by omega)
          have hhead' : list.head = frontPtr (cs.take (j + 1) ++ cs.drop (j + 2)) none := by
            rw [frontPtr_append, frontPtr_take (by omega : j + 1 ≠ 0), hh]
            exact frontPtr_irrel (by
              intro h0
              rw [h0] at hi
              simp at hi) none _
          refine ⟨⟨hupd (hupd (hupd mem.heap (cs.get ⟨j, hj⟩).1
              (some ⟨some c2.1, backPtr none (cs.take j), (cs.get ⟨j, hj⟩).2⟩)) c2.1
              (some ⟨(cs.get? (j + 3)).map Prod.fst, some (cs.get ⟨j, hj⟩).1, c2.2⟩))
              (cs.get ⟨j + 1, hi⟩).1 none,
              mem.free⟩, ?_, ?_, ?_, rfl⟩
          · rw [← htail', ← hhead']
            have hnapa : c2.1 ≠ (cs.get ⟨j, hj⟩).1 := fun h => hpana h.symm
            have haipa : (cs.get ⟨j + 1, hi⟩).1 ≠ (cs.get ⟨j, hj⟩).1 := fun h => hpaai h.symm
            simp only [List.get_eq_getElem, List.get?_eq_getElem?] at hread hreadpa hreadna hnai hpana hpaai hnapa haipa hnext
            simp [CursorSt.remove_current, hne, Mem.read, hread, hfrontB, Mem.setPrev,
              Mem.setNext, Mem.dealloc, hreadpa, hreadna, hupd, hnai, hpana, hpaai, hl,
              hnapa, haipa, hnext]
          · refine ⟨?_, rfl, rfl, ?_, cells_sub_nodup hnd (j + 1)⟩
            · rw [seg_append]
              constructor
              · -- front piece retargeted at its back
                rw [hfrontB, take_succ_get cs j hj]
                refine @seg_retarget_back T mem.heap _ none
                  (frontPtr (cs.drop (j + 1)) none) _ _ _ ?_ ?_ ?_
                · rw [← take_succ_get cs j hj]
                  exact (seg_split mem.heap hseg (j + 1)).1
                · intro a ha
                  have h1 : a ≠ (cs.get ⟨j, hj⟩).1 := mem_take_ne_get hnd (le_refl j) hj a ha
                  have h2 : a ≠ c2.1 := by
                    have := mem_take_ne_get hnd (show j ≤ j + 1 + 1 from by omega) hin a ha
                    rwa [hc2] at this
                  have h3 : a ≠ (cs.get ⟨j + 1, hi⟩).1 :=
                    mem_take_ne_get hnd (show j ≤ j + 1 from by omega) hi a ha
                  show hupd (hupd (hupd mem.heap (cs.get ⟨j, hj⟩).1
                      (some ⟨some c2.1, backPtr none (cs.take j), (cs.get ⟨j, hj⟩).2⟩)) c2.1
                      (some ⟨(cs.get? (j + 3)).map Prod.fst, some (cs.get ⟨j, hj⟩).1, c2.2⟩))
                      (cs.get ⟨j + 1, hi⟩).1 none a = mem.heap a
                  rw [hupd_other _ _ h3, hupd_other _ _ h2, hupd_other _ _ h1]
                · show hupd (hupd (hupd mem.heap (cs.get ⟨j, hj⟩).1
                      (some ⟨some c2.1, backPtr none (cs.take j), (cs.get ⟨j, hj⟩).2⟩)) c2.1
                      (some ⟨(cs.get? (j + 3)).map Prod.fst, some (cs.get ⟨j, hj⟩).1, c2.2⟩))
                      (cs.get ⟨j + 1, hi⟩).1 none (cs.get ⟨j, hj⟩).1
                    = some ⟨some c2.1, backPtr none (cs.take j), (cs.get ⟨j, hj⟩).2⟩
                  rw [hupd_other _ _ (show (cs.get ⟨j, hj⟩).1 ≠ (cs.get ⟨j + 1, hi⟩).1
                      from hpaai),
                    hupd_other _ _ (show (cs.get ⟨j, hj⟩).1 ≠ c2.1 from hpana), hupd_same]
              · -- back piece retargeted at its front
                rw [hdropcons, hprev]
                refine @seg_retarget_front T mem.heap _ (some (cs.get ⟨j + 1, hi⟩).1) none
                  _ _ _ ?_ ?_ ?_
                · rw [← hdropcons]
                  have := (seg_split mem.heap hseg (j + 1 + 1)).2
                  rwa [backPtr_take cs none (j + 1 + 1) (by omega), if_neg (by omega),
                    show j + 1 + 1 - 1 = j + 1 from rfl, List.get?_eq_get hi,
                    Option.map_some'] at this
                · intro a ha
                  have h1 : a ≠ (cs.get ⟨j, hj⟩).1 :=
                    mem_drop_ne_get hnd (show j < j + 1 + 2 from by omega) hj a ha
                  have h2 : a ≠ c2.1 := by
                    have := mem_drop_ne_get hnd (show j + 1 + 1 < j + 1 + 2 from by omega) hin a ha
                    rwa [hc2] at this
                  have h3 : a ≠ (cs.get ⟨j + 1, hi⟩).1 :=
                    mem_drop_ne_get hnd (show j + 1 < j + 1 + 2 from by omega) hi a ha
                  show hupd (hupd (hupd mem.heap (cs.get ⟨j, hj⟩).1
                      (some ⟨some c2.1, backPtr none (cs.take j), (cs.get ⟨j, hj⟩).2⟩)) c2.1
                      (some ⟨(cs.get? (j + 3)).map Prod.fst, some (cs.get ⟨j, hj⟩).1, c2.2⟩))
                      (cs.get ⟨j + 1, hi⟩).1 none a = mem.heap a
                  rw [hupd_other _ _ h3, hupd_other _ _ h2, hupd_other _ _ h1]
                · show hupd (hupd (hupd mem.heap (cs.get ⟨j, hj⟩).1
                      (some ⟨some c2.1, backPtr none (cs.take j), (cs.get ⟨j, hj⟩).2⟩)) c2.1
                      (some ⟨(cs.get? (j + 3)).map Prod.fst, some (cs.get ⟨j, hj⟩).1, c2.2⟩))
                      (cs.get ⟨j + 1, hi⟩).1 none c2.1
                    = some ⟨frontPtr (cs.drop (j + 1 + 2)) none, some (cs.get ⟨j, hj⟩).1, c2.2⟩
                  rw [hupd_other _ _ hnai, hupd_same, frontPtr_drop]
            · show list.len - 1 = (cs.take (j + 1) ++ cs.drop (j + 1 + 1)).length
              simp [hl] <;> omega
          · intro a ha
            have ha' : mem.free ≤ a := ha
            show hupd (hupd (hupd mem.heap (cs.get ⟨j, hj⟩).1 _) c2.1 _)
              (cs.get ⟨j + 1, hi⟩).1 none a = none
            rw [hupd_other _ _ (by omega : a ≠ (cs.get ⟨j + 1, hi⟩).1),
              hupd_other _ _ (by omega : a ≠ c2.1),
              hupd_other _ _ (by omega : a ≠ (cs.get ⟨j, hj⟩).1)]
            exact hm a ha'
  | none =>
      have hlen : cs.length = i + 1 := by
        have h0 : cs.length ≤ i + 1 := by
          by_contra h1
          rw [List.get?_eq_get (by omega : i + 1 < cs.length)] at hnext
          exact Option.noConfusion hnext
        omega
      have hdropnil : cs.drop (i + 1) = [] := List.drop_eq_nil_of_le (by omega)
      cases i with
      | zero =>
          -- the only node is removed
          have hprev : backPtr none (cs.take 0) = none := rfl
          rw [hprev] at hread
          have htake : cs.take 0 ++ cs.drop 1 = [] := by rw [hdropnil]; simp
          rw [htake]
          refine ⟨⟨hupd mem.heap (cs.get ⟨0, hi⟩).1 none, mem.free⟩, ?_, ?_, ?_, rfl⟩
          · simp only [List.get_eq_getElem, List.get?_eq_getElem?] at hread
            simp [CursorSt.remove_current, hne, Mem.read, hread,
              List.getElem?_eq_none_iff.mpr (by omega : cs.length ≤ 1), Mem.dealloc, hl]
          · exact ⟨trivial, rfl, rfl, by simp [hl, hlen], by simp [addrs]⟩
          · intro a ha
            have ha' : mem.free ≤ a := ha
            show hupd mem.heap (cs.get ⟨0, hi⟩).1 none a = none
            rw [hupd_other _ _ (by omega : a ≠ (cs.get ⟨0, hi⟩).1)]
            exact hm a ha'
      | succ j =>
          -- remove the tail, predecessor exists
          have hj : j < cs.length := by omega
          have hprev : backPtr none (cs.take (j + 1)) = some (cs.get ⟨j, hj⟩).1 := by
            rw [backPtr_take cs none (j + 1) (by omega), if_neg (by omega),
              show j + 1 - 1 = j from rfl, List.get?_eq_get hj, Option.map_some']
          rw [hprev] at hread
          have hreadpa : mem.heap (cs.get ⟨j, hj⟩).1 =
              some ⟨some (cs.get ⟨j + 1, hi⟩).1, backPtr none (cs.take j),
                (cs.get ⟨j, hj⟩).2⟩ := by
            have := seg_read hseg hj
            rwa [List.get?_eq_get hi, Option.map_some'] at this
          have hpa_lt : (cs.get ⟨j, hj⟩).1 < mem.free :=
            hfresh _ (List.mem_map_of_mem Prod.fst (List.get_mem _ _ _))
          have hpaai : (cs.get ⟨j, hj⟩).1 ≠ (cs.get ⟨j + 1, hi⟩).1 :=
            addr_get_ne hnd hj hi (by omega)
          have hcells : cs.take (j + 1) ++ cs.drop (j + 2) = cs.take (j + 1) := by
            rw [hdropnil]; simp
          rw [hcells]
          have hhead' : list.head = frontPtr (cs.take (j + 1)) none := by
            rw [frontPtr_take (by omega : j + 1 ≠ 0), hh]
          have htail2 : backPtr none (cs.take (j + 1)) = some (cs.get ⟨j, hj⟩).1 := hprev
          rw [htail2]
          refine ⟨⟨hupd (hupd mem.heap (cs.get ⟨j, hj⟩).1
              (some ⟨none, backPtr none (cs.take j), (cs.get ⟨j, hj⟩).2⟩))
              (cs.get ⟨j + 1, hi⟩).1 none,
              mem.free⟩, ?_, ?_, ?_, rfl⟩
          · rw [← hhead']
            have haipa : (cs.get ⟨j + 1, hi⟩).1 ≠ (cs.get ⟨j, hj⟩).1 := fun h => hpaai h.symm
            simp only [List.get_eq_getElem, List.get?_eq_getElem?] at hread hreadpa hpaai haipa
            simp [CursorSt.remove_current, hne, Mem.read, hread, Mem.setNext, Mem.dealloc,
              List.getElem?_eq_none_iff.mpr (by omega : cs.length ≤ j + 1 + 1), hreadpa, hupd,
              hpaai, hl, haipa]
          · refine ⟨?_, rfl, htail2.symm, ?_, ?_⟩
            · rw [take_succ_get cs j hj]
              refine @seg_retarget_back T mem.heap _ none
                (frontPtr (cs.drop (j + 1)) none) _ _ _ ?_ ?_ ?_
              · rw [← take_succ_get cs j hj]
                exact (seg_split mem.heap hseg (j + 1)).1
              · intro a ha
                have h1 : a ≠ (cs.get ⟨j, hj⟩).1 := mem_take_ne_get hnd (le_refl j) hj a ha
                have h3 : a ≠ (cs.get ⟨j + 1, hi⟩).1 :=
                  mem_take_ne_get hnd (show j ≤ j + 1 from by omega) hi a ha
                show hupd (hupd mem.heap (cs.get ⟨j, hj⟩).1
                    (some ⟨none, backPtr none (cs.take j), (cs.get ⟨j, hj⟩).2⟩))
                    (cs.get ⟨j + 1, hi⟩).1 none a = mem.heap a
                rw [hupd_other _ _ h3, hupd_other _ _ h1]
              · show hupd (hupd mem.heap (cs.get ⟨j, hj⟩).1
                    (some ⟨none, backPtr none (cs.take j), (cs.get ⟨j, hj⟩).2⟩))
                    (cs.get ⟨j + 1, hi⟩).1 none (cs.get ⟨j, hj⟩).1
                  = some ⟨none, backPtr none (cs.take j), (cs.get ⟨j, hj⟩).2⟩
                rw [hupd_other _ _ (show (cs.get ⟨j, hj⟩).1 ≠ (cs.get ⟨j + 1, hi⟩).1
                    from hpaai), hupd_same]
            · show list.len - 1 = (cs.take (j + 1)).length
              simp [hl] <;> omega
            · have := cells_sub_nodup hnd (j + 1)
              rwa [hcells] at this
          · intro a ha
            have ha' : mem.free ≤ a := ha
            show hupd (hupd mem.heap (cs.get ⟨j, hj⟩).1 _)
              (cs.get ⟨j + 1, hi⟩).1 none a = none
            rw [hupd_other _ _ (by omega : a ≠ (cs.get ⟨j + 1, hi⟩).1),
              hupd_other _ _ (by omega : a ≠ (cs.get ⟨j, hj⟩).1)]
            exact hm a ha'

/-! ## `split_before` / `split_after` -/

theorem split_before_ghost {c : CursorSt T} (hc : c.current = none) :
    c.split_before = some ({ c with list := DequeueList.new }, c.list) := by
  obtain ⟨mem, list, cur, idx⟩ := c
  dsimp only at hc
  subst hc
  rfl

theorem split_after_ghost {c : CursorSt T} (hc : c.current = none) :
    c.split_after = some ({ c with list := DequeueList.new }, c.list) := by
  obtain ⟨mem, list, cur, idx⟩ := c
  dsimp only at hc
  subst hc
  rfl

theorem split_before_spec {c : CursorSt T} {cs : List (Nat × T)} {i : Nat}
    (hm : MemOk c.mem)
    (hrep : ListRep c.mem.heap c.list cs)
    (hcur : CursorRep cs c.current c.index) (hidx : c.index = some i) :
    ∃ m', c.split_before = some
      (⟨m', ⟨c.current, c.list.tail, c.list.len - i⟩, c.current, some 0⟩,
       ⟨c.list.head, backPtr none (cs.take i), c.list.len - (c.list.len - i)⟩) ∧
      ListRep m'.heap ⟨c.current, c.list.tail, c.list.len - i⟩ (cs.drop i) ∧
      CursorRep (cs.drop i) c.current (some 0) ∧
      (i ≠ 0 → ListRep m'.heap
        ⟨c.list.head, backPtr none (cs.take i), c.list.len - (c.list.len - i)⟩
        (cs.take i)) ∧
      MemOk m' ∧ m'.free = c.mem.free := by
  obtain ⟨mem, list, cur, idx⟩ := c
  obtain ⟨hseg, hh, ht, hl, hnd⟩ := hrep
  dsimp only at hm hseg hh ht hl hnd hcur hidx ⊢
  subst hidx
  obtain ⟨hi, hc⟩ := hcur
  rw [List.get?_eq_get hi, Option.map_some'] at hc
  subst hc
  have hread := seg_read hseg hi
  have hfresh : ∀ a ∈ addrs cs, a < mem.free := addr_lt_free hm hseg
  have hai_lt : (cs.get ⟨i, hi⟩).1 < mem.free :=
    hfresh _ (List.mem_map_of_mem Prod.fst (List.get_mem _ _ _))
  have hdropcons : cs.drop i = cs.get ⟨i, hi⟩ :: cs.drop (i + 1) := by
    rw [List.drop_eq_getElem_cons hi]
    rfl
  have hcurrep : CursorRep (cs.drop i) (some (cs.get ⟨i, hi⟩).1) (some 0) := by
    refine ⟨by rw [hdropcons]; exact Nat.succ_pos _, ?_⟩
    rw [hdropcons]
    rfl
  have hlendrop : list.len - i = (cs.drop i).length := by
    rw [hl]; simp
  cases i with
  | zero =>
      -- `prev` is `None`: no heap writes at all
      have hprev : backPtr none (cs.take 0) = none := rfl
      rw [hprev] at hread
      refine ⟨mem, ?_, ?_, hcurrep, fun h0 => absurd rfl h0, hm, rfl⟩
      · simp only [List.get_eq_getElem, List.get?_eq_getElem?] at hread
        simp [CursorSt.split_before, Mem.read, hread, hprev]
      · refine ⟨by simpa using hseg, ?_, ?_, by simpa using hlendrop, by simpa using hnd⟩
        · show some (cs.get ⟨0, hi⟩).1 = frontPtr cs none
          have h00 := frontPtr_drop cs 0
          rw [List.drop_zero] at h00
          rw [h00, List.get?_eq_get hi]
          rfl
        · show list.tail = backPtr none (cs.drop 0)
          rw [List.drop_zero, ht]
  | succ j =>
      have hj : j < cs.length := by omega
      have hprev : backPtr none (cs.take (j + 1)) = some (cs.get ⟨j, hj⟩).1 := by
        rw [backPtr_take cs none (j + 1) (by omega), if_neg (by omega),
          show j + 1 - 1 = j from rfl, List.get?_eq_get hj, Option.map_some']
      rw [hprev] at hread
      have hreadpa : mem.heap (cs.get ⟨j, hj⟩).1 =
          some ⟨some (cs.get ⟨j + 1, hi⟩).1, backPtr none (cs.take j),
            (cs.get ⟨j, hj⟩).2⟩ := by
        have := seg_read hseg hj
        rwa [List.get?_eq_get hi, Option.map_some'] at this
      have hpa_lt : (cs.get ⟨j, hj⟩).1 < mem.free :=
        hfresh _ (List.mem_map_of_mem Prod.fst (List.get_mem _ _ _))
      have hpaai : (cs.get ⟨j, hj⟩).1 ≠ (cs.get ⟨j + 1, hi⟩).1 :=
        addr_get_ne hnd hj hi (by omega)
      refine ⟨⟨hupd (hupd mem.heap (cs.get ⟨j + 1, hi⟩).1
          (some ⟨(cs.get? (j + 2)).map Prod.fst, none, (cs.get ⟨j + 1, hi⟩).2⟩))
          (cs.get ⟨j, hj⟩).1
          (some ⟨none, backPtr none (cs.take j), (cs.get ⟨j, hj⟩).2⟩),
          mem.free⟩, ?_, ?_, hcurrep, ?_, ?_, rfl⟩
      · have haipa : (cs.get ⟨j + 1, hi⟩).1 ≠ (cs.get ⟨j, hj⟩).1 := fun h => hpaai h.symm
        simp only [List.get_eq_getElem, List.get?_eq_getElem?] at hread hreadpa hpaai haipa
        simp [CursorSt.split_before, Mem.read, hread, hreadpa, Mem.setPrev, Mem.setNext,
          hupd, hpaai, haipa, hprev]
      · refine ⟨?_, ?_, ?_, by simpa using hlendrop, ?_⟩
        · rw [hdropcons]
          refine @seg_retarget_front T mem.heap _ (some (cs.get ⟨j, hj⟩).1) none none
            _ _ ?_ ?_ ?_
          · rw [← hdropcons]
            have := (seg_split mem.heap hseg (j + 1)).2
            rwa [hprev] at this
          · intro a ha
            have h1 : a ≠ (cs.get ⟨j, hj⟩).1 :=
              mem_drop_ne_get hnd (show j < j + 1 + 1 from by omega) hj a ha
            have h3 : a ≠ (cs.get ⟨j + 1, hi⟩).1 :=
              mem_drop_ne_get hnd (show j + 1 < j + 1 + 1 from by omega) hi a ha
            show hupd (hupd mem.heap (cs.get ⟨j + 1, hi⟩).1
                (some ⟨(cs.get? (j + 2)).map Prod.fst, none, (cs.get ⟨j + 1, hi⟩).2⟩))
                (cs.get ⟨j, hj⟩).1
                (some ⟨none, backPtr none (cs.take j), (cs.get ⟨j, hj⟩).2⟩) a = mem.heap a
            rw [hupd_other _ _ h1, hupd_other _ _ h3]
          · show hupd (hupd mem.heap (cs.get ⟨j + 1, hi⟩).1
                (some ⟨(cs.get? (j + 2)).map Prod.fst, none, (cs.get ⟨j + 1, hi⟩).2⟩))
                (cs.get ⟨j, hj⟩).1
                (some ⟨none, backPtr none (cs.take j), (cs.get ⟨j, hj⟩).2⟩)
                (cs.get ⟨j + 1, hi⟩).1
              = some ⟨frontPtr (cs.drop (j + 1 + 1)) none, none, (cs.get ⟨j + 1, hi⟩).2⟩
            rw [hupd_other _ _ (show (cs.get ⟨j + 1, hi⟩).1 ≠ (cs.get ⟨j, hj⟩).1 from
              fun h => hpaai h.symm), hupd_same, frontPtr_drop]
        · show some (cs.get ⟨j + 1, hi⟩).1 = frontPtr (cs.drop (j + 1)) none
          rw [frontPtr_drop, List.get?_eq_get hi, Option.map_some']
        · show list.tail = backPtr none (cs.drop (j + 1))
          rw [ht, backPtr_drop hi]
        · rw [addrs_drop]
          exact hnd.sublist (List.drop_sublist _ _)
      · intro h0
        refine ⟨?_, ?_, ?_, ?_, ?_⟩
        · rw [take_succ_get cs j hj]
          refine @seg_retarget_back T mem.heap _ none
            (frontPtr (cs.drop (j + 1)) none) none _ _ ?_ ?_ ?_
          · rw [← take_succ_get cs j hj]
            exact (seg_split mem.heap hseg (j + 1)).1
          · intro a ha
            have h1 : a ≠ (cs.get ⟨j, hj⟩).1 := mem_take_ne_get hnd (le_refl j) hj a ha
            have h3 : a ≠ (cs.get ⟨j + 1, hi⟩).1 :=
              mem_take_ne_get hnd (show j ≤ j + 1 from by omega) hi a ha
            show hupd (hupd mem.heap (cs.get ⟨j + 1, hi⟩).1
                (some ⟨(cs.get? (j + 2)).map Prod.fst, none, (cs.get ⟨j + 1, hi⟩).2⟩))
                (cs.get ⟨j, hj⟩).1
                (some ⟨none, backPtr none (cs.take j), (cs.get ⟨j, hj⟩).2⟩) a = mem.heap a
            rw [hupd_other _ _ h1, hupd_other _ _ h3]
          · show hupd (hupd mem.heap (cs.get ⟨j + 1, hi⟩).1
                (some ⟨(cs.get? (j + 2)).map Prod.fst, none, (cs.get ⟨j + 1, hi⟩).2⟩))
                (cs.get ⟨j, hj⟩).1
                (some ⟨none, backPtr none (cs.take j), (cs.get ⟨j, hj⟩).2⟩)
                (cs.get ⟨j, hj⟩).1
              = some ⟨none, backPtr none (cs.take j), (cs.get ⟨j, hj⟩).2⟩
            rw [hupd_same]
        · show list.head = frontPtr (cs.take (j + 1)) none
          rw [frontPtr_take (by omega : j + 1 ≠ 0), hh]
        · rfl
        · show list.len - (list.len - (j + 1)) = (cs.take (j + 1)).length
          rw [hl, List.length_take]
          omega
        · have : addrs (cs.take (j + 1)) = (addrs cs).take (j + 1) := addrs_take _ _
          rw [this]
          exact hnd.sublist (List.take_sublist _ _)
      · intro a ha
        have ha' : mem.free ≤ a := ha
        show hupd (hupd mem.heap (cs.get ⟨j + 1, hi⟩).1
            (some ⟨(cs.get? (j + 2)).map Prod.fst, none, (cs.get ⟨j + 1, hi⟩).2⟩))
            (cs.get ⟨j, hj⟩).1
            (some ⟨none, backPtr none (cs.take j), (cs.get ⟨j, hj⟩).2⟩) a = none
        rw [hupd_other _ _ (by omega : a ≠ (cs.get ⟨j, hj⟩).1),
          hupd_other _ _ (by omega : a ≠ (cs.get ⟨j + 1, hi⟩).1)]
        exact hm a ha'

theorem split_after_spec {c : CursorSt T} {cs : List (Nat × T)} {i : Nat}
    (hm : MemOk c.mem)
    (hrep : ListRep c.mem.heap c.list cs)
    (hcur : CursorRep cs c.current c.index) (hidx : c.index = some i) :
    ∃ m', c.split_after = some
      (⟨m', ⟨c.list.head, c.current, i + 1⟩, c.current, some i⟩,
       ⟨(cs.get? (i + 1)).map Prod.fst, c.list.tail, c.list.len - (i + 1)⟩) ∧
      ListRep m'.heap ⟨c.list.head, c.current, i + 1⟩ (cs.take (i + 1)) ∧
      CursorRep (cs.take (i + 1)) c.current (some i) ∧
      (i + 1 < cs.length → ListRep m'.heap
        ⟨(cs.get? (i + 1)).map Prod.fst, c.list.tail, c.list.len - (i + 1)⟩
        (cs.drop (i + 1))) ∧
      MemOk m' ∧ m'.free = c.mem.free := by
  obtain ⟨mem, list, cur, idx⟩ := c
  obtain ⟨hseg, hh, ht, hl, hnd⟩ := hrep
  dsimp only at hm hseg hh ht hl hnd hcur hidx ⊢
  subst hidx
  obtain ⟨hi, hc⟩ := hcur
  rw [List.get?_eq_get hi, Option.map_some'] at hc
  subst hc
  have hread := seg_read hseg hi
  have hfresh : ∀ a ∈ addrs cs, a < mem.free := addr_lt_free hm hseg
  have hai_lt : (cs.get ⟨i, hi⟩).1 < mem.free :=
    hfresh _ (List.mem_map_of_mem Prod.fst (List.get_mem _ _ _))
  have htake1 : backPtr none (cs.take (i + 1)) = some (cs.get ⟨i, hi⟩).1 := by
    rw [backPtr_take cs none (i + 1) (by omega), if_neg (by omega),
      show i + 1 - 1 = i from rfl, List.get?_eq_get hi, Option.map_some']
  have hheadtake : list.head = frontPtr (cs.take (i + 1)) none := by
    rw [frontPtr_take (by omega : i + 1 ≠ 0), hh]
  have hcurrep : CursorRep (cs.take (i + 1)) (some (cs.get ⟨i, hi⟩).1) (some i) := by
    have hlen1 : i < (cs.take (i + 1)).length := by
      rw [List.length_take]
      omega
    refine ⟨hlen1, ?_⟩
    have h1 : (cs.take (i + 1)).get? i = cs.get? i := by
      simp [List.get?_eq_getElem?, List.getElem?_take_of_lt (by omega : i < i + 1)]
    rw [h1, List.get?_eq_get hi]
    rfl
  have hlentake : i + 1 = (cs.take (i + 1)).length := by
    rw [List.length_take]
    omega
  have hndtake : (addrs (cs.take (i + 1))).Nodup := by
    rw [addrs_take]
    exact hnd.sublist (List.take_sublist _ _)
  cases hnext : cs.get? (i + 1) with
  | none =>
      have hlen : cs.length = i + 1 := by
        have h0 : cs.length ≤ i + 1 := by
          by_contra h1
          rw [List.get?_eq_get (by omega : i + 1 < cs.length)] at hnext
          exact Option.noConfusion hnext
        omega
      have htakeall : cs.take (i + 1) = cs := List.take_of_length_le (by omega)
      refine ⟨mem, ?_, ?_, hcurrep, fun h0 => absurd h0 (by omega), hm, rfl⟩
      · simp only [List.get_eq_getElem, List.get?_eq_getElem?] at hread hnext
        simp [CursorSt.split_after, Mem.read, hread, hnext]
      · rw [htakeall]
        exact ⟨hseg, hh, by rw [← htake1, htakeall], hlen.symm, hnd⟩
  | some c2 =>
      have hin : i + 1 < cs.length := get?_lt_length hnext
      have hc2 : cs.get ⟨i + 1, hin⟩ = c2 := by
        have h0 := List.get?_eq_get hin
        rw [hnext] at h0
        exact (Option.some.injEq _ _).mp h0.symm
      have hna_lt : c2.1 < mem.free := by
        rw [← hc2]
        exact hfresh _ (List.mem_map_of_mem Prod.fst (List.get_mem _ _ _))
      have hnai : c2.1 ≠ (cs.get ⟨i, hi⟩).1 := by
        rw [← hc2]
        exact addr_get_ne hnd hin hi (by omega)
      have hreadna : mem.heap c2.1 = some ⟨(cs.get? (i + 2)).map Prod.fst,
          some (cs.get ⟨i, hi⟩).1, c2.2⟩ := by
        have := seg_read hseg hin
        rwa [hc2, backPtr_take cs none (i + 1) (by omega), if_neg (by omega),
          show i + 1 - 1 = i from rfl, List.get?_eq_get hi, Option.map_some'] at this
      have hdropcons : cs.drop (i + 1) = c2 :: cs.drop (i + 2) := by
        rw [List.drop_eq_getElem_cons hin, ← hc2]
        rfl
      refine ⟨⟨hupd (hupd mem.heap (cs.get ⟨i, hi⟩).1
          (some ⟨none, backPtr none (cs.take i), (cs.get ⟨i, hi⟩).2⟩)) c2.1
          (some ⟨(cs.get? (i + 2)).map Prod.fst, none, c2.2⟩),
          mem.free⟩, ?_, ?_, hcurrep, ?_, ?_, rfl⟩
      · have haina : (cs.get ⟨i, hi⟩).1 ≠ c2.1 := fun h => hnai h.symm
        simp only [List.get_eq_getElem, List.get?_eq_getElem?] at hread hreadna hnai haina hnext
        simp [CursorSt.split_after, Mem.read, hread, hreadna, Mem.setPrev, Mem.setNext,
          hupd, hnai, haina, hnext]
      · refine ⟨?_, hheadtake, by rw [htake1], by rw [← hlentake], hndtake⟩
        rw [take_succ_get cs i hi]
        refine @seg_retarget_back T mem.heap _ none
          (frontPtr (cs.drop (i + 1)) none) none _ _ ?_ ?_ ?_
        · rw [← take_succ_get cs i hi]
          exact (seg_split mem.heap hseg (i + 1)).1
        · intro a ha
          have h1 : a ≠ (cs.get ⟨i, hi⟩).1 := mem_take_ne_get hnd (le_refl i) hi a ha
          have h2 : a ≠ c2.1 := by
            have := mem_take_ne_get hnd (show i ≤ i + 1 from by omega) hin a ha
            rwa [hc2] at this
          show hupd (hupd mem.heap (cs.get ⟨i, hi⟩).1
              (some ⟨none, backPtr none (cs.take i), (cs.get ⟨i, hi⟩).2⟩)) c2.1
              (some ⟨(cs.get? (i + 2)).map Prod.fst, none, c2.2⟩) a = mem.heap a
          rw [hupd_other _ _ h2, hupd_other _ _ h1]
        · show hupd (hupd mem.heap (cs.get ⟨i, hi⟩).1
              (some ⟨none, backPtr none (cs.take i), (cs.get ⟨i, hi⟩).2⟩)) c2.1
              (some ⟨(cs.get? (i + 2)).map Prod.fst, none, c2.2⟩) (cs.get ⟨i, hi⟩).1
            = some ⟨none, backPtr none (cs.take i), (cs.get ⟨i, hi⟩).2⟩
          rw [hupd_other _ _ (show (cs.get ⟨i, hi⟩).1 ≠ c2.1 from fun h => hnai h.symm),
            hupd_same]
      · intro h0
        refine ⟨?_, ?_, ?_, ?_, ?_⟩
        · rw [hdropcons]
          refine @seg_retarget_front T mem.heap _ (some (cs.get ⟨i, hi⟩).1) none none
            _ _ ?_ ?_ ?_
          · rw [← hdropcons]
            have := (seg_split mem.heap hseg (i + 1)).2
            rwa [htake1] at this
          · intro a ha
            have h1 : a ≠ (cs.get ⟨i, hi⟩).1 :=
              mem_drop_ne_get hnd (show i < i + 2 from by omega) hi a ha
            have h2 : a ≠ c2.1 := by
              have := mem_drop_ne_get hnd (show i + 1 < i + 2 from by omega) hin a ha
              rwa [hc2] at this
            show hupd (hupd mem.heap (cs.get ⟨i, hi⟩).1
                (some ⟨none, backPtr none (cs.take i), (cs.get ⟨i, hi⟩).2⟩)) c2.1
                (some ⟨(cs.get? (i + 2)).map Prod.fst, none, c2.2⟩) a = mem.heap a
            rw [hupd_other _ _ h2, hupd_other _ _ h1]
          · show hupd (hupd mem.heap (cs.get ⟨i, hi⟩).1
                (some ⟨none, backPtr none (cs.take i), (cs.get ⟨i, hi⟩).2⟩)) c2.1
                (some ⟨(cs.get? (i + 2)).map Prod.fst, none, c2.2⟩) c2.1
              = some ⟨frontPtr (cs.drop (i + 1 + 1)) none, none, c2.2⟩
            rw [hupd_same, frontPtr_drop]
        · show Option.map Prod.fst (some c2) = frontPtr (cs.drop (i + 1)) none
          rw [frontPtr_drop, hnext]
        · show list.tail = backPtr none (cs.drop (i + 1))
          rw [ht, backPtr_drop hin]
        · show list.len - (i + 1) = (cs.drop (i + 1)).length
          rw [hl, List.length_drop]
        · rw [addrs_drop]
          exact hnd.sublist (List.drop_sublist _ _)
      · intro a ha
        have ha' : mem.free ≤ a := ha
        show hupd (hupd mem.heap (cs.get ⟨i, hi⟩).1
            (some ⟨none, backPtr none (cs.take i), (cs.get ⟨i, hi⟩).2⟩)) c2.1
            (some ⟨(cs.get? (i + 2)).map Prod.fst, none, c2.2⟩) a = none
        rw [hupd_other _ _ (by omega : a ≠ c2.1),
          hupd_other _ _ (by omega : a ≠ (cs.get ⟨i, hi⟩).1)]
        exact hm a ha'

/-! ## `splice_before` / `splice_after` -/

/-- Relink both ends of a chain of length at least two. -/
theorem seg_relink_multi {h h' : Heap T} {p q v w : Option Nat}
    {c0 cl : Nat × T} {mid : List (Nat × T)}
    (hs : seg h p (c0 :: (mid ++ [cl])) q)
    (hframe : ∀ a ∈ addrs mid, h' a = h a)
    (hf : h' c0.1 = some ⟨frontPtr mid (some cl.1), v, c0.2⟩)
    (hb : h' cl.1 = some ⟨w, backPtr (some c0.1) mid, cl.2⟩) :
    seg h' v (c0 :: (mid ++ [cl])) w := by
  refine ⟨?_, ?_⟩
  · rw [frontPtr_append]
    exact hf
  · exact seg_retarget_back hs.2 hframe hb

theorem relink4_at4 {h : Heap T} {a1 a2 a3 a4 : Nat} {v1 v2 v3 v4 : Option (Node T)} :
    relink4 h a1 a2 a3 a4 v1 v2 v3 v4 a4 = v4 := by
  simp only [relink4]
  rw [hupd_same]

theorem relink4_at3 {h : Heap T} {a1 a2 a3 a4 : Nat} {v1 v2 v3 v4 : Option (Node T)}
    (h34 : a3 ≠ a4) :
    relink4 h a1 a2 a3 a4 v1 v2 v3 v4 a3 = v3 := by
  simp only [relink4]
  rw [hupd_other _ _ h34, hupd_same]

theorem relink4_at2 {h : Heap T} {a1 a2 a3 a4 : Nat} {v1 v2 v3 v4 : Option (Node T)}
    (h23 : a2 ≠ a3) (h24 : a2 ≠ a4) :
    relink4 h a1 a2 a3 a4 v1 v2 v3 v4 a2 = v2 := by
  simp only [relink4]
  rw [hupd_other _ _ h24, hupd_other _ _ h23, hupd_same]

theorem relink4_at1 {h : Heap T} {a1 a2 a3 a4 : Nat} {v1 v2 v3 v4 : Option (Node T)}
    (h12 : a1 ≠ a2) (h13 : a1 ≠ a3) (h14 : a1 ≠ a4) :
    relink4 h a1 a2 a3 a4 v1 v2 v3 v4 a1 = v1 := by
  simp only [relink4]
  rw [hupd_other _ _ h14, hupd_other _ _ h13, hupd_other _ _ h12, hupd_same]

theorem relink4_at_other {h : Heap T} {a1 a2 a3 a4 : Nat} {v1 v2 v3 v4 : Option (Node T)}
    {x : Nat} (hx1 : x ≠ a1) (hx2 : x ≠ a2) (hx3 : x ≠ a3) (hx4 : x ≠ a4) :
    relink4 h a1 a2 a3 a4 v1 v2 v3 v4 x = h x := by
  simp only [relink4]
  rw [hupd_other _ _ hx4, hupd_other _ _ hx3, hupd_other _ _ hx2, hupd_other _ _ hx1]

theorem splice_before_empty_donor {c : CursorSt T} {input : DequeueList}
    (hd : input.len = 0) : c.splice_before input = some (c, some input) := by
  simp [CursorSt.splice_before, DequeueList.is_empty, hd]

theorem splice_after_empty_donor {c : CursorSt T} {input : DequeueList}
    (hd : input.len = 0) : c.splice_after input = some (c, some input) := by
  simp [CursorSt.splice_after, DequeueList.is_empty, hd]

theorem splice_before_empty_bound {c : CursorSt T} {input : DequeueList}
    (hd : input.len ≠ 0) (hb : c.list.len = 0) :
    c.splice_before input = some ({ c with list := input }, none) := by
  simp [CursorSt.splice_before, DequeueList.is_empty, hd, hb]

theorem splice_after_empty_bound {c : CursorSt T} {input : DequeueList}
    (hd : input.len ≠ 0) (hb : c.list.len = 0) :
    c.splice_after input = some ({ c with list := input }, none) := by
  simp [CursorSt.splice_after, DequeueList.is_empty, hd, hb]

theorem nodup_insertAt {bcs dcs : List (Nat × T)}
    (hndb : (addrs bcs).Nodup) (hndd : (addrs dcs).Nodup)
    (hdisj : ∀ a ∈ addrs bcs, a ∉ addrs dcs) (p : Nat) :
    (addrs (insertAt bcs dcs p)).Nodup := by
  have hsplit := hndb
  rw [← List.take_append_drop p (addrs bcs), List.nodup_append] at hsplit
  rw [insertAt, addrs_append, addrs_append, addrs_take, addrs_drop,
    List.append_assoc, List.nodup_append, List.nodup_append]
  refine ⟨hsplit.1, ⟨hndd, hsplit.2.1, ?_⟩, ?_⟩
  · intro a ha hb
    have hamem : a ∈ addrs bcs := by
      rw [← List.take_append_drop p (addrs bcs)]
      exact List.mem_append_right _ hb
    exact hdisj a hamem ha
  · intro a ha hb
    rcases List.mem_append.mp hb with hb | hb
    · have hamem : a ∈ addrs bcs := by
        rw [← List.take_append_drop p (addrs bcs)]
        exact List.mem_append_left _ ha
      exact hdisj a hamem hb
    · exact hsplit.2.2 ha hb

theorem splice_before_spec {c : CursorSt T} {input : DequeueList}
    {bcs dcs : List (Nat × T)}
    (hm : MemOk c.mem)
    (hrepb : ListRep c.mem.heap c.list bcs)
    (hrepd : ListRep c.mem.heap input dcs)
    (hcur : CursorRep bcs c.current c.index)
    (hdisj : ∀ a ∈ addrs bcs, a ∉ addrs dcs)
    (hbne : bcs ≠ []) (hdne : dcs ≠ []) :
    ∃ m', c.splice_before input = some
      (⟨m', ⟨frontPtr (insertAt bcs dcs (beforePos bcs.length c.index)) none,
             backPtr none (insertAt bcs dcs (beforePos bcs.length c.index)),
             c.list.len + input.len⟩, c.current, c.index⟩,
       some ⟨none, none, 0⟩) ∧
      ListRep m'.heap
        ⟨frontPtr (insertAt bcs dcs (beforePos bcs.length c.index)) none,
         backPtr none (insertAt bcs dcs (beforePos bcs.length c.index)),
         c.list.len + input.len⟩
        (insertAt bcs dcs (beforePos bcs.length c.index)) ∧
      MemOk m' ∧ m'.free = c.mem.free := by
  obtain ⟨mem, list, cur, idx⟩ := c
  obtain ⟨dhead, dtail, dlen⟩ := input
  obtain ⟨hsegb, hhb, htb, hlb, hndb⟩ := hrepb
  obtain ⟨hsegd, hhd, htd, hld, hndd⟩ := hrepd
  dsimp only at hm hsegb hhb htb hlb hndb hsegd hhd htd hld hndd hcur hdisj ⊢
  have hdemp : (⟨dhead, dtail, dlen⟩ : DequeueList).is_empty = false := by
    have h0 : dlen ≠ 0 := by
      rw [hld]
      intro h1
      exact hdne (List.eq_nil_of_length_eq_zero h1)
    simp [DequeueList.is_empty, h0]
  have hbemp : list.is_empty = false := by
    have h0 : list.len ≠ 0 := by
      rw [hlb]
      intro h1
      exact hbne (List.eq_nil_of_length_eq_zero h1)
    simp [DequeueList.is_empty, h0]
  have hfreshb : ∀ a ∈ addrs bcs, a < mem.free := addr_lt_free hm hsegb
  have hfreshd : ∀ a ∈ addrs dcs, a < mem.free := addr_lt_free hm hsegd
  cases idx with
  | none =>
      -- ghost: insert at the very back
      have hc : cur = none := hcur
      subst hc
      have hins : insertAt bcs dcs bcs.length = bcs ++ dcs := by
        rw [insertAt, List.take_length, List.drop_length, List.append_nil]
      rw [show beforePos bcs.length none = bcs.length from rfl, hins]
      rcases List.eq_nil_or_concat bcs with rfl | ⟨bcs', btc, rfl⟩
      · exact absurd rfl hbne
      simp only [List.concat_eq_append] at hsegb hhb htb hlb hndb hdisj hfreshb ⊢
      cases dcs with
      | nil => exact absurd rfl hdne
      | cons dc0 drest =>
      have hdh : dhead = some dc0.1 := by rw [hhd]; rfl
      have htb' : list.tail = some btc.1 := by rw [htb, backPtr_concat]
      rw [seg_append] at hsegb
      obtain ⟨hsegb', hsegbt⟩ := hsegb
      have hreadbt : mem.heap btc.1 = some ⟨none, backPtr none bcs', btc.2⟩ := by
        simpa [seg] using hsegbt
      obtain ⟨hreaddh, hsegdrest⟩ := hsegd
      have hbtdc : btc.1 ≠ dc0.1 := by
        intro h0
        exact hdisj btc.1 (by simp [addrs_append, addrs]) (by rw [h0]; simp [addrs])
      have hndb' : (addrs bcs').Nodup ∧ btc.1 ∉ addrs bcs' := by
        rw [addrs_append, List.nodup_append] at hndb
        exact ⟨hndb.1, fun hmem => hndb.2.2 hmem (by simp [addrs])⟩
      have hnddr : (addrs drest).Nodup ∧ dc0.1 ∉ addrs drest := by
        rw [addrs_cons, List.nodup_cons] at hndd
        exact ⟨hndd.2, hndd.1⟩
      have hdt : ∃ dl, dtail = some dl ∧
          backPtr none (dc0 :: drest) = some dl := by
        obtain ⟨dl, hdl⟩ := backPtr_some drest dc0.1
        exact ⟨dl, by rw [htd, backPtr_cons, hdl], by rw [backPtr_cons, hdl]⟩
      obtain ⟨dl, hdtl, hdlb⟩ := hdt
      refine ⟨⟨hupd (hupd mem.heap btc.1 (some ⟨some dc0.1, backPtr none bcs', btc.2⟩))
          dc0.1 (some ⟨frontPtr drest none, some btc.1, dc0.2⟩), mem.free⟩,
        ?_, ?_, ?_, rfl⟩
      · -- the run of the code
        have hfr : frontPtr ((bcs' ++ [btc]) ++ (dc0 :: drest)) none = list.head := by
          rw [hhb, frontPtr_append]
          exact frontPtr_irrel (by simp) _ _
        have hbk : backPtr none ((bcs' ++ [btc]) ++ (dc0 :: drest)) = some dl := by
          rw [backPtr_append]
          rw [backPtr_acc_irrel (List.cons_ne_nil _ _)
            (backPtr none (bcs' ++ [btc])) none, hdlb]
        rw [hfr, hbk]
        simp only [CursorSt.splice_before, hdemp, hbemp]
        simp [htb', hdh, hdtl, Mem.read, Mem.setNext, Mem.setPrev, hreadbt, hreaddh,
          hupd, hbtdc, Ne.symm hbtdc, hlb, hld]
      · refine ⟨?_, ?_, ?_, ?_, ?_⟩
        · rw [seg_append]
          constructor
          · rw [show frontPtr (dc0 :: drest) none = some dc0.1 from rfl]
            refine @seg_retarget_back T mem.heap _ none none (some dc0.1) _ _ ?_ ?_ ?_
            · exact (seg_append _ _ _ _ _).mpr ⟨hsegb', hsegbt⟩
            · intro a ha
              have h1 : a ≠ btc.1 := fun h0 => hndb'.2 (h0 ▸ ha)
              have h2 : a ≠ dc0.1 := by
                intro h0
                exact hdisj a (by rw [addrs_append]; exact List.mem_append_left _ ha)
                  (by rw [h0]; simp [addrs])
              show hupd (hupd mem.heap btc.1 (some ⟨some dc0.1, backPtr none bcs', btc.2⟩))
                  dc0.1 (some ⟨frontPtr drest none, some btc.1, dc0.2⟩) a = mem.heap a
              rw [hupd_other _ _ h2, hupd_other _ _ h1]
            · show hupd (hupd mem.heap btc.1 (some ⟨some dc0.1, backPtr none bcs', btc.2⟩))
                  dc0.1 (some ⟨frontPtr drest none, some btc.1, dc0.2⟩) btc.1
                = some ⟨some dc0.1, backPtr none bcs', btc.2⟩
              rw [hupd_other _ _ hbtdc, hupd_same]
          · rw [backPtr_concat]
            refine @seg_retarget_front T mem.heap _ none none (some btc.1) _ _ ?_ ?_ ?_
            · exact ⟨hreaddh, hsegdrest⟩
            · intro a ha
              have h1 : a ≠ btc.1 := by
                intro h0
                exact hdisj btc.1 (by simp [addrs_append, addrs])
                  (h0 ▸ (by rw [addrs_cons]; exact List.mem_cons_of_mem _ ha))
              have h2 : a ≠ dc0.1 := fun h0 => hnddr.2 (h0 ▸ ha)
              show hupd (hupd mem.heap btc.1 (some ⟨some dc0.1, backPtr none bcs', btc.2⟩))
                  dc0.1 (some ⟨frontPtr drest none, some btc.1, dc0.2⟩) a = mem.heap a
              rw [hupd_other _ _ h2, hupd_other _ _ h1]
            · show hupd (hupd mem.heap btc.1 (some ⟨some dc0.1, backPtr none bcs', btc.2⟩))
                  dc0.1 (some ⟨frontPtr drest none, some btc.1, dc0.2⟩) dc0.1
                = some ⟨frontPtr drest none, some btc.1, dc0.2⟩
              rw [hupd_same]
        · rfl
        · rfl
        · show list.len + dlen = ((bcs' ++ [btc]) ++ (dc0 :: drest)).length
          rw [hlb, hld]
          simp
          omega
        · have := nodup_insertAt hndb hndd hdisj (bcs' ++ [btc]).length
          rwa [show insertAt (bcs' ++ [btc]) (dc0 :: drest) (bcs' ++ [btc]).length
            = (bcs' ++ [btc]) ++ (dc0 :: drest) from by
              rw [insertAt, List.take_length, List.drop_length, List.append_nil]] at this
      · intro a ha
        have ha' : mem.free ≤ a := ha
        have h1 : btc.1 < mem.free := hfreshb btc.1 (by simp [addrs_append, addrs])
        have h2 : dc0.1 < mem.free := hfreshd dc0.1 (by simp [addrs])
        show hupd (hupd mem.heap btc.1 (some ⟨some dc0.1, backPtr none bcs', btc.2⟩))
            dc0.1 (some ⟨frontPtr drest none, some btc.1, dc0.2⟩) a = none
        rw [hupd_other _ _ (by omega : a ≠ dc0.1), hupd_other _ _ (by omega : a ≠ btc.1)]
        exact hm a ha'
  | some i =>
      obtain ⟨hi, hc⟩ := hcur
      rw [List.get?_eq_get hi, Option.map_some'] at hc
      subst hc
      have hread := seg_read hsegb hi
      have hai_lt : (bcs.get ⟨i, hi⟩).1 < mem.free :=
        hfreshb _ (List.mem_map_of_mem Prod.fst (List.get_mem _ _ _))
      have haid : (bcs.get ⟨i, hi⟩).1 ∉ addrs dcs :=
        hdisj _ (List.mem_map_of_mem Prod.fst (List.get_mem _ _ _))
      cases i with
      | zero =>
          have hprev0 : backPtr none (bcs.take 0) = none := rfl
          rw [hprev0] at hread
          have hbcons : bcs = bcs.get ⟨0, hi⟩ :: bcs.drop 1 := by
            conv_lhs => rw [← List.drop_zero bcs]
            rw [List.drop_eq_getElem_cons hi]
            rfl
          have hins : insertAt bcs dcs 0 = dcs ++ bcs := by
            rw [insertAt, List.take_zero, List.nil_append, List.drop_zero]
          rw [show beforePos bcs.length (some 0) = 0 from rfl, hins]
          rcases List.eq_nil_or_concat dcs with rfl | ⟨dcs'', dtc, rfl⟩
          · exact absurd rfl hdne
          simp only [List.concat_eq_append] at hsegd hhd htd hld hndd hfreshd hdisj haid ⊢
          rw [seg_append] at hsegd
          obtain ⟨hsegd', hsegdt⟩ := hsegd
          have hreaddt : mem.heap dtc.1 = some ⟨none, backPtr none dcs'', dtc.2⟩ := by
            simpa [seg] using hsegdt
          have hdtl : dtail = some dtc.1 := by rw [htd, backPtr_concat]
          have hb0dt : (bcs.get ⟨0, hi⟩).1 ≠ dtc.1 := by
            intro h0
            exact haid (h0 ▸ (by simp [addrs_append, addrs]))
          obtain ⟨dh0, hdh0, hfrd⟩ : ∃ x, dhead = some x ∧
              frontPtr (dcs'' ++ [dtc]) none = some x := by
            rw [hhd]
            cases dcs'' <;> exact ⟨_, rfl, rfl⟩
          have hfb : frontPtr bcs none = some (bcs.get ⟨0, hi⟩).1 := by
            conv_lhs => rw [hbcons]
            rfl
          have hndd' : (addrs dcs'').Nodup ∧ dtc.1 ∉ addrs dcs'' := by
            rw [addrs_append, List.nodup_append] at hndd
            exact ⟨hndd.1, fun hmem => hndd.2.2 hmem (by simp [addrs])⟩
          refine ⟨⟨hupd (hupd mem.heap (bcs.get ⟨0, hi⟩).1
              (some ⟨(bcs.get? 1).map Prod.fst, some dtc.1, (bcs.get ⟨0, hi⟩).2⟩))
              dtc.1 (some ⟨some (bcs.get ⟨0, hi⟩).1, backPtr none dcs'', dtc.2⟩),
              mem.free⟩, ?_, ?_, ?_, rfl⟩
          · have hfr : frontPtr ((dcs'' ++ [dtc]) ++ bcs) none = some dh0 := by
              rw [frontPtr_append]
              rw [frontPtr_irrel (by simp) _ (frontPtr bcs none)] at hfrd
              exact hfrd
            have hbk : backPtr none ((dcs'' ++ [dtc]) ++ bcs) = list.tail := by
              rw [backPtr_append, backPtr_acc_irrel (by
                  intro h0
                  rw [h0] at hi
                  simp at hi) _ none, htb]
            rw [hfr, hbk]
            simp only [CursorSt.splice_before, hdemp, hbemp]
            have hdtb0 : dtc.1 ≠ (bcs.get ⟨0, hi⟩).1 := fun h0 => hb0dt h0.symm
            simp only [List.get_eq_getElem, List.get?_eq_getElem?] at hread hreaddt hb0dt hdtb0
            simp [hdh0, hdtl, Mem.read, hread, hreaddt, Mem.setNext, Mem.setPrev,
              hupd, hb0dt, hdtb0, hlb, hld]
          · refine ⟨?_, rfl, rfl, ?_, ?_⟩
            · rw [seg_append, hfb]
              constructor
              · refine @seg_retarget_back T mem.heap _ none none
                  (some (bcs.get ⟨0, hi⟩).1) _ _ ?_ ?_ ?_
                · exact (seg_append _ _ _ _ _).mpr ⟨hsegd', hsegdt⟩
                · intro a ha
                  have h1 : a ≠ dtc.1 := fun h0 => hndd'.2 (h0 ▸ ha)
                  have h2 : a ≠ (bcs.get ⟨0, hi⟩).1 := by
                    intro h0
                    exact haid (h0 ▸ (by
                      rw [addrs_append]
                      exact List.mem_append_left _ ha))
                  show hupd (hupd mem.heap (bcs.get ⟨0, hi⟩).1
                      (some ⟨(bcs.get? 1).map Prod.fst, some dtc.1, (bcs.get ⟨0, hi⟩).2⟩))
                      dtc.1 (some ⟨some (bcs.get ⟨0, hi⟩).1, backPtr none dcs'', dtc.2⟩) a
                    = mem.heap a
                  rw [hupd_other _ _ h1, hupd_other _ _ h2]
                · show hupd (hupd mem.heap (bcs.get ⟨0, hi⟩).1
                      (some ⟨(bcs.get? 1).map Prod.fst, some dtc.1, (bcs.get ⟨0, hi⟩).2⟩))
                      dtc.1 (some ⟨some (bcs.get ⟨0, hi⟩).1, backPtr none dcs'', dtc.2⟩)
                      dtc.1
                    = some ⟨some (bcs.get ⟨0, hi⟩).1, backPtr none dcs'', dtc.2⟩
                  rw [hupd_same]
              · rw [backPtr_concat]
                have hsegb0 : seg mem.heap none (bcs.get ⟨0, hi⟩ :: bcs.drop 1) none := by
                  rw [← hbcons]
                  exact hsegb
                have hgen : ∀ h2 : Heap T,
                    seg h2 (some dtc.1) (bcs.get ⟨0, hi⟩ :: bcs.drop 1) none →
                    seg h2 (some dtc.1) bcs none := by
                  intro h2 hx
                  rwa [← hbcons] at hx
                refine hgen _ ?_
                refine @seg_retarget_front T mem.heap _ none none (some dtc.1) _ _
                  hsegb0 ?_ ?_
                · intro a ha
                  have h1 : a ≠ (bcs.get ⟨0, hi⟩).1 :=
                    mem_drop_ne_get hndb (show 0 < 1 from by omega) hi a ha
                  have h2 : a ≠ dtc.1 := by
                    intro h0
                    have hab : a ∈ addrs bcs := by
                      rw [addrs_drop] at ha
                      exact List.mem_of_mem_drop ha
                    exact hdisj a hab (by rw [h0]; simp [addrs_append, addrs])
                  show hupd (hupd mem.heap (bcs.get ⟨0, hi⟩).1
                      (some ⟨(bcs.get? 1).map Prod.fst, some dtc.1, (bcs.get ⟨0, hi⟩).2⟩))
                      dtc.1 (some ⟨some (bcs.get ⟨0, hi⟩).1, backPtr none dcs'', dtc.2⟩) a
                    = mem.heap a
                  rw [hupd_other _ _ h2, hupd_other _ _ h1]
                · show hupd (hupd mem.heap (bcs.get ⟨0, hi⟩).1
                      (some ⟨(bcs.get? 1).map Prod.fst, some dtc.1, (bcs.get ⟨0, hi⟩).2⟩))
                      dtc.1 (some ⟨some (bcs.get ⟨0, hi⟩).1, backPtr none dcs'', dtc.2⟩)
                      (bcs.get ⟨0, hi⟩).1
                    = some ⟨frontPtr (bcs.drop 1) none, some dtc.1, (bcs.get ⟨0, hi⟩).2⟩
                  rw [hupd_other _ _ hb0dt, hupd_same, frontPtr_drop]
            · show list.len + dlen = ((dcs'' ++ [dtc]) ++ bcs).length
              rw [hlb, hld]
              simp
              omega
            · have := nodup_insertAt hndb hndd hdisj 0
              rwa [show insertAt bcs (dcs'' ++ [dtc]) 0 = (dcs'' ++ [dtc]) ++ bcs from by
                rw [insertAt, List.take_zero, List.nil_append, List.drop_zero]] at this
          · intro a ha
            have ha' : mem.free ≤ a := ha
            have h1 : (bcs.get ⟨0, hi⟩).1 < mem.free := hai_lt
            have h2 : dtc.1 < mem.free := hfreshd dtc.1 (by simp [addrs_append, addrs])
            show hupd (hupd mem.heap (bcs.get ⟨0, hi⟩).1
                (some ⟨(bcs.get? 1).map Prod.fst, some dtc.1, (bcs.get ⟨0, hi⟩).2⟩))
                dtc.1 (some ⟨some (bcs.get ⟨0, hi⟩).1, backPtr none dcs'', dtc.2⟩) a = none
            rw [hupd_other _ _ (by omega : a ≠ dtc.1),
              hupd_other _ _ (by omega : a ≠ (bcs.get ⟨0, hi⟩).1)]
            exact hm a ha'
      | succ j =>
          have hj : j < bcs.length := by omega
          have hprev : backPtr none (bcs.take (j + 1)) = some (bcs.get ⟨j, hj⟩).1 := by
            rw [take_succ_get bcs j hj, backPtr_concat]
          rw [hprev] at hread
          have hnext_j : (bcs.get? (j + 1)).map Prod.fst
              = some (bcs.get ⟨j + 1, hi⟩).1 := by
            rw [List.get?_eq_get hi, Option.map_some']
          have hreadj0 := seg_read hsegb hj
          rw [hnext_j] at hreadj0
          have haj_lt : (bcs.get ⟨j, hj⟩).1 < mem.free :=
            hfreshb _ (List.mem_map_of_mem Prod.fst (List.get_mem _ _ _))
          have hajd : (bcs.get ⟨j, hj⟩).1 ∉ addrs dcs :=
            hdisj _ (List.mem_map_of_mem Prod.fst (List.get_mem _ _ _))
          have hajai : (bcs.get ⟨j, hj⟩).1 ≠ (bcs.get ⟨j + 1, hi⟩).1 :=
            addr_get_ne hndb hj hi (by omega)
          have hsegT : seg mem.heap none (bcs.take (j + 1))
              (some (bcs.get ⟨j + 1, hi⟩).1) := by
            have h0 := (seg_split mem.heap hsegb (j + 1)).1
            rwa [frontPtr_drop, hnext_j] at h0
          have hsegR : seg mem.heap (some (bcs.get ⟨j, hj⟩).1) (bcs.drop (j + 1)) none := by
            have h0 := (seg_split mem.heap hsegb (j + 1)).2
            rwa [hprev] at h0
          have hdcons : bcs.drop (j + 1) = bcs.get ⟨j + 1, hi⟩ :: bcs.drop (j + 1 + 1) := by
            rw [List.drop_eq_getElem_cons hi]
            rfl
          have htne : bcs.take (j + 1) ≠ [] := by
            intro h0
            have h1 := congrArg List.length h0
            rw [List.length_take, List.length_nil] at h1
            omega
          have hdrne : bcs.drop (j + 1) ≠ [] := by
            intro h0
            have h1 := congrArg List.length h0
            rw [List.length_drop, List.length_nil] at h1
            omega
          have hTmem : ∀ a ∈ addrs (bcs.take j), a ∈ addrs bcs := by
            intro a ha
            rw [addrs_take] at ha
            exact List.take_subset _ _ ha
          have hRmem : ∀ a ∈ addrs (bcs.drop (j + 1 + 1)), a ∈ addrs bcs := by
            intro a ha
            rw [addrs_drop] at ha
            exact List.drop_subset _ _ ha
          have hins : insertAt bcs dcs (j + 1)
              = bcs.take (j + 1) ++ (dcs ++ bcs.drop (j + 1)) := by
            rw [insertAt, List.append_assoc]
          have hfr : frontPtr (bcs.take (j + 1) ++ (dcs ++ bcs.drop (j + 1))) none
              = list.head := by
            rw [frontPtr_append, frontPtr_irrel htne _ none,
              frontPtr_take (by omega : j + 1 ≠ 0) none]
            exact hhb.symm
          have hbk : backPtr none (bcs.take (j + 1) ++ (dcs ++ bcs.drop (j + 1)))
              = list.tail := by
            rw [backPtr_append, backPtr_append,
              backPtr_acc_irrel hdrne _ (backPtr none (bcs.take (j + 1)))]
            have h0 : backPtr (backPtr none (bcs.take (j + 1))) (bcs.drop (j + 1))
                = backPtr none bcs := by
              conv_rhs => rw [← List.take_append_drop (j + 1) bcs]
              rw [backPtr_append]
            rw [h0]
            exact htb.symm
          rw [show beforePos bcs.length (some (j + 1)) = j + 1 from rfl, hins]
          cases dcs with
          | nil => exact absurd rfl hdne
          | cons dc0 drest =>
          have hdh0 : dhead = some dc0.1 := by
            rw [hhd]
            rfl
          have hai_d : (bcs.get ⟨j + 1, hi⟩).1 ≠ dc0.1 := by
            intro h0
            exact haid (by rw [h0]; simp [addrs])
          have haj_d : (bcs.get ⟨j, hj⟩).1 ≠ dc0.1 := by
            intro h0
            exact hajd (by rw [h0]; simp [addrs])
          have hd0_lt : dc0.1 < mem.free := hfreshd dc0.1 (by simp [addrs])
          rcases List.eq_nil_or_concat drest with rfl | ⟨drest2, dtc, rfl⟩
          · -- singleton donor
            have hreadd : mem.heap dc0.1 = some ⟨none, none, dc0.2⟩ := hsegd.1
            have hdtl : dtail = some dc0.1 := by
              rw [htd]
              rfl
            refine ⟨⟨relink4 mem.heap (bcs.get ⟨j, hj⟩).1 dc0.1 (bcs.get ⟨j + 1, hi⟩).1 dc0.1
                (some ⟨some dc0.1, backPtr none (bcs.take j), (bcs.get ⟨j, hj⟩).2⟩)
                (some ⟨none, some (bcs.get ⟨j, hj⟩).1, dc0.2⟩)
                (some ⟨(bcs.get? (j + 1 + 1)).map Prod.fst, some dc0.1,
                  (bcs.get ⟨j + 1, hi⟩).2⟩)
                (some ⟨some (bcs.get ⟨j + 1, hi⟩).1, some (bcs.get ⟨j, hj⟩).1, dc0.2⟩),
                mem.free⟩, ?_, ?_, ?_, rfl⟩
            · rw [hfr, hbk]
              simp only [CursorSt.splice_before, hdemp, hbemp]
              simp only [List.get_eq_getElem, List.get?_eq_getElem?] at hread hreadj0 hajai hai_d haj_d ⊢
              simp [relink4, hdh0, hdtl, Mem.read, Mem.setNext, Mem.setPrev, hupd,
                hread, hreadj0, hreadd, hajai, hai_d, haj_d,
                Ne.symm hajai, Ne.symm hai_d, Ne.symm haj_d, hlb, hld]
            · refine ⟨?_, rfl, rfl, ?_, ?_⟩
              · rw [seg_append]
                constructor
                · rw [show frontPtr ([dc0] ++ bcs.drop (j + 1)) none = some dc0.1 from rfl,
                    take_succ_get bcs j hj]
                  refine @seg_retarget_back T mem.heap _ none
                    (some (bcs.get ⟨j + 1, hi⟩).1) (some dc0.1) _ _ ?_ ?_ ?_
                  · rw [← take_succ_get bcs j hj]
                    exact hsegT
                  · intro a ha
                    have h1 : a ≠ (bcs.get ⟨j, hj⟩).1 :=
                      mem_take_ne_get hndb (le_refl j) hj a ha
                    have h2 : a ≠ (bcs.get ⟨j + 1, hi⟩).1 :=
                      mem_take_ne_get hndb (by omega) hi a ha
                    have h3 : a ≠ dc0.1 := by
                      intro h0
                      exact hdisj a (hTmem a ha) (by rw [h0]; simp [addrs])
                    exact relink4_at_other h1 h3 h2 h3
                  · exact relink4_at1 haj_d hajai haj_d
                · rw [hprev, seg_append]
                  constructor
                  · rw [frontPtr_drop, hnext_j]
                    exact ⟨relink4_at4, trivial⟩
                  · rw [show backPtr (some (bcs.get ⟨j, hj⟩).1) [dc0] = some dc0.1 from rfl,
                      hdcons]
                    refine @seg_retarget_front T mem.heap _ (some (bcs.get ⟨j, hj⟩).1) none
                      (some dc0.1) _ _ ?_ ?_ ?_
                    · rw [← hdcons]
                      exact hsegR
                    · intro a ha
                      have h1 : a ≠ (bcs.get ⟨j + 1, hi⟩).1 :=
                        mem_drop_ne_get hndb (by omega) hi a ha
                      have h2 : a ≠ (bcs.get ⟨j, hj⟩).1 :=
                        mem_drop_ne_get hndb (by omega) hj a ha
                      have h3 : a ≠ dc0.1 := by
                        intro h0
                        exact hdisj a (hRmem a ha) (by rw [h0]; simp [addrs])
                      exact relink4_at_other h2 h3 h1 h3
                    · rw [frontPtr_drop]
                      exact relink4_at3 hai_d
              · show list.len + dlen
                    = (bcs.take (j + 1) ++ ([dc0] ++ bcs.drop (j + 1))).length
                rw [hlb, hld]
                simp
                omega
              · have h0 := nodup_insertAt hndb hndd hdisj (j + 1)
                rwa [show insertAt bcs [dc0] (j + 1)
                    = bcs.take (j + 1) ++ ([dc0] ++ bcs.drop (j + 1)) from by
                  rw [insertAt, List.append_assoc]] at h0
            · intro a ha
              have ha' : mem.free ≤ a := ha
              have h1 : (bcs.get ⟨j, hj⟩).1 < mem.free := haj_lt
              have h2 : (bcs.get ⟨j + 1, hi⟩).1 < mem.free := hai_lt
              have h3 : dc0.1 < mem.free := hd0_lt
              refine Eq.trans ?_ (hm a ha')
              exact relink4_at_other (by omega) (by omega) (by omega) (by omega)
          · -- donor with at least two cells
            simp only [List.concat_eq_append] at hsegd htd hld hndd hfreshd hdisj haid hajd hfr hbk ⊢
            have hndd0 := hndd
            have hsegd' := hsegd
            have hdtl : dtail = some dtc.1 := by
              rw [htd, backPtr_cons, backPtr_concat]
            obtain ⟨hreadd0, hsegdrest⟩ := hsegd
            have hfr2 : frontPtr (drest2 ++ [dtc]) none = frontPtr drest2 (some dtc.1) :=
              frontPtr_append drest2 [dtc] none
            rw [hfr2] at hreadd0
            rw [seg_append] at hsegdrest
            obtain ⟨hsegd2, hsegdt⟩ := hsegdrest
            have hreaddt : mem.heap dtc.1
                = some ⟨none, backPtr (some dc0.1) drest2, dtc.2⟩ := hsegdt.1
            rw [addrs_cons, List.nodup_cons] at hndd
            have hd0_dt : dc0.1 ≠ dtc.1 := by
              intro h0
              exact hndd.1 (by rw [h0]; simp [addrs_append, addrs])
            have hdt_mem : ∀ a ∈ addrs drest2, a ≠ dtc.1 := by
              have h0 := hndd.2
              rw [addrs_append, List.nodup_append] at h0
              intro a ha h1
              exact h0.2.2 ha (by rw [h1]; simp [addrs])
            have hd0_mem : ∀ a ∈ addrs drest2, a ≠ dc0.1 := by
              intro a ha h1
              refine hndd.1 ?_
              rw [← h1, addrs_append]
              exact List.mem_append_left _ ha
            have hai_dt : (bcs.get ⟨j + 1, hi⟩).1 ≠ dtc.1 := by
              intro h0
              exact haid (by rw [h0]; simp [addrs_append, addrs])
            have haj_dt : (bcs.get ⟨j, hj⟩).1 ≠ dtc.1 := by
              intro h0
              exact hajd (by rw [h0]; simp [addrs_append, addrs])
            have hdt_lt : dtc.1 < mem.free := hfreshd dtc.1 (by simp [addrs_append, addrs])
            refine ⟨⟨relink4 mem.heap (bcs.get ⟨j, hj⟩).1 dc0.1 (bcs.get ⟨j + 1, hi⟩).1 dtc.1
                (some ⟨some dc0.1, backPtr none (bcs.take j), (bcs.get ⟨j, hj⟩).2⟩)
                (some ⟨frontPtr drest2 (some dtc.1), some (bcs.get ⟨j, hj⟩).1, dc0.2⟩)
                (some ⟨(bcs.get? (j + 1 + 1)).map Prod.fst, some dtc.1,
                  (bcs.get ⟨j + 1, hi⟩).2⟩)
                (some ⟨some (bcs.get ⟨j + 1, hi⟩).1, backPtr (some dc0.1) drest2, dtc.2⟩),
                mem.free⟩, ?_, ?_, ?_, rfl⟩
            · rw [hfr, hbk]
              simp only [CursorSt.splice_before, hdemp, hbemp]
              simp only [List.get_eq_getElem, List.get?_eq_getElem?] at hread hreadj0 hajai hai_d haj_d hai_dt haj_dt ⊢
              simp [relink4, hdh0, hdtl, Mem.read, Mem.setNext, Mem.setPrev, hupd,
                hread, hreadj0, hreadd0, hreaddt, hajai, hai_d, haj_d, hai_dt, haj_dt,
                hd0_dt, Ne.symm hajai, Ne.symm hai_d, Ne.symm haj_d, Ne.symm hai_dt,
                Ne.symm haj_dt, Ne.symm hd0_dt, hlb, hld]
            · refine ⟨?_, rfl, rfl, ?_, ?_⟩
              · rw [seg_append]
                constructor
                · rw [show frontPtr ((dc0 :: (drest2 ++ [dtc])) ++ bcs.drop (j + 1)) none
                      = some dc0.1 from rfl, take_succ_get bcs j hj]
                  refine @seg_retarget_back T mem.heap _ none
                    (some (bcs.get ⟨j + 1, hi⟩).1) (some dc0.1) _ _ ?_ ?_ ?_
                  · rw [← take_succ_get bcs j hj]
                    exact hsegT
                  · intro a ha
                    have h1 : a ≠ (bcs.get ⟨j, hj⟩).1 :=
                      mem_take_ne_get hndb (le_refl j) hj a ha
                    have h2 : a ≠ (bcs.get ⟨j + 1, hi⟩).1 :=
                      mem_take_ne_get hndb (by omega) hi a ha
                    have h3 : a ≠ dc0.1 := by
                      intro h0
                      exact hdisj a (hTmem a ha) (by rw [h0]; simp [addrs])
                    have h4 : a ≠ dtc.1 := by
                      intro h0
                      exact hdisj a (hTmem a ha) (by rw [h0]; simp [addrs_append, addrs])
                    exact relink4_at_other h1 h3 h2 h4
                  · exact relink4_at1 haj_d hajai haj_dt
                · rw [hprev, seg_append]
                  constructor
                  · rw [frontPtr_drop, hnext_j]
                    refine seg_relink_multi hsegd' ?_ ?_ ?_
                    · intro a ha
                      have hadcs : a ∈ addrs (dc0 :: (drest2 ++ [dtc])) := by
                        rw [addrs_cons, addrs_append]
                        exact List.mem_cons_of_mem _ (List.mem_append_left _ ha)
                      have h1 : a ≠ (bcs.get ⟨j, hj⟩).1 := by
                        intro h0
                        exact hajd (h0 ▸ hadcs)
                      have h2 : a ≠ (bcs.get ⟨j + 1, hi⟩).1 := by
                        intro h0
                        exact haid (h0 ▸ hadcs)
                      have h3 : a ≠ dc0.1 := hd0_mem a ha
                      have h4 : a ≠ dtc.1 := hdt_mem a ha
                      exact relink4_at_other h1 h3 h2 h4
                    · exact relink4_at2 (Ne.symm hai_d) hd0_dt
                    · exact relink4_at4
                  · rw [show backPtr (some (bcs.get ⟨j, hj⟩).1) (dc0 :: (drest2 ++ [dtc]))
                        = some dtc.1 from by rw [backPtr_cons, backPtr_concat], hdcons]
                    refine @seg_retarget_front T mem.heap _ (some (bcs.get ⟨j, hj⟩).1) none
                      (some dtc.1) _ _ ?_ ?_ ?_
                    · rw [← hdcons]
                      exact hsegR
                    · intro a ha
                      have h1 : a ≠ (bcs.get ⟨j + 1, hi⟩).1 :=
                        mem_drop_ne_get hndb (by omega) hi a ha
                      have h2 : a ≠ (bcs.get ⟨j, hj⟩).1 :=
                        mem_drop_ne_get hndb (by omega) hj a ha
                      have h3 : a ≠ dc0.1 := by
                        intro h0
                        exact hdisj a (hRmem a ha) (by rw [h0]; simp [addrs])
                      have h4 : a ≠ dtc.1 := by
                        intro h0
                        exact hdisj a (hRmem a ha) (by rw [h0]; simp [addrs_append, addrs])
                      exact relink4_at_other h2 h3 h1 h4
                    · rw [frontPtr_drop]
                      exact relink4_at3 hai_dt
              · show list.len + dlen
                    = (bcs.take (j + 1)
                        ++ ((dc0 :: (drest2 ++ [dtc])) ++ bcs.drop (j + 1))).length
                rw [hlb, hld]
                simp
                omega
              · have h0 := nodup_insertAt hndb hndd0 hdisj (j + 1)
                rwa [show insertAt bcs (dc0 :: (drest2 ++ [dtc])) (j + 1)
                    = bcs.take (j + 1) ++ ((dc0 :: (drest2 ++ [dtc])) ++ bcs.drop (j + 1))
                    from by rw [insertAt, List.append_assoc]] at h0
            · intro a ha
              have ha' : mem.free ≤ a := ha
              have h1 : (bcs.get ⟨j, hj⟩).1 < mem.free := haj_lt
              have h2 : (bcs.get ⟨j + 1, hi⟩).1 < mem.free := hai_lt
              have h3 : dc0.1 < mem.free := hd0_lt
              have h4 : dtc.1 < mem.free := hdt_lt
              refine Eq.trans ?_ (hm a ha')
              exact relink4_at_other (by omega) (by omega) (by omega) (by omega)

theorem splice_after_spec {c : CursorSt T} {input : DequeueList}
    {bcs dcs : List (Nat × T)}
    (hm : MemOk c.mem)
    (hrepb : ListRep c.mem.heap c.list bcs)
    (hrepd : ListRep c.mem.heap input dcs)
    (hcur : CursorRep bcs c.current c.index)
    (hdisj : ∀ a ∈ addrs bcs, a ∉ addrs dcs)
    (hbne : bcs ≠ []) (hdne : dcs ≠ []) :
    ∃ m', c.splice_after input = some
      (⟨m', ⟨frontPtr (insertAt bcs dcs (afterPos c.index)) none,
             backPtr none (insertAt bcs dcs (afterPos c.index)),
             c.list.len + input.len⟩, c.current, c.index⟩,
       some ⟨none, none, 0⟩) ∧
      ListRep m'.heap
        ⟨frontPtr (insertAt bcs dcs (afterPos c.index)) none,
         backPtr none (insertAt bcs dcs (afterPos c.index)),
         c.list.len + input.len⟩
        (insertAt bcs dcs (afterPos c.index)) ∧
      MemOk m' ∧ m'.free = c.mem.free := by
  obtain ⟨mem, list, cur, idx⟩ := c
  obtain ⟨dhead, dtail, dlen⟩ := input
  obtain ⟨hsegb, hhb, htb, hlb, hndb⟩ := hrepb
  obtain ⟨hsegd, hhd, htd, hld, hndd⟩ := hrepd
  dsimp only at hm hsegb hhb htb hlb hndb hsegd hhd htd hld hndd hcur hdisj ⊢
  have hdemp : (⟨dhead, dtail, dlen⟩ : DequeueList).is_empty = false := by
    have h0 : dlen ≠ 0 := by
      rw [hld]
      intro h1
      exact hdne (List.eq_nil_of_length_eq_zero h1)
    simp [DequeueList.is_empty, h0]
  have hbemp : list.is_empty = false := by
    have h0 : list.len ≠ 0 := by
      rw [hlb]
      intro h1
      exact hbne (List.eq_nil_of_length_eq_zero h1)
    simp [DequeueList.is_empty, h0]
  have hfreshb : ∀ a ∈ addrs bcs, a < mem.free := addr_lt_free hm hsegb
  have hfreshd : ∀ a ∈ addrs dcs, a < mem.free := addr_lt_free hm hsegd
  cases idx with
  | none =>
      -- ghost: insert at the very front
      have hc : cur = none := hcur
      subst hc
      have hi : 0 < bcs.length := List.length_pos.mpr hbne
      have hread := seg_read hsegb hi
      have hai_lt : (bcs.get ⟨0, hi⟩).1 < mem.free :=
        hfreshb _ (List.mem_map_of_mem Prod.fst (List.get_mem _ _ _))
      have haid : (bcs.get ⟨0, hi⟩).1 ∉ addrs dcs :=
        hdisj _ (List.mem_map_of_mem Prod.fst (List.get_mem _ _ _))
      have hprev0 : backPtr none (bcs.take 0) = none := rfl
      rw [hprev0] at hread
      have hbcons : bcs = bcs.get ⟨0, hi⟩ :: bcs.drop 1 := by
        conv_lhs => rw [← List.drop_zero bcs]
        rw [List.drop_eq_getElem_cons hi]
        rfl
      have hins : insertAt bcs dcs 0 = dcs ++ bcs := by
        rw [insertAt, List.take_zero, List.nil_append, List.drop_zero]
      rw [show afterPos none = 0 from rfl, hins]
      rcases List.eq_nil_or_concat dcs with rfl | ⟨dcs'', dtc, rfl⟩
      · exact absurd rfl hdne
      simp only [List.concat_eq_append] at hsegd hhd htd hld hndd hfreshd hdisj haid ⊢
      rw [seg_append] at hsegd
      obtain ⟨hsegd', hsegdt⟩ := hsegd
      have hreaddt : mem.heap dtc.1 = some ⟨none, backPtr none dcs'', dtc.2⟩ := by
        simpa [seg] using hsegdt
      have hdtl : dtail = some dtc.1 := by rw [htd, backPtr_concat]
      have hb0dt : (bcs.get ⟨0, hi⟩).1 ≠ dtc.1 := by
        intro h0
        exact haid (h0 ▸ (by simp [addrs_append, addrs]))
      obtain ⟨dh0, hdh0, hfrd⟩ : ∃ x, dhead = some x ∧
          frontPtr (dcs'' ++ [dtc]) none = some x := by
        rw [hhd]
        cases dcs'' <;> exact ⟨_, rfl, rfl⟩
      have hfb : frontPtr bcs none = some (bcs.get ⟨0, hi⟩).1 := by
        conv_lhs => rw [hbcons]
        rfl
      have hhbb : list.head = some (bcs.get ⟨0, hi⟩).1 := by
        rw [hhb]
        exact hfb
      have hndd' : (addrs dcs'').Nodup ∧ dtc.1 ∉ addrs dcs'' := by
        rw [addrs_append, List.nodup_append] at hndd
        exact ⟨hndd.1, fun hmem => hndd.2.2 hmem (by simp [addrs])⟩
      refine ⟨⟨hupd (hupd mem.heap (bcs.get ⟨0, hi⟩).1
          (some ⟨(bcs.get? 1).map Prod.fst, some dtc.1, (bcs.get ⟨0, hi⟩).2⟩))
          dtc.1 (some ⟨some (bcs.get ⟨0, hi⟩).1, backPtr none dcs'', dtc.2⟩),
          mem.free⟩, ?_, ?_, ?_, rfl⟩
      · have hfr : frontPtr ((dcs'' ++ [dtc]) ++ bcs) none = some dh0 := by
          rw [frontPtr_append]
          rw [frontPtr_irrel (by simp) _ (frontPtr bcs none)] at hfrd
          exact hfrd
        have hbk : backPtr none ((dcs'' ++ [dtc]) ++ bcs) = list.tail := by
          rw [backPtr_append, backPtr_acc_irrel (by
              intro h0
              rw [h0] at hi
              simp at hi) _ none, htb]
        rw [hfr, hbk]
        simp only [CursorSt.splice_after, hdemp, hbemp]
        have hdtb0 : dtc.1 ≠ (bcs.get ⟨0, hi⟩).1 := fun h0 => hb0dt h0.symm
        simp only [List.get_eq_getElem, List.get?_eq_getElem?] at hread hreaddt hb0dt hdtb0 hhbb
        simp [hdh0, hdtl, hhbb, Mem.read, hread, hreaddt, Mem.setNext, Mem.setPrev,
          hupd, hb0dt, hdtb0, hlb, hld]
      · refine ⟨?_, rfl, rfl, ?_, ?_⟩
        · rw [seg_append, hfb]
          constructor
          · refine @seg_retarget_back T mem.heap _ none none
              (some (bcs.get ⟨0, hi⟩).1) _ _ ?_ ?_ ?_
            · exact (seg_append _ _ _ _ _).mpr ⟨hsegd', hsegdt⟩
            · intro a ha
              have h1 : a ≠ dtc.1 := fun h0 => hndd'.2 (h0 ▸ ha)
              have h2 : a ≠ (bcs.get ⟨0, hi⟩).1 := by
                intro h0
                exact haid (h0 ▸ (by
                  rw [addrs_append]
                  exact List.mem_append_left _ ha))
              show hupd (hupd mem.heap (bcs.get ⟨0, hi⟩).1
                  (some ⟨(bcs.get? 1).map Prod.fst, some dtc.1, (bcs.get ⟨0, hi⟩).2⟩))
                  dtc.1 (some ⟨some (bcs.get ⟨0, hi⟩).1, backPtr none dcs'', dtc.2⟩) a
                = mem.heap a
              rw [hupd_other _ _ h1, hupd_other _ _ h2]
            · show hupd (hupd mem.heap (bcs.get ⟨0, hi⟩).1
                  (some ⟨(bcs.get? 1).map Prod.fst, some dtc.1, (bcs.get ⟨0, hi⟩).2⟩))
                  dtc.1 (some ⟨some (bcs.get ⟨0, hi⟩).1, backPtr none dcs'', dtc.2⟩)
                  dtc.1
                = some ⟨some (bcs.get ⟨0, hi⟩).1, backPtr none dcs'', dtc.2⟩
              rw [hupd_same]
          · rw [backPtr_concat]
            have hsegb0 : seg mem.heap none (bcs.get ⟨0, hi⟩ :: bcs.drop 1) none := by
              rw [← hbcons]
              exact hsegb
            have hgen : ∀ h2 : Heap T,
                seg h2 (some dtc.1) (bcs.get ⟨0, hi⟩ :: bcs.drop 1) none →
                seg h2 (some dtc.1) bcs none := by
              intro h2 hx
              rwa [← hbcons] at hx
            refine hgen _ ?_
            refine @seg_retarget_front T mem.heap _ none none (some dtc.1) _ _
              hsegb0 ?_ ?_
            · intro a ha
              have h1 : a ≠ (bcs.get ⟨0, hi⟩).1 :=
                mem_drop_ne_get hndb (show 0 < 1 from by omega) hi a ha
              have h2 : a ≠ dtc.1 := by
                intro h0
                have hab : a ∈ addrs bcs := by
                  rw [addrs_drop] at ha
                  exact List.mem_of_mem_drop ha
                exact hdisj a hab (by rw [h0]; simp [addrs_append, addrs])
              show hupd (hupd mem.heap (bcs.get ⟨0, hi⟩).1
                  (some ⟨(bcs.get? 1).map Prod.fst, some dtc.1, (bcs.get ⟨0, hi⟩).2⟩))
                  dtc.1 (some ⟨some (bcs.get ⟨0, hi⟩).1, backPtr none dcs'', dtc.2⟩) a
                = mem.heap a
              rw [hupd_other _ _ h2, hupd_other _ _ h1]
            · show hupd (hupd mem.heap (bcs.get ⟨0, hi⟩).1
                  (some ⟨(bcs.get? 1).map Prod.fst, some dtc.1, (bcs.get ⟨0, hi⟩).2⟩))
                  dtc.1 (some ⟨some (bcs.get ⟨0, hi⟩).1, backPtr none dcs'', dtc.2⟩)
                  (bcs.get ⟨0, hi⟩).1
                = some ⟨frontPtr (bcs.drop 1) none, some dtc.1, (bcs.get ⟨0, hi⟩).2⟩
              rw [hupd_other _ _ hb0dt, hupd_same, frontPtr_drop]
        · show list.len + dlen = ((dcs'' ++ [dtc]) ++ bcs).length
          rw [hlb, hld]
          simp
          omega
        · have h0 := nodup_insertAt hndb hndd hdisj 0
          rwa [show insertAt bcs (dcs'' ++ [dtc]) 0 = (dcs'' ++ [dtc]) ++ bcs from by
            rw [insertAt, List.take_zero, List.nil_append, List.drop_zero]] at h0
      · intro a ha
        have ha' : mem.free ≤ a := ha
        have h1 : (bcs.get ⟨0, hi⟩).1 < mem.free := hai_lt
        have h2 : dtc.1 < mem.free := hfreshd dtc.1 (by simp [addrs_append, addrs])
        show hupd (hupd mem.heap (bcs.get ⟨0, hi⟩).1
            (some ⟨(bcs.get? 1).map Prod.fst, some dtc.1, (bcs.get ⟨0, hi⟩).2⟩))
            dtc.1 (some ⟨some (bcs.get ⟨0, hi⟩).1, backPtr none dcs'', dtc.2⟩) a = none
        rw [hupd_other _ _ (by omega : a ≠ dtc.1),
          hupd_other _ _ (by omega : a ≠ (bcs.get ⟨0, hi⟩).1)]
        exact hm a ha'
  | some i =>
      obtain ⟨hi, hc⟩ := hcur
      rw [List.get?_eq_get hi, Option.map_some'] at hc
      subst hc
      have hread := seg_read hsegb hi
      have hai_lt : (bcs.get ⟨i, hi⟩).1 < mem.free :=
        hfreshb _ (List.mem_map_of_mem Prod.fst (List.get_mem _ _ _))
      have haid : (bcs.get ⟨i, hi⟩).1 ∉ addrs dcs :=
        hdisj _ (List.mem_map_of_mem Prod.fst (List.get_mem _ _ _))
      rcases Nat.lt_or_ge (i + 1) bcs.length with hnexti | hge
      · -- interior: there is a node after the cursor
        have hprev : backPtr none (bcs.take (i + 1)) = some (bcs.get ⟨i, hi⟩).1 := by
          rw [take_succ_get bcs i hi, backPtr_concat]
        have hnext_j : (bcs.get? (i + 1)).map Prod.fst
            = some (bcs.get ⟨i + 1, hnexti⟩).1 := by
          rw [List.get?_eq_get hnexti, Option.map_some']
        rw [hnext_j] at hread
        have hreadnext := seg_read hsegb hnexti
        rw [hprev] at hreadnext
        have hai1_lt : (bcs.get ⟨i + 1, hnexti⟩).1 < mem.free :=
          hfreshb _ (List.mem_map_of_mem Prod.fst (List.get_mem _ _ _))
        have hai1d : (bcs.get ⟨i + 1, hnexti⟩).1 ∉ addrs dcs :=
          hdisj _ (List.mem_map_of_mem Prod.fst (List.get_mem _ _ _))
        have hajai : (bcs.get ⟨i, hi⟩).1 ≠ (bcs.get ⟨i + 1, hnexti⟩).1 :=
          addr_get_ne hndb hi hnexti (by omega)
        have hsegT : seg mem.heap none (bcs.take (i + 1))
            (some (bcs.get ⟨i + 1, hnexti⟩).1) := by
          have h0 := (seg_split mem.heap hsegb (i + 1)).1
          rwa [frontPtr_drop, hnext_j] at h0
        have hsegR : seg mem.heap (some (bcs.get ⟨i, hi⟩).1) (bcs.drop (i + 1)) none := by
          have h0 := (seg_split mem.heap hsegb (i + 1)).2
          rwa [hprev] at h0
        have hdcons : bcs.drop (i + 1)
            = bcs.get ⟨i + 1, hnexti⟩ :: bcs.drop (i + 1 + 1) := by
          rw [List.drop_eq_getElem_cons hnexti]
          rfl
        have htne : bcs.take (i + 1) ≠ [] := by
          intro h0
          have h1 := congrArg List.length h0
          rw [List.length_take, List.length_nil] at h1
          omega
        have hdrne : bcs.drop (i + 1) ≠ [] := by
          intro h0
          have h1 := congrArg List.length h0
          rw [List.length_drop, List.length_nil] at h1
          omega
        have hTmem : ∀ a ∈ addrs (bcs.take i), a ∈ addrs bcs := by
          intro a ha
          rw [addrs_take] at ha
          exact List.take_subset _ _ ha
        have hRmem : ∀ a ∈ addrs (bcs.drop (i + 1 + 1)), a ∈ addrs bcs := by
          intro a ha
          rw [addrs_drop] at ha
          exact List.drop_subset _ _ ha
        have hins : insertAt bcs dcs (i + 1)
            = bcs.take (i + 1) ++ (dcs ++ bcs.drop (i + 1)) := by
          rw [insertAt, List.append_assoc]
        have hfr : frontPtr (bcs.take (i + 1) ++ (dcs ++ bcs.drop (i + 1))) none
            = list.head := by
          rw [frontPtr_append, frontPtr_irrel htne _ none,
            frontPtr_take (by omega : i + 1 ≠ 0) none]
          exact hhb.symm
        have hbk : backPtr none (bcs.take (i + 1) ++ (dcs ++ bcs.drop (i + 1)))
            = list.tail := by
          rw [backPtr_append, backPtr_append,
            backPtr_acc_irrel hdrne _ (backPtr none (bcs.take (i + 1)))]
          have h0 : backPtr (backPtr none (bcs.take (i + 1))) (bcs.drop (i + 1))
              = backPtr none bcs := by
            conv_rhs => rw [← List.take_append_drop (i + 1) bcs]
            rw [backPtr_append]
          rw [h0]
          exact htb.symm
        rw [show afterPos (some i) = i + 1 from rfl, hins]
        cases dcs with
        | nil => exact absurd rfl hdne
        | cons dc0 drest =>
        have hdh0 : dhead = some dc0.1 := by
          rw [hhd]
          rfl
        have hai_d : (bcs.get ⟨i, hi⟩).1 ≠ dc0.1 := by
          intro h0
          exact haid (by rw [h0]; simp [addrs])
        have hai1_d : (bcs.get ⟨i + 1, hnexti⟩).1 ≠ dc0.1 := by
          intro h0
          exact hai1d (by rw [h0]; simp [addrs])
        have hd0_lt : dc0.1 < mem.free := hfreshd dc0.1 (by simp [addrs])
        rcases List.eq_nil_or_concat drest with rfl | ⟨drest2, dtc, rfl⟩
        · -- singleton donor
          have hreadd : mem.heap dc0.1 = some ⟨none, none, dc0.2⟩ := hsegd.1
          have hdtl : dtail = some dc0.1 := by
            rw [htd]
            rfl
          refine ⟨⟨relink4 mem.heap (bcs.get ⟨i + 1, hnexti⟩).1 dc0.1
              (bcs.get ⟨i, hi⟩).1 dc0.1
              (some ⟨(bcs.get? (i + 1 + 1)).map Prod.fst, some dc0.1,
                (bcs.get ⟨i + 1, hnexti⟩).2⟩)
              (some ⟨some (bcs.get ⟨i + 1, hnexti⟩).1, none, dc0.2⟩)
              (some ⟨some dc0.1, backPtr none (bcs.take i), (bcs.get ⟨i, hi⟩).2⟩)
              (some ⟨some (bcs.get ⟨i + 1, hnexti⟩).1, some (bcs.get ⟨i, hi⟩).1, dc0.2⟩),
              mem.free⟩, ?_, ?_, ?_, rfl⟩
          · rw [hfr, hbk]
            simp only [CursorSt.splice_after, hdemp, hbemp]
            simp only [List.get_eq_getElem, List.get?_eq_getElem?] at hread hreadnext hajai hai_d hai1_d ⊢
            simp [relink4, hdh0, hdtl, Mem.read, Mem.setNext, Mem.setPrev, hupd,
              hread, hreadnext, hreadd, hajai, hai_d, hai1_d,
              Ne.symm hajai, Ne.symm hai_d, Ne.symm hai1_d, hlb, hld]
          · refine ⟨?_, rfl, rfl, ?_, ?_⟩
            · rw [seg_append]
              constructor
              · rw [show frontPtr ([dc0] ++ bcs.drop (i + 1)) none = some dc0.1 from rfl,
                  take_succ_get bcs i hi]
                refine @seg_retarget_back T mem.heap _ none
                  (some (bcs.get ⟨i + 1, hnexti⟩).1) (some dc0.1) _ _ ?_ ?_ ?_
                · rw [← take_succ_get bcs i hi]
                  exact hsegT
                · intro a ha
                  have h1 : a ≠ (bcs.get ⟨i, hi⟩).1 :=
                    mem_take_ne_get hndb (le_refl i) hi a ha
                  have h2 : a ≠ (bcs.get ⟨i + 1, hnexti⟩).1 :=
                    mem_take_ne_get hndb (by omega) hnexti a ha
                  have h3 : a ≠ dc0.1 := by
                    intro h0
                    exact hdisj a (hTmem a ha) (by rw [h0]; simp [addrs])
                  exact relink4_at_other h2 h3 h1 h3
                · exact relink4_at3 hai_d
              · rw [hprev, seg_append]
                constructor
                · rw [frontPtr_drop, hnext_j]
                  exact ⟨relink4_at4, trivial⟩
                · rw [show backPtr (some (bcs.get ⟨i, hi⟩).1) [dc0] = some dc0.1 from rfl,
                    hdcons]
                  refine @seg_retarget_front T mem.heap _ (some (bcs.get ⟨i, hi⟩).1) none
                    (some dc0.1) _ _ ?_ ?_ ?_
                  · rw [← hdcons]
                    exact hsegR
                  · intro a ha
                    have h1 : a ≠ (bcs.get ⟨i + 1, hnexti⟩).1 :=
                      mem_drop_ne_get hndb (by omega) hnexti a ha
                    have h2 : a ≠ (bcs.get ⟨i, hi⟩).1 :=
                      mem_drop_ne_get hndb (by omega) hi a ha
                    have h3 : a ≠ dc0.1 := by
                      intro h0
                      exact hdisj a (hRmem a ha) (by rw [h0]; simp [addrs])
                    exact relink4_at_other h1 h3 h2 h3
                  · rw [frontPtr_drop]
                    exact relink4_at1 hai1_d (Ne.symm hajai) hai1_d
            · show list.len + dlen
                  = (bcs.take (i + 1) ++ ([dc0] ++ bcs.drop (i + 1))).length
              rw [hlb, hld]
              simp
              omega
            · have h0 := nodup_insertAt hndb hndd hdisj (i + 1)
              rwa [show insertAt bcs [dc0] (i + 1)
                  = bcs.take (i + 1) ++ ([dc0] ++ bcs.drop (i + 1)) from by
                rw [insertAt, List.append_assoc]] at h0
          · intro a ha
            have ha' : mem.free ≤ a := ha
            have h1 : (bcs.get ⟨i, hi⟩).1 < mem.free := hai_lt
            have h2 : (bcs.get ⟨i + 1, hnexti⟩).1 < mem.free := hai1_lt
            have h3 : dc0.1 < mem.free := hd0_lt
            refine Eq.trans ?_ (hm a ha')
            exact relink4_at_other (by omega) (by omega) (by omega) (by omega)
        · -- donor with at least two cells
          simp only [List.concat_eq_append] at hsegd htd hld hndd hfreshd hdisj haid hai1d hfr hbk ⊢
          have hndd0 := hndd
          have hsegd' := hsegd
          have hdtl : dtail = some dtc.1 := by
            rw [htd, backPtr_cons, backPtr_concat]
          obtain ⟨hreadd0, hsegdrest⟩ := hsegd
          have hfr2 : frontPtr (drest2 ++ [dtc]) none = frontPtr drest2 (some dtc.1) :=
            frontPtr_append drest2 [dtc] none
          rw [hfr2] at hreadd0
          rw [seg_append] at hsegdrest
          obtain ⟨hsegd2, hsegdt⟩ := hsegdrest
          have hreaddt : mem.heap dtc.1
              = some ⟨none, backPtr (some dc0.1) drest2, dtc.2⟩ := hsegdt.1
          rw [addrs_cons, List.nodup_cons] at hndd
          have hd0_dt : dc0.1 ≠ dtc.1 := by
            intro h0
            exact hndd.1 (by rw [h0]; simp [addrs_append, addrs])
          have hdt_mem : ∀ a ∈ addrs drest2, a ≠ dtc.1 := by
            have h0 := hndd.2
            rw [addrs_append, List.nodup_append] at h0
            intro a ha h1
            exact h0.2.2 ha (by rw [h1]; simp [addrs])
          have hd0_mem : ∀ a ∈ addrs drest2, a ≠ dc0.1 := by
            intro a ha h1
            refine hndd.1 ?_
            rw [← h1, addrs_append]
            exact List.mem_append_left _ ha
          have hai_dt : (bcs.get ⟨i, hi⟩).1 ≠ dtc.1 := by
            intro h0
            exact haid (by rw [h0]; simp [addrs_append, addrs])
          have hai1_dt : (bcs.get ⟨i + 1, hnexti⟩).1 ≠ dtc.1 := by
            intro h0
            exact hai1d (by rw [h0]; simp [addrs_append, addrs])
          have hdt_lt : dtc.1 < mem.free := hfreshd dtc.1 (by simp [addrs_append, addrs])
          refine ⟨⟨relink4 mem.heap (bcs.get ⟨i + 1, hnexti⟩).1 dtc.1
              (bcs.get ⟨i, hi⟩).1 dc0.1
              (some ⟨(bcs.get? (i + 1 + 1)).map Prod.fst, some dtc.1,
                (bcs.get ⟨i + 1, hnexti⟩).2⟩)
              (some ⟨some (bcs.get ⟨i + 1, hnexti⟩).1, backPtr (some dc0.1) drest2, dtc.2⟩)
              (some ⟨some dc0.1, backPtr none (bcs.take i), (bcs.get ⟨i, hi⟩).2⟩)
              (some ⟨frontPtr drest2 (some dtc.1), some (bcs.get ⟨i, hi⟩).1, dc0.2⟩),
              mem.free⟩, ?_, ?_, ?_, rfl⟩
          · rw [hfr, hbk]
            simp only [CursorSt.splice_after, hdemp, hbemp]
            simp only [List.get_eq_getElem, List.get?_eq_getElem?] at hread hreadnext hajai hai_d hai1_d hai_dt hai1_dt ⊢
            simp [relink4, hdh0, hdtl, Mem.read, Mem.setNext, Mem.setPrev, hupd,
              hread, hreadnext, hreadd0, hreaddt, hajai, hai_d, hai1_d, hai_dt, hai1_dt,
              hd0_dt, Ne.symm hajai, Ne.symm hai_d, Ne.symm hai1_d, Ne.symm hai_dt,
              Ne.symm hai1_dt, Ne.symm hd0_dt, hlb, hld]
          · refine ⟨?_, rfl, rfl, ?_, ?_⟩
            · rw [seg_append]
              constructor
              · rw [show frontPtr ((dc0 :: (drest2 ++ [dtc])) ++ bcs.drop (i + 1)) none
                    = some dc0.1 from rfl, take_succ_get bcs i hi]
                refine @seg_retarget_back T mem.heap _ none
                  (some (bcs.get ⟨i + 1, hnexti⟩).1) (some dc0.1) _ _ ?_ ?_ ?_
                · rw [← take_succ_get bcs i hi]
                  exact hsegT
                · intro a ha
                  have h1 : a ≠ (bcs.get ⟨i, hi⟩).1 :=
                    mem_take_ne_get hndb (le_refl i) hi a ha
                  have h2 : a ≠ (bcs.get ⟨i + 1, hnexti⟩).1 :=
                    mem_take_ne_get hndb (by omega) hnexti a ha
                  have h3 : a ≠ dc0.1 := by
                    intro h0
                    exact hdisj a (hTmem a ha) (by rw [h0]; simp [addrs])
                  have h4 : a ≠ dtc.1 := by
                    intro h0
                    exact hdisj a (hTmem a ha) (by rw [h0]; simp [addrs_append, addrs])
                  exact relink4_at_other h2 h4 h1 h3
                · exact relink4_at3 hai_d
              · rw [hprev, seg_append]
                constructor
                · rw [frontPtr_drop, hnext_j]
                  refine seg_relink_multi hsegd' ?_ ?_ ?_
                  · intro a ha
                    have hadcs : a ∈ addrs (dc0 :: (drest2 ++ [dtc])) := by
                      rw [addrs_cons, addrs_append]
                      exact List.mem_cons_of_mem _ (List.mem_append_left _ ha)
                    have h1 : a ≠ (bcs.get ⟨i, hi⟩).1 := by
                      intro h0
                      exact haid (h0 ▸ hadcs)
                    have h2 : a ≠ (bcs.get ⟨i + 1, hnexti⟩).1 := by
                      intro h0
                      exact hai1d (h0 ▸ hadcs)
                    have h3 : a ≠ dc0.1 := hd0_mem a ha
                    have h4 : a ≠ dtc.1 := hdt_mem a ha
                    exact relink4_at_other h2 h4 h1 h3
                  · exact relink4_at4
                  · exact relink4_at2 (Ne.symm hai_dt) (Ne.symm hd0_dt)
                · rw [show backPtr (some (bcs.get ⟨i, hi⟩).1) (dc0 :: (drest2 ++ [dtc]))
                      = some dtc.1 from by rw [backPtr_cons, backPtr_concat], hdcons]
                  refine @seg_retarget_front T mem.heap _ (some (bcs.get ⟨i, hi⟩).1) none
                    (some dtc.1) _ _ ?_ ?_ ?_
                  · rw [← hdcons]
                    exact hsegR
                  · intro a ha
                    have h1 : a ≠ (bcs.get ⟨i + 1, hnexti⟩).1 :=
                      mem_drop_ne_get hndb (by omega) hnexti a ha
                    have h2 : a ≠ (bcs.get ⟨i, hi⟩).1 :=
                      mem_drop_ne_get hndb (by omega) hi a ha
                    have h3 : a ≠ dc0.1 := by
                      intro h0
                      exact hdisj a (hRmem a ha) (by rw [h0]; simp [addrs])
                    have h4 : a ≠ dtc.1 := by
                      intro h0
                      exact hdisj a (hRmem a ha) (by rw [h0]; simp [addrs_append, addrs])
                    exact relink4_at_other h1 h4 h2 h3
                  · rw [frontPtr_drop]
                    exact relink4_at1 hai1_dt (Ne.symm hajai) hai1_d
            · show list.len + dlen
                  = (bcs.take (i + 1)
                      ++ ((dc0 :: (drest2 ++ [dtc])) ++ bcs.drop (i + 1))).length
              rw [hlb, hld]
              simp
              omega
            · have h0 := nodup_insertAt hndb hndd0 hdisj (i + 1)
              rwa [show insertAt bcs (dc0 :: (drest2 ++ [dtc])) (i + 1)
                  = bcs.take (i + 1) ++ ((dc0 :: (drest2 ++ [dtc])) ++ bcs.drop (i + 1))
                  from by rw [insertAt, List.append_assoc]] at h0
          · intro a ha
            have ha' : mem.free ≤ a := ha
            have h1 : (bcs.get ⟨i, hi⟩).1 < mem.free := hai_lt
            have h2 : (bcs.get ⟨i + 1, hnexti⟩).1 < mem.free := hai1_lt
            have h3 : dc0.1 < mem.free := hd0_lt
            have h4 : dtc.1 < mem.free := hdt_lt
            refine Eq.trans ?_ (hm a ha')
            exact relink4_at_other (by omega) (by omega) (by omega) (by omega)
      · -- cursor on the last node: insert at the very back
        have hlast : i + 1 = bcs.length := by omega
        have hnone : (bcs.get? (i + 1)).map Prod.fst = none := by
          rw [List.get?_eq_none.mpr (by omega : bcs.length ≤ i + 1)]
          rfl
        rw [hnone] at hread
        have hins : insertAt bcs dcs (i + 1) = bcs ++ dcs := by
          rw [insertAt, hlast, List.take_length, List.drop_length, List.append_nil]
        rw [show afterPos (some i) = i + 1 from rfl, hins]
        rcases List.eq_nil_or_concat bcs with rfl | ⟨bcs', btc, rfl⟩
        · exact absurd rfl hbne
        simp only [List.concat_eq_append] at hsegb hhb htb hlb hndb hdisj hfreshb hread ⊢
        have hieq : i = bcs'.length := by
          simp only [List.concat_eq_append, List.length_append,
            List.length_singleton] at hlast
          omega
        subst hieq
        have hgetbtc : (bcs'.concat btc).get ⟨bcs'.length, hi⟩ = btc := by
          have h0 : (bcs'.concat btc).get? bcs'.length = some btc := by
            rw [List.concat_eq_append]
            exact List.get?_concat_length _ _
          rw [List.get?_eq_get hi] at h0
          exact Option.some.inj h0
        rw [hgetbtc] at hread hai_lt haid ⊢
        rw [List.take_left] at hread
        cases dcs with
        | nil => exact absurd rfl hdne
        | cons dc0 drest =>
        have hdh : dhead = some dc0.1 := by
          rw [hhd]
          rfl
        rw [seg_append] at hsegb
        obtain ⟨hsegb', hsegbt⟩ := hsegb
        obtain ⟨hreaddh, hsegdrest⟩ := hsegd
        have hbtdc : btc.1 ≠ dc0.1 := by
          intro h0
          exact haid (by rw [h0]; simp [addrs])
        have hndb' : (addrs bcs').Nodup ∧ btc.1 ∉ addrs bcs' := by
          rw [addrs_append, List.nodup_append] at hndb
          exact ⟨hndb.1, fun hmem => hndb.2.2 hmem (by simp [addrs])⟩
        have hnddr : (addrs drest).Nodup ∧ dc0.1 ∉ addrs drest := by
          rw [addrs_cons, List.nodup_cons] at hndd
          exact ⟨hndd.2, hndd.1⟩
        have hdt : ∃ dl, dtail = some dl ∧
            backPtr none (dc0 :: drest) = some dl := by
          obtain ⟨dl, hdl⟩ := backPtr_some drest dc0.1
          exact ⟨dl, by rw [htd, backPtr_cons, hdl], by rw [backPtr_cons, hdl]⟩
        obtain ⟨dl, hdtl, hdlb⟩ := hdt
        refine ⟨⟨hupd (hupd mem.heap btc.1 (some ⟨some dc0.1, backPtr none bcs', btc.2⟩))
            dc0.1 (some ⟨frontPtr drest none, some btc.1, dc0.2⟩), mem.free⟩,
          ?_, ?_, ?_, rfl⟩
        · have hfr : frontPtr ((bcs' ++ [btc]) ++ (dc0 :: drest)) none = list.head := by
            rw [hhb, frontPtr_append]
            exact frontPtr_irrel (by simp) _ _
          have hbk : backPtr none ((bcs' ++ [btc]) ++ (dc0 :: drest)) = some dl := by
            rw [backPtr_append]
            rw [backPtr_acc_irrel (List.cons_ne_nil _ _)
              (backPtr none (bcs' ++ [btc])) none, hdlb]
          rw [hfr, hbk]
          simp only [CursorSt.splice_after, hdemp, hbemp]
          simp [hdh, hdtl, Mem.read, Mem.setNext, Mem.setPrev, hread, hreaddh,
            hupd, hbtdc, Ne.symm hbtdc, hlb, hld]
        · refine ⟨?_, rfl, rfl, ?_, ?_⟩
          · rw [seg_append]
            constructor
            · rw [show frontPtr (dc0 :: drest) none = some dc0.1 from rfl]
              refine @seg_retarget_back T mem.heap _ none none (some dc0.1) _ _ ?_ ?_ ?_
              · exact (seg_append _ _ _ _ _).mpr ⟨hsegb', hsegbt⟩
              · intro a ha
                have h1 : a ≠ btc.1 := fun h0 => hndb'.2 (h0 ▸ ha)
                have h2 : a ≠ dc0.1 := by
                  intro h0
                  exact hdisj a (by rw [addrs_append]; exact List.mem_append_left _ ha)
                    (by rw [h0]; simp [addrs])
                show hupd (hupd mem.heap btc.1 (some ⟨some dc0.1, backPtr none bcs', btc.2⟩))
                    dc0.1 (some ⟨frontPtr drest none, some btc.1, dc0.2⟩) a = mem.heap a
                rw [hupd_other _ _ h2, hupd_other _ _ h1]
              · show hupd (hupd mem.heap btc.1 (some ⟨some dc0.1, backPtr none bcs', btc.2⟩))
                    dc0.1 (some ⟨frontPtr drest none, some btc.1, dc0.2⟩) btc.1
                  = some ⟨some dc0.1, backPtr none bcs', btc.2⟩
                rw [hupd_other _ _ hbtdc, hupd_same]
            · rw [backPtr_concat]
              refine @seg_retarget_front T mem.heap _ none none (some btc.1) _ _ ?_ ?_ ?_
              · exact ⟨hreaddh, hsegdrest⟩
              · intro a ha
                have h1 : a ≠ btc.1 := by
                  intro h0
                  exact hdisj btc.1 (by simp [addrs_append, addrs])
                    (h0 ▸ (by rw [addrs_cons]; exact List.mem_cons_of_mem _ ha))
                have h2 : a ≠ dc0.1 := fun h0 => hnddr.2 (h0 ▸ ha)
                show hupd (hupd mem.heap btc.1 (some ⟨some dc0.1, backPtr none bcs', btc.2⟩))
                    dc0.1 (some ⟨frontPtr drest none, some btc.1, dc0.2⟩) a = mem.heap a
                rw [hupd_other _ _ h2, hupd_other _ _ h1]
              · show hupd (hupd mem.heap btc.1 (some ⟨some dc0.1, backPtr none bcs', btc.2⟩))
                    dc0.1 (some ⟨frontPtr drest none, some btc.1, dc0.2⟩) dc0.1
                  = some ⟨frontPtr drest none, some btc.1, dc0.2⟩
                rw [hupd_same]
          · show list.len + dlen = ((bcs' ++ [btc]) ++ (dc0 :: drest)).length
            rw [hlb, hld]
            simp
            omega
          · have h0 := nodup_insertAt hndb hndd hdisj (bcs' ++ [btc]).length
            rwa [show insertAt (bcs' ++ [btc]) (dc0 :: drest) (bcs' ++ [btc]).length
              = (bcs' ++ [btc]) ++ (dc0 :: drest) from by
                rw [insertAt, List.take_length, List.drop_length, List.append_nil]] at h0
        · intro a ha
          have ha' : mem.free ≤ a := ha
          have h1 : btc.1 < mem.free := hai_lt
          have h2 : dc0.1 < mem.free := hfreshd dc0.1 (by simp [addrs])
          show hupd (hupd mem.heap btc.1 (some ⟨some dc0.1, backPtr none bcs', btc.2⟩))
              dc0.1 (some ⟨frontPtr drest none, some btc.1, dc0.2⟩) a = none
          rw [hupd_other _ _ (by omega : a ≠ dc0.1), hupd_other _ _ (by omega : a ≠ btc.1)]
          exact hm a ha'

/-! ## Iterator layer -/

theorem frontPtr_get0 (cs : List (Nat × T)) :
    frontPtr cs none = (cs.get? 0).map Prod.fst := by
  cases cs <;> rfl

theorem iter_init {h : Heap T} {l : DequeueList} {cs : List (Nat × T)}
    (hrep : ListRep h l cs) : IterInv cs (iter l) 0 0 := by
  obtain ⟨hseg, hh, ht, hl, hnd⟩ := hrep
  refine ⟨by omega, ?_, ?_, ?_⟩
  · show l.len = cs.length - 0 - 0
    omega
  · show l.head = (cs.get? 0).map Prod.fst
    rw [hh, frontPtr_get0]
  · show l.tail = backPtr none (cs.take (cs.length - 0))
    rw [ht, Nat.sub_zero, List.take_length]

theorem iterNext_yield {m : Mem T} {cs : List (Nat × T)} {it : IterSt} {f b : Nat}
    (hseg : seg m.heap none cs none)
    (hinv : IterInv cs it f b) (hlt : f + b < cs.length) :
    ∃ hf : f < cs.length, iterNext m it
      = some (some (cs.get ⟨f, hf⟩).2,
          ⟨(cs.get? (f + 1)).map Prod.fst, it.tail, it.len - 1⟩)
      ∧ IterInv cs ⟨(cs.get? (f + 1)).map Prod.fst, it.tail, it.len - 1⟩
          (f + 1) b := by
  obtain ⟨hfb, hlen, hhead, htail⟩ := hinv
  have hf : f < cs.length := by omega
  have hl0 : it.len ≠ 0 := by omega
  have hh : it.head = some (cs.get ⟨f, hf⟩).1 := by
    rw [hhead, List.get?_eq_get hf, Option.map_some']
  have hread := seg_read hseg hf
  refine ⟨hf, ?_, by omega,
    (by show it.len - 1 = cs.length - (f + 1) - b; omega), rfl, htail⟩
  obtain ⟨ith, itt, itl⟩ := it
  dsimp only at hl0 hh hlen htail
  simp only [List.get_eq_getElem, List.get?_eq_getElem?] at hread hh
  simp [iterNext, hl0, hh, Mem.read, hread]

theorem iterNextBack_yield {m : Mem T} {cs : List (Nat × T)} {it : IterSt} {f b : Nat}
    (hseg : seg m.heap none cs none)
    (hinv : IterInv cs it f b) (hlt : f + b < cs.length) :
    ∃ hk : cs.length - b - 1 < cs.length, iterNextBack m it
      = some (some (cs.get ⟨cs.length - b - 1, hk⟩).2,
          ⟨it.head, backPtr none (cs.take (cs.length - b - 1)), it.len - 1⟩)
      ∧ IterInv cs ⟨it.head, backPtr none (cs.take (cs.length - b - 1)),
          it.len - 1⟩ f (b + 1) := by
  obtain ⟨hfb, hlen, hhead, htail⟩ := hinv
  have hk : cs.length - b - 1 < cs.length := by omega
  have hl0 : it.len ≠ 0 := by omega
  have hsub : cs.length - b = (cs.length - b - 1) + 1 := by omega
  have ht : it.tail = some (cs.get ⟨cs.length - b - 1, hk⟩).1 := by
    rw [htail]
    conv_lhs => rw [hsub]
    rw [backPtr_take cs none ((cs.length - b - 1) + 1) (by omega),
      if_neg (by omega)]
    rw [show cs.length - b - 1 + 1 - 1 = cs.length - b - 1 from rfl]
    rw [List.get?_eq_get hk, Option.map_some']
  have hread := seg_read hseg hk
  refine ⟨hk, ?_, by omega,
    (by show it.len - 1 = cs.length - f - (b + 1); omega), hhead,
    (by show backPtr none (cs.take (cs.length - b - 1))
          = backPtr none (cs.take (cs.length - (b + 1)))
        rw [show cs.length - (b + 1) = cs.length - b - 1 from by omega])⟩
  obtain ⟨ith, itt, itl⟩ := it
  dsimp only at hl0 ht hlen hhead
  simp only [List.get_eq_getElem, List.get?_eq_getElem?] at hread ht
  simp [iterNextBack, hl0, ht, Mem.read, hread]

theorem iter_exhausted {m : Mem T} {cs : List (Nat × T)} {it : IterSt} {f b : Nat}
    (hinv : IterInv cs it f b) (heq : f + b = cs.length) :
    it.len = 0 ∧ iterNext m it = some (none, it) ∧ iterNextBack m it = some (none, it) := by
  obtain ⟨hfb, hlen, hhead, htail⟩ := hinv
  have hl0 : it.len = 0 := by omega
  exact ⟨hl0, by simp [iterNext, hl0], by simp [iterNextBack, hl0]⟩

theorem elems_drop_cons {cs : List (Nat × T)} {f : Nat} (hf : f < cs.length) :
    (elems cs).drop f = (cs.get ⟨f, hf⟩).2 :: (elems cs).drop (f + 1) := by
  have hf' : f < (elems cs).length := by simpa using hf
  rw [List.drop_eq_getElem_cons hf']
  congr 1
  simp [elems]

theorem take_drop_reverse_step {es : List T} {k B : Nat} (hk0 : k ≠ 0)
    (hkl : k ≤ es.length) :
    ((es.take k).drop (k - (B + 1))).reverse
      = es.get ⟨k - 1, by omega⟩ :: ((es.take (k - 1)).drop (k - 1 - B)).reverse := by
  have hk1 : k - 1 < es.length := by omega
  have hidx : k - (B + 1) = k - 1 - B := by omega
  have htk : es.take k = es.take (k - 1) ++ [es.get ⟨k - 1, hk1⟩] := by
    conv_lhs => rw [show k = (k - 1) + 1 from by omega]
    rw [List.take_succ, List.getElem?_eq_getElem hk1]
    rfl
  rw [hidx, htk, List.drop_append_of_le_length (by rw [List.length_take]; omega)]
  rw [List.reverse_append]
  rfl

theorem runIter_spec {m : Mem T} {cs : List (Nat × T)}
    (hseg : seg m.heap none cs none) :
    ∀ (ds : List Bool) (it : IterSt) (f b : Nat), IterInv cs it f b →
    ∃ it', runIter m it ds = some (it',
        ((elems cs).drop f).take (drain ds (cs.length - f - b)).1,
        (((elems cs).take (cs.length - b)).drop
          (cs.length - b - (drain ds (cs.length - f - b)).2)).reverse) ∧
      IterInv cs it' (f + (drain ds (cs.length - f - b)).1)
        (b + (drain ds (cs.length - f - b)).2) := by
  intro ds
  induction ds with
  | nil =>
      intro it f b hinv
      refine ⟨it, ?_, by simpa [drain] using hinv⟩
      have hd : List.drop (cs.length - b) ((elems cs).take (cs.length - b)) = [] :=
        List.drop_eq_nil_of_le (by rw [List.length_take]; omega)
      simp [runIter, drain, hd]
  | cons d ds ih =>
      intro it f b hinv
      rcases Nat.lt_or_ge (f + b) cs.length with hlt | hge
      · have hr : cs.length - f - b = (cs.length - f - b - 1) + 1 := by omega
        cases d
        · -- a `next_back` call
          obtain ⟨hk, heq, hinv1⟩ := iterNextBack_yield hseg hinv hlt
          obtain ⟨it', hrun, hinv2⟩ := ih _ f (b + 1) hinv1
          have harg : cs.length - f - (b + 1) = cs.length - f - b - 1 := by omega
          rw [harg] at hrun hinv2
          rw [show cs.length - (b + 1) = cs.length - b - 1 from by omega] at hrun
          have hbw : (((elems cs).take (cs.length - b)).drop
                (cs.length - b - ((drain ds (cs.length - f - b - 1)).2 + 1))).reverse
              = (cs.get ⟨cs.length - b - 1, hk⟩).2 ::
                (((elems cs).take (cs.length - b - 1)).drop
                  (cs.length - b - 1 - (drain ds (cs.length - f - b - 1)).2)).reverse := by
            have h0 := @take_drop_reverse_step T (elems cs) (cs.length - b)
              ((drain ds (cs.length - f - b - 1)).2)
              (by omega) (by simpa using Nat.sub_le cs.length b)
            rw [h0]
            congr 1
            show (elems cs).get _ = _
            simp [elems]
          refine ⟨it', ?_, ?_⟩
          · rw [hr]
            simp only [drain]
            simp only [runIter, heq, hrun, Option.toList_some, List.singleton_append]
            rw [hbw]
          · rw [hr]
            simp only [drain]
            rw [show b + ((drain ds (cs.length - f - b - 1)).2 + 1)
                = b + 1 + (drain ds (cs.length - f - b - 1)).2 from by omega]
            exact hinv2
        · -- a `next` call
          obtain ⟨hf, heq, hinv1⟩ := iterNext_yield hseg hinv hlt
          obtain ⟨it', hrun, hinv2⟩ := ih _ (f + 1) b hinv1
          have harg : cs.length - (f + 1) - b = cs.length - f - b - 1 := by omega
          rw [harg] at hrun hinv2
          have hfw : ((elems cs).drop f).take ((drain ds (cs.length - f - b - 1)).1 + 1)
              = (cs.get ⟨f, hf⟩).2 ::
                ((elems cs).drop (f + 1)).take (drain ds (cs.length - f - b - 1)).1 := by
            rw [elems_drop_cons hf, List.take_succ_cons]
          refine ⟨it', ?_, ?_⟩
          · rw [hr]
            simp only [drain]
            simp only [runIter, heq, hrun, Option.toList_some, List.singleton_append]
            rw [hfw]
          · rw [hr]
            simp only [drain]
            rw [show f + ((drain ds (cs.length - f - b - 1)).1 + 1)
                = f + 1 + (drain ds (cs.length - f - b - 1)).1 from by omega]
            exact hinv2
      · -- exhausted: both calls are no-ops
        have heq0 : f + b = cs.length := by
          have h1 := hinv.1
          omega
        obtain ⟨hl0, hn, hb⟩ := @iter_exhausted T m cs it f b hinv heq0
        obtain ⟨it', hrun, hinv2⟩ := ih it f b hinv
        have hr0 : cs.length - f - b = 0 := by omega
        rw [hr0] at hrun hinv2
        rw [hr0]
        refine ⟨it', ?_, ?_⟩
        · cases d
          · simp only [runIter, hb, hrun, drain, Option.toList_none, List.nil_append]
          · simp only [runIter, hn, hrun, drain, Option.toList_none, List.nil_append]
        · cases d <;> simp only [drain] <;> exact hinv2

/-! ## Iterated cursor moves -/

theorem moveNextN_inv {cs : List (Nat × T)} :
    ∀ (k : Nat) (c : CursorSt T), ListRep c.mem.heap c.list cs →
      CursorRep cs c.current c.index →
    ∃ c', moveNextN k c = some c' ∧ c'.mem = c.mem ∧ c'.list = c.list ∧
      CursorRep cs c'.current c'.index ∧
      c'.index = (nextIndex cs.length)^[k] c.index := by
  intro k
  induction k with
  | zero =>
      intro c hrep hcur
      exact ⟨c, rfl, rfl, rfl, hcur, rfl⟩
  | succ k ih =>
      intro c hrep hcur
      obtain ⟨c1, h1, hm1, hl1, hcur1, hidx1⟩ := move_next_spec hrep hcur
      have hrep1 : ListRep c1.mem.heap c1.list cs := by
        rw [hm1, hl1]
        exact hrep
      obtain ⟨c', h', hm', hl', hcur', hidx'⟩ := ih c1 hrep1 hcur1
      refine ⟨c', ?_, by rw [hm', hm1], by rw [hl', hl1], hcur', ?_⟩
      · show moveNextN (k + 1) c = some c'
        simp [moveNextN, h1, h']
      · rw [hidx', hidx1, Function.iterate_succ_apply]

theorem movePrevN_inv {cs : List (Nat × T)} :
    ∀ (k : Nat) (c : CursorSt T), ListRep c.mem.heap c.list cs →
      CursorRep cs c.current c.index →
    ∃ c', movePrevN k c = some c' ∧ c'.mem = c.mem ∧ c'.list = c.list ∧
      CursorRep cs c'.current c'.index ∧
      c'.index = (prevIndex cs.length)^[k] c.index := by
  intro k
  induction k with
  | zero =>
      intro c hrep hcur
      exact ⟨c, rfl, rfl, rfl, hcur, rfl⟩
  | succ k ih =>
      intro c hrep hcur
      obtain ⟨c1, h1, hm1, hl1, hcur1, hidx1⟩ := move_prev_spec hrep hcur
      have hrep1 : ListRep c1.mem.heap c1.list cs := by
        rw [hm1, hl1]
        exact hrep
      obtain ⟨c', h', hm', hl', hcur', hidx'⟩ := ih c1 hrep1 hcur1
      refine ⟨c', ?_, by rw [hm', hm1], by rw [hl', hl1], hcur', ?_⟩
      · show movePrevN (k + 1) c = some c'
        simp [movePrevN, h1, h']
      · rw [hidx', hidx1, Function.iterate_succ_apply]

theorem nextIndex_iterate {n : Nat} :
    ∀ k i, i < n → i + k = n → (nextIndex n)^[k] (some i) = none := by
  intro k
  induction k with
  | zero =>
      intro i hi h0
      omega
  | succ k ih =>
      intro i hi h0
      rw [Function.iterate_succ_apply]
      rw [show nextIndex n (some i) = if i + 1 < n then some (i + 1) else none from rfl]
      by_cases h1 : i + 1 < n
      · rw [if_pos h1]
        exact ih (i + 1) h1 (by omega)
      · rw [if_neg h1]
        have hk : k = 0 := by omega
        subst hk
        rfl

theorem nextIndex_cycle (n : Nat) : (nextIndex n)^[n + 1] none = none := by
  cases n with
  | zero => exact Function.iterate_fixed rfl 1
  | succ m =>
      rw [Function.iterate_succ_apply]
      rw [show nextIndex (m + 1) none = some 0 from by simp [nextIndex]]
      exact nextIndex_iterate (m + 1) 0 (by omega) (by omega)

theorem prevIndex_iterate {n : Nat} :
    ∀ k i, i < n → k = i + 1 → (prevIndex n)^[k] (some i) = none := by
  intro k
  induction k with
  | zero =>
      intro i hi h0
      omega
  | succ k ih =>
      intro i hi h0
      rw [Function.iterate_succ_apply]
      rw [show prevIndex n (some i) = if i = 0 then none else some (i - 1) from rfl]
      by_cases h1 : i = 0
      · rw [if_pos h1]
        have hk : k = 0 := by omega
        subst hk
        rfl
      · rw [if_neg h1]
        exact ih (i - 1) (by omega) (by omega)

theorem prevIndex_cycle (n : Nat) : (prevIndex n)^[n + 1] none = none := by
  cases n with
  | zero => exact Function.iterate_fixed rfl 1
  | succ m =>
      rw [Function.iterate_succ_apply]
      rw [show prevIndex (m + 1) none = some m from by simp [prevIndex]]
      exact prevIndex_iterate (m + 1) m (by omega) (by omega)

/-! ## Small derived lemmas used by the claim theorems -/

theorem front_spec {m : Mem T} {l : DequeueList} {cs : List (Nat × T)}
    (hrep : ListRep m.heap l cs) :
    front m l = some ((cs.get? 0).map Prod.snd) := by
  obtain ⟨hseg, hh, ht, hl, hnd⟩ := hrep
  cases cs with
  | nil =>
      have hhead : l.head = none := by simpa using hh
      simp [front, hhead]
  | cons c0 rest =>
      have hhead : l.head = some c0.1 := by rw [hh]; rfl
      have hread := seg_read hseg (show 0 < (c0 :: rest).length by simp)
      rw [show ((c0 :: rest).get ⟨0, by simp⟩) = c0 from rfl] at hread
      simp [front, hhead, Mem.read, hread]

theorem back_spec {m : Mem T} {l : DequeueList} {cs : List (Nat × T)}
    (hrep : ListRep m.heap l cs) :
    back m l = some ((cs.get? (cs.length - 1)).map Prod.snd) := by
  obtain ⟨hseg, hh, ht, hl, hnd⟩ := hrep
  rcases List.eq_nil_or_concat cs with rfl | ⟨cs', ct, rfl⟩
  · have htail : l.tail = none := by simpa using ht
    simp [back, htail]
  simp only [List.concat_eq_append] at hseg hh ht hl hnd ⊢
  have htail : l.tail = some ct.1 := by rw [ht, backPtr_concat]
  rw [seg_append] at hseg
  obtain ⟨hseg', hsegt⟩ := hseg
  have hread : m.heap ct.1 = some ⟨none, backPtr none cs', ct.2⟩ := by
    simpa [seg] using hsegt
  have hlast : (cs' ++ [ct]).get? ((cs' ++ [ct]).length - 1) = some ct := by
    rw [show (cs' ++ [ct]).length - 1 = cs'.length from by simp]
    exact List.get?_concat_length _ _
  rw [hlast]
  simp [back, htail, Mem.read, hread]

theorem elems_insertAt (bcs dcs : List (Nat × T)) (p : Nat) :
    elems (insertAt bcs dcs p)
      = (elems bcs).take p ++ elems dcs ++ (elems bcs).drop p := by
  simp [insertAt, elems, List.map_take, List.map_drop]

theorem take_drop_disjoint {cs : List (Nat × T)} (hnd : (addrs cs).Nodup) (i : Nat) :
    ∀ a ∈ addrs (cs.drop i), a ∉ addrs (cs.take i) := by
  have h0 : (addrs (cs.take i) ++ addrs (cs.drop i)).Nodup := by
    rw [← addrs_append, List.take_append_drop]
    exact hnd
  rw [List.nodup_append] at h0
  intro a ha hmem
  exact h0.2.2 hmem ha

theorem drain_replicate_true (n : Nat) : drain (List.replicate n true) n = (n, 0) := by
  induction n with
  | zero => rfl
  | succ n ih =>
      rw [List.replicate_succ]
      show ((drain (List.replicate n true) n).1 + 1,
        (drain (List.replicate n true) n).2) = (n + 1, 0)
      rw [ih]

theorem elems_take_all (cs : List (Nat × T)) : (elems cs).take cs.length = elems cs := by
  conv_lhs => rw [← elems_length cs]
  exact List.take_length _

theorem runIter_all_true {m : Mem T} {l : DequeueList} {cs : List (Nat × T)}
    (hrep : ListRep m.heap l cs) :
    ∃ it', runIter m (iter l) (List.replicate cs.length true)
      = some (it', elems cs, []) ∧ it'.len = 0 := by
  obtain ⟨it', hrun, hinv'⟩ :=
    runIter_spec hrep.1 (List.replicate cs.length true) (iter l) 0 0 (iter_init hrep)
  rw [show cs.length - 0 - 0 = cs.length from rfl, drain_replicate_true cs.length] at hrun hinv'
  dsimp only at hrun hinv'
  simp only [Nat.sub_zero, List.drop_zero] at hrun
  refine ⟨it', ?_, ?_⟩
  · rw [hrun, elems_take_all cs, List.drop_eq_nil_of_le (by simp), List.reverse_nil]
  · have h1 := hinv'.2.1
    have h2 := hinv'.1
    omega

/-! ## Concrete example states (witness inputs) -/

theorem exMemOk : MemOk exMem := by
  intro a ha
  have ha' : 3 ≤ a := ha
  show exHeap a = none
  simp only [exHeap, hupd]
  rw [if_neg (by omega), if_neg (by omega), if_neg (by omega)]

theorem exMemOk2 : MemOk exMem2 := by
  intro a ha
  have ha' : 5 ≤ a := ha
  show exHeap2 a = none
  simp only [exHeap2, exHeap, hupd]
  rw [if_neg (by omega), if_neg (by omega), if_neg (by omega),
    if_neg (by omega), if_neg (by omega)]

/-! ## Claim theorems -/

/-- C1: the claimed list-level invariant `len == 0 ⇔ head == none ⇔ tail == none`
does NOT survive every public operation: on the singleton list `[1]` with the
cursor on index 0, `split_before` returns a standalone list with `len = 0` and
`tail = none` but `head = Some`, and symmetrically `split_after` at the last
index returns `len = 0`, `head = none` but `tail = Some`.  Both returned lists
violate `listInv`. -/
theorem C1_split_invariant_violation :
    (do
      let (m, l) ← from_iter (Mem.empty Nat) [1]
      let c1 ← (cursor_mut m l).move_next
      let (_, out) ← c1.split_before
      pure out) = some ⟨some 0, none, 0⟩ ∧
    ¬ listInv ⟨some 0, none, 0⟩ ∧
    (do
      let (m, l) ← from_iter (Mem.empty Nat) [1]
      let c1 ← (cursor_mut m l).move_next
      let (_, out) ← c1.split_after
      pure out) = some ⟨none, some 0, 0⟩ ∧
    ¬ listInv ⟨none, some 0, 0⟩ := by
  refine ⟨rfl, ?_, rfl, ?_⟩
  · intro h
    exact absurd (h.1.mp rfl) (by simp)
  · intro h
    exact absurd (h.2.mp rfl) (by simp)

/-- C3 counterexample: scenario B ends with a list of length 7, not 6 as the
spec claims.  The removal returns 7 and the sequence is `[1,8,2,3,4,5,6]`
(7 elements). -/
theorem C3_counterexample :
    (do
      let (m1, main) ← from_iter (Mem.empty Nat) [1, 2, 3, 4, 5, 6]
      let (m2, d7) ← from_iter m1 [7]
      let (m3, d8) ← from_iter m2 [8]
      let c ← (cursor_mut m3 main).move_next
      let (c, _) ← c.splice_before d7
      let (c, _) ← c.splice_after d8
      let c2 ← (cursor_mut c.mem c.list).move_next
      let (c2, r) ← c2.remove_current
      let (_, fwd, _) ← runIter c2.mem (iter c2.list) (List.replicate c2.list.len true)
      pure (r, fwd, c2.list.len)) = some (some 7, [1, 8, 2, 3, 4, 5, 6], 7) ∧
    (7 : Nat) ≠ 6 :=
  ⟨rfl, by decide⟩

/-- C3 amended: from scenario A's list `[7,1,8,2,3,4,5,6]` with a cursor moved
to index 0 (element 7), `remove_current` returns 7 and the sequence becomes
`[1,8,2,3,4,5,6]` with length 7. -/
theorem C3_scenario_B :
    (do
      let (m1, main) ← from_iter (Mem.empty Nat) [1, 2, 3, 4, 5, 6]
      let (m2, d7) ← from_iter m1 [7]
      let (m3, d8) ← from_iter m2 [8]
      let c ← (cursor_mut m3 main).move_next
      let (c, _) ← c.splice_before d7
      let (c, _) ← c.splice_after d8
      let c2 ← (cursor_mut c.mem c.list).move_next
      let (c2, r) ← c2.remove_current
      let (_, fwd, _) ← runIter c2.mem (iter c2.list) (List.replicate c2.list.len true)
      pure (r, fwd, c2.list.len)) = some (some 7, [1, 8, 2, 3, 4, 5, 6], 7) := rfl

/-- Length of a grafted chain. -/
theorem insertAt_length {bcs dcs : List (Nat × T)} {p : Nat} (hp : p ≤ bcs.length) :
    (insertAt bcs dcs p).length = bcs.length + dcs.length := by
  simp [insertAt]
  omega

/-- A cell strictly before the graft point keeps its position. -/
theorem insertAt_get_before {bcs dcs : List (Nat × T)} {i : Nat} (hi : i < bcs.length) :
    (insertAt bcs dcs (i + 1)).get? i = bcs.get? i := by
  rw [insertAt, List.append_assoc,
    List.get?_append (by rw [List.length_take]; omega),
    List.get?_take (Nat.lt_succ_self i)]

/-- The cell at the graft point moves `dcs.length` places towards the back. -/
theorem insertAt_get_shift {bcs dcs : List (Nat × T)} {i : Nat} (hi : i ≤ bcs.length) :
    (insertAt bcs dcs i).get? (i + dcs.length) = bcs.get? i := by
  have ht : (bcs.take i).length = i := by rw [List.length_take]; omega
  rw [insertAt, List.append_assoc,
    List.get?_append_right (by omega), ht]
  rw [show i + dcs.length - i = dcs.length by omega,
    List.get?_append_right (Nat.le_refl _), Nat.sub_self, List.get?_drop]
  rw [Nat.add_zero]

/-- The graft point itself now holds the donor's first cell. -/
theorem insertAt_get_here {bcs dcs : List (Nat × T)} {i : Nat}
    (hi : i ≤ bcs.length) (hd : dcs ≠ []) :
    (insertAt bcs dcs i).get? i = dcs.get? 0 := by
  have ht : (bcs.take i).length = i := by rw [List.length_take]; omega
  rw [insertAt, List.append_assoc,
    List.get?_append_right (by omega), ht, Nat.sub_self,
    List.get?_append (by cases dcs with | nil => exact absurd rfl hd | cons d ds => simp)]

/-- C2 counterexample: two concrete pipelines refute the claimed invariant.
First, on the singleton list `[5]` with the cursor on the tail node
(index 0), `remove_current` leaves `current = none` (ghost) while
`index = some 0`: the cursor is NOT at ghost-with-`index = none` as claimed,
and the positional reading of `index` fails (`CursorRep` over the now-empty
chain is false).  Second, on the same list, `splice_before` of the donor
`[7]` inserts the donor's node before the current node: the sequence becomes
`[7, 5]` and the chain cells are `[(1, 7), (0, 5)]` (witnessed by the decided
`ListRep` flag), yet the cursor still reads `index = some 0` with `current`
the node of element 5, whose physical position is now 1: `CursorRep` fails
at the kept index (decided `false`) and holds at index 1 (decided `true`). -/
theorem C2_counterexample :
    ((do
      let (m, l) ← from_iter (Mem.empty Nat) [5]
      let c1 ← (cursor_mut m l).move_next
      let (c2, r) ← c1.remove_current
      pure (r, c2.current, c2.index, c2.list.len))
      = some (some 5, none, some 0, 0) ∧
     (some 0 : Option Nat) ≠ none ∧
     ¬ CursorRep ([] : List (Nat × Nat)) none (some 0)) ∧
    ((do
      let (m, l) ← from_iter (Mem.empty Nat) [5]
      let (m2, d) ← from_iter m [7]
      let c1 ← (cursor_mut m2 l).move_next
      let (c2, _) ← c1.splice_before d
      let (_, fwd, _) ← runIter c2.mem (iter c2.list) (List.replicate c2.list.len true)
      pure (fwd, c2.current, c2.index,
        decide (ListRep c2.mem.heap c2.list [(1, 7), (0, 5)]),
        decide (CursorRep [(1, 7), (0, 5)] c2.current c2.index),
        decide (CursorRep [(1, 7), (0, 5)] c2.current (some 1))))
      = some ([7, 5], some 0, some 0, true, false, true)) := by
  refine ⟨⟨rfl, by simp, ?_⟩, rfl⟩
  intro h
  simpa using h.1

/-- C2 amended: `move_next` and `move_prev` preserve the positional cursor
invariant, and `split_before`/`split_after` leave the cursor satisfying it
over the kept piece, both on a node and at the ghost.  `splice_after` also
preserves it (it inserts strictly after the current node, or at the front
when the cursor is at the ghost), as does `splice_before` at the ghost.  But
`splice_before` with a non-empty donor at an on-node cursor at index `i`
inserts the donor's cells before the current node without updating `index`:
the current node's true position becomes `i + donor_len` while `index` still
reads `some i`, so the invariant fails on the new chain.  Likewise
`remove_current` never assigns `index`: it sets `current` to the former next
neighbour and keeps `index = some i`; when the removed node is the tail there
is no next neighbour, so the cursor ends at `current = none` (ghost) with
`index` still `some i` rather than `none`. -/
theorem C2_cursor_index_amended {T : Type} :
    (∀ (c : CursorSt T) (cs : List (Nat × T)),
        ListRep c.mem.heap c.list cs → CursorRep cs c.current c.index →
        ∃ c', c.move_next = some c' ∧ CursorRep cs c'.current c'.index) ∧
    (∀ (c : CursorSt T) (cs : List (Nat × T)),
        ListRep c.mem.heap c.list cs → CursorRep cs c.current c.index →
        ∃ c', c.move_prev = some c' ∧ CursorRep cs c'.current c'.index) ∧
    (∀ (c : CursorSt T) (cs : List (Nat × T)) (i : Nat),
        MemOk c.mem → ListRep c.mem.heap c.list cs →
        CursorRep cs c.current c.index → c.index = some i →
        ∃ m' out, c.split_before
            = some (⟨m', ⟨c.current, c.list.tail, c.list.len - i⟩, c.current, some 0⟩, out)
          ∧ CursorRep (cs.drop i) c.current (some 0)) ∧
    (∀ (c : CursorSt T) (cs : List (Nat × T)) (i : Nat),
        MemOk c.mem → ListRep c.mem.heap c.list cs →
        CursorRep cs c.current c.index → c.index = some i →
        ∃ m' out, c.split_after
            = some (⟨m', ⟨c.list.head, c.current, i + 1⟩, c.current, some i⟩, out)
          ∧ CursorRep (cs.take (i + 1)) c.current (some i)) ∧
    (∀ (c : CursorSt T) (cs : List (Nat × T)),
        CursorRep cs c.current c.index → c.index = none →
        c.split_before = some ({ c with list := DequeueList.new }, c.list) ∧
        CursorRep ([] : List (Nat × T)) c.current c.index) ∧
    (∀ (c : CursorSt T) (cs : List (Nat × T)),
        CursorRep cs c.current c.index → c.index = none →
        c.split_after = some ({ c with list := DequeueList.new }, c.list) ∧
        CursorRep ([] : List (Nat × T)) c.current c.index) ∧
    (∀ (c : CursorSt T) (input : DequeueList) (bcs dcs : List (Nat × T)),
        MemOk c.mem → ListRep c.mem.heap c.list bcs →
        ListRep c.mem.heap input dcs →
        CursorRep bcs c.current c.index →
        (∀ a ∈ addrs bcs, a ∉ addrs dcs) → bcs ≠ [] → dcs ≠ [] →
        ∃ c' d, c.splice_after input = some (c', d) ∧
          ListRep c'.mem.heap c'.list (insertAt bcs dcs (afterPos c.index)) ∧
          c'.current = c.current ∧ c'.index = c.index ∧
          CursorRep (insertAt bcs dcs (afterPos c.index)) c'.current c'.index) ∧
    (∀ (c : CursorSt T) (input : DequeueList) (bcs dcs : List (Nat × T)),
        MemOk c.mem → ListRep c.mem.heap c.list bcs →
        ListRep c.mem.heap input dcs →
        CursorRep bcs c.current c.index → c.index = none →
        (∀ a ∈ addrs bcs, a ∉ addrs dcs) → bcs ≠ [] → dcs ≠ [] →
        ∃ c' d, c.splice_before input = some (c', d) ∧
          ListRep c'.mem.heap c'.list (insertAt bcs dcs bcs.length) ∧
          c'.current = c.current ∧ c'.index = c.index ∧
          CursorRep (insertAt bcs dcs bcs.length) c'.current c'.index) ∧
    (∀ (c : CursorSt T) (input : DequeueList) (bcs dcs : List (Nat × T)) (i : Nat),
        MemOk c.mem → ListRep c.mem.heap c.list bcs →
        ListRep c.mem.heap input dcs →
        CursorRep bcs c.current c.index → c.index = some i →
        (∀ a ∈ addrs bcs, a ∉ addrs dcs) → dcs ≠ [] →
        ∃ c' d, c.splice_before input = some (c', d) ∧
          ListRep c'.mem.heap c'.list (insertAt bcs dcs i) ∧
          c'.current = c.current ∧ c'.index = some i ∧
          CursorRep (insertAt bcs dcs i) c'.current (some (i + dcs.length)) ∧
          ¬ CursorRep (insertAt bcs dcs i) c'.current c'.index) ∧
    (∀ (c : CursorSt T) (cs : List (Nat × T)) (i : Nat),
        MemOk c.mem → ListRep c.mem.heap c.list cs →
        CursorRep cs c.current c.index → c.index = some i →
        ∃ m' l' r, c.remove_current
            = some (⟨m', l', (cs.get? (i + 1)).map Prod.fst, c.index⟩, r)
          ∧ (i + 1 = cs.length → (cs.get? (i + 1)).map Prod.fst = none)) := by
  refine ⟨?_, ?_, ?_, ?_, ?_, ?_, ?_, ?_, ?_, ?_⟩
  · intro c cs hrep hcur
    obtain ⟨c', h, -, -, hc, -⟩ := move_next_spec hrep hcur
    exact ⟨c', h, hc⟩
  · intro c cs hrep hcur
    obtain ⟨c', h, -, -, hc, -⟩ := move_prev_spec hrep hcur
    exact ⟨c', h, hc⟩
  · intro c cs i hm hrep hcur hidx
    obtain ⟨m', heq, -, hcr, -, -, -⟩ := split_before_spec hm hrep hcur hidx
    exact ⟨m', _, heq, hcr⟩
  · intro c cs i hm hrep hcur hidx
    obtain ⟨m', heq, -, hcr, -, -, -⟩ := split_after_spec hm hrep hcur hidx
    exact ⟨m', _, heq, hcr⟩
  · intro c cs hcur hidx
    rw [hidx] at hcur
    refine ⟨split_before_ghost hcur, ?_⟩
    rw [hidx]
    exact hcur
  · intro c cs hcur hidx
    rw [hidx] at hcur
    refine ⟨split_after_ghost hcur, ?_⟩
    rw [hidx]
    exact hcur
  · intro c input bcs dcs hm hrepb hrepd hcur hdisj hbne hdne
    obtain ⟨m', heq, hrep', -, -⟩ := splice_after_spec hm hrepb hrepd hcur hdisj hbne hdne
    refine ⟨_, _, heq, hrep', rfl, rfl, ?_⟩
    dsimp only
    cases hidx : c.index with
    | none =>
        rw [hidx] at hcur
        exact hcur
    | some i =>
        rw [hidx] at hcur
        obtain ⟨hlt, hcureq⟩ := hcur
        refine ⟨?_, ?_⟩
        · rw [afterPos, insertAt_length (by omega)]
          omega
        · rw [afterPos, insertAt_get_before hlt]
          exact hcureq
  · intro c input bcs dcs hm hrepb hrepd hcur hidx hdisj hbne hdne
    obtain ⟨m', heq, hrep', -, -⟩ := splice_before_spec hm hrepb hrepd hcur hdisj hbne hdne
    rw [hidx] at heq hrep' hcur
    refine ⟨_, _, heq, ?_, rfl, hidx.symm, ?_⟩
    · simpa [beforePos] using hrep'
    · exact hcur
  · intro c input bcs dcs i hm hrepb hrepd hcur hidx hdisj hdne
    rw [hidx] at hcur
    obtain ⟨hlt, hcureq⟩ := hcur
    have hbne : bcs ≠ [] := by
      intro h
      rw [h] at hlt
      simp at hlt
    have hcur' : CursorRep bcs c.current c.index := by
      rw [hidx]
      exact ⟨hlt, hcureq⟩
    obtain ⟨m', heq, hrep', -, -⟩ := splice_before_spec hm hrepb hrepd hcur' hdisj hbne hdne
    rw [hidx] at heq hrep'
    refine ⟨_, _, heq, ?_, rfl, rfl, ?_, ?_⟩
    · simpa [beforePos] using hrep'
    · dsimp only
      refine ⟨?_, ?_⟩
      · rw [insertAt_length (by omega)]
        omega
      · rw [insertAt_get_shift (by omega)]
        exact hcureq
    · dsimp only
      intro hcr
      obtain ⟨-, habs⟩ := hcr
      rw [insertAt_get_here (by omega) hdne] at habs
      cases dcs with
      | nil => exact hdne rfl
      | cons d ds =>
          rw [hcureq, List.get?_eq_get hlt] at habs
          simp only [List.get?_cons_zero, Option.map_some'] at habs
          have hmem : (bcs.get ⟨i, hlt⟩).1 ∈ addrs bcs :=
            List.mem_map_of_mem Prod.fst (bcs.get_mem i hlt)
          have hmem2 : d.1 ∈ addrs (d :: ds) :=
            List.mem_map_of_mem Prod.fst (List.mem_cons_self d ds)
          have := hdisj _ hmem
          rw [Option.some_inj.mp habs] at this
          exact this hmem2
  · intro c cs i hm hrep hcur hidx
    obtain ⟨m', heq, -, -, -⟩ := remove_current_spec hm hrep hcur hidx
    refine ⟨m', _, _, heq, ?_⟩
    intro hlast
    rw [List.get?_eq_none.mpr (by omega)]
    rfl

theorem C2_cursor_index_amended_witness :
    ListRep (⟨exMem, exList, some 0, some 0⟩ : CursorSt Nat).mem.heap
      (⟨exMem, exList, some 0, some 0⟩ : CursorSt Nat).list exCells ∧
    (∃ c', (⟨exMem, exList, some 0, some 0⟩ : CursorSt Nat).move_next = some c' ∧
      CursorRep exCells c'.current c'.index) :=
  ⟨by decide,
   C2_cursor_index_amended.1 ⟨exMem, exList, some 0, some 0⟩ exCells
     (by decide) (by decide)⟩

/-- C4: splice semantics.  For a well-formed non-empty bound list and donor,
`splice_before` (resp. `splice_after`) grafts the donor's whole cell chain at
`beforePos` (resp. `afterPos`) — the cursor index on a node, the very back
(resp. front) at ghost — so the element sequence becomes
`take p ++ donor ++ drop p`; the donor struct comes back emptied
(`head = none`, `tail = none`, `len = 0`).  An empty donor is a no-op, and an
empty bound list is simply replaced by the donor.  Concretely, scenario A
(`[1..6]`, cursor at 0, `splice_before [7]`, `splice_after [8]`) yields
`[7,1,8,2,3,4,5,6]` of length 8. -/
theorem C4_splice_semantics :
    (∀ (T : Type) (c : CursorSt T) (input : DequeueList)
        (bcs dcs : List (Nat × T)),
        MemOk c.mem → ListRep c.mem.heap c.list bcs →
        ListRep c.mem.heap input dcs →
        CursorRep bcs c.current c.index →
        (∀ a ∈ addrs bcs, a ∉ addrs dcs) → bcs ≠ [] → dcs ≠ [] →
        ∃ m' l', c.splice_before input = some (⟨m', l', c.current, c.index⟩,
            some ⟨none, none, 0⟩) ∧
          ListRep m'.heap l' (insertAt bcs dcs (beforePos bcs.length c.index)) ∧
          elems (insertAt bcs dcs (beforePos bcs.length c.index))
            = (elems bcs).take (beforePos bcs.length c.index) ++ elems dcs
              ++ (elems bcs).drop (beforePos bcs.length c.index) ∧
          l'.len = c.list.len + input.len) ∧
    (∀ (T : Type) (c : CursorSt T) (input : DequeueList)
        (bcs dcs : List (Nat × T)),
        MemOk c.mem → ListRep c.mem.heap c.list bcs →
        ListRep c.mem.heap input dcs →
        CursorRep bcs c.current c.index →
        (∀ a ∈ addrs bcs, a ∉ addrs dcs) → bcs ≠ [] → dcs ≠ [] →
        ∃ m' l', c.splice_after input = some (⟨m', l', c.current, c.index⟩,
            some ⟨none, none, 0⟩) ∧
          ListRep m'.heap l' (insertAt bcs dcs (afterPos c.index)) ∧
          elems (insertAt bcs dcs (afterPos c.index))
            = (elems bcs).take (afterPos c.index) ++ elems dcs
              ++ (elems bcs).drop (afterPos c.index) ∧
          l'.len = c.list.len + input.len) ∧
    (∀ (T : Type) (c : CursorSt T) (input : DequeueList), input.len = 0 →
        c.splice_before input = some (c, some input) ∧
        c.splice_after input = some (c, some input)) ∧
    (∀ (T : Type) (c : CursorSt T) (input : DequeueList),
        input.len ≠ 0 → c.list.len = 0 →
        c.splice_before input = some ({ c with list := input }, none) ∧
        c.splice_after input = some ({ c with list := input }, none)) ∧
    (do
      let (m1, main) ← from_iter (Mem.empty Nat) [1, 2, 3, 4, 5, 6]
      let (m2, d7) ← from_iter m1 [7]
      let (m3, d8) ← from_iter m2 [8]
      let c ← (cursor_mut m3 main).move_next
      let (c, _) ← c.splice_before d7
      let (c, _) ← c.splice_after d8
      let (_, fwd, _) ← runIter c.mem (iter c.list) (List.replicate c.list.len true)
      pure (fwd, c.list.len)) = some ([7, 1, 8, 2, 3, 4, 5, 6], 8) := by
  refine ⟨?_, ?_, ?_, ?_, rfl⟩
  · intro T c input bcs dcs hm hrepb hrepd hcur hdisj hbne hdne
    obtain ⟨m', heq, hrep', hmk, hfree⟩ :=
      splice_before_spec hm hrepb hrepd hcur hdisj hbne hdne
    refine ⟨m', _, heq, hrep', elems_insertAt bcs dcs _, rfl⟩
  · intro T c input bcs dcs hm hrepb hrepd hcur hdisj hbne hdne
    obtain ⟨m', heq, hrep', hmk, hfree⟩ :=
      splice_after_spec hm hrepb hrepd hcur hdisj hbne hdne
    refine ⟨m', _, heq, hrep', elems_insertAt bcs dcs _, rfl⟩
  · intro T c input hd
    exact ⟨splice_before_empty_donor hd, splice_after_empty_donor hd⟩
  · intro T c input hd hb
    exact ⟨splice_before_empty_bound hd hb, splice_after_empty_bound hd hb⟩

theorem C4_splice_semantics_witness :
    ListRep (⟨exMem2, exList, some 0, some 0⟩ : CursorSt Nat).mem.heap
      (⟨exMem2, exList, some 0, some 0⟩ : CursorSt Nat).list exCells ∧
    (∃ m' l', (⟨exMem2, exList, some 0, some 0⟩ : CursorSt Nat).splice_before exDonor
        = some (⟨m', l', some 0, some 0⟩, some ⟨none, none, 0⟩) ∧
      ListRep m'.heap l' (insertAt exCells exDonorCells
        (beforePos exCells.length (some 0))) ∧
      elems (insertAt exCells exDonorCells (beforePos exCells.length (some 0)))
        = (elems exCells).take (beforePos exCells.length (some 0)) ++ elems exDonorCells
          ++ (elems exCells).drop (beforePos exCells.length (some 0)) ∧
      l'.len = exList.len + exDonor.len) :=
  ⟨by decide,
   C4_splice_semantics.1 Nat ⟨exMem2, exList, some 0, some 0⟩ exDonor
     exCells exDonorCells exMemOk2 (by decide) (by decide) (by decide)
     (by decide) (by decide) (by decide)⟩

/-- C5: round-trip.  `split_before` at the cursor followed by `splice_before`
of the exact returned piece at the same cursor reconstructs the original
element sequence and length, both on a node (any index `i`, including the
degenerate `i = 0` where the broken returned piece has `len = 0` and the
splice is a no-op) and at ghost (`i = len`, where the bound list is emptied
and then wholesale replaced by the piece). -/
theorem C5_split_splice_roundtrip {T : Type} :
    (∀ (c : CursorSt T) (cs : List (Nat × T)) (i : Nat),
        MemOk c.mem → ListRep c.mem.heap c.list cs →
        CursorRep cs c.current c.index → c.index = some i →
        ∃ c2 d cs2, (do
            let (c1, piece) ← c.split_before
            c1.splice_before piece) = some (c2, d) ∧
          ListRep c2.mem.heap c2.list cs2 ∧
          elems cs2 = elems cs ∧ c2.list.len = cs.length) ∧
    (∀ (c : CursorSt T) (cs : List (Nat × T)),
        ListRep c.mem.heap c.list cs → c.current = none →
        ∃ c2 d, (do
            let (c1, piece) ← c.split_before
            c1.splice_before piece) = some (c2, d) ∧
          c2.mem = c.mem ∧ c2.list = c.list ∧
          ListRep c2.mem.heap c2.list cs) := by
  constructor
  · intro c cs i hm hrep hcur hidx
    obtain ⟨m', heq, hrepDrop, hcurDrop, hrepTake, hm', hfree⟩ :=
      split_before_spec hm hrep hcur hidx
    have hi : i < cs.length := by
      rw [hidx] at hcur
      exact hcur.1
    have hlen : c.list.len = cs.length := hrep.2.2.2.1
    by_cases h0 : i = 0
    · subst h0
      have hplen : (⟨c.list.head, backPtr none (cs.take 0),
          c.list.len - (c.list.len - 0)⟩ : DequeueList).len = 0 := by
        show c.list.len - (c.list.len - 0) = 0
        omega
      have heq2 := @splice_before_empty_donor T
        ⟨m', ⟨c.current, c.list.tail, c.list.len - 0⟩, c.current, some 0⟩
        ⟨c.list.head, backPtr none (cs.take 0), c.list.len - (c.list.len - 0)⟩ hplen
      refine ⟨⟨m', ⟨c.current, c.list.tail, c.list.len - 0⟩, c.current, some 0⟩,
        some ⟨c.list.head, backPtr none (cs.take 0), c.list.len - (c.list.len - 0)⟩,
        cs.drop 0, ?_, ?_, ?_, ?_⟩
      · simp only [heq, Option.bind_eq_bind, Option.some_bind]
        exact heq2
      · exact hrepDrop
      · rw [List.drop_zero]
      · show c.list.len - 0 = cs.length
        omega
    · have htne : cs.take i ≠ [] := by
        intro hnil
        have h1 := congrArg List.length hnil
        rw [List.length_take, List.length_nil] at h1
        omega
      have hdne : cs.drop i ≠ [] := by
        intro hnil
        have h1 := congrArg List.length hnil
        rw [List.length_drop, List.length_nil] at h1
        omega
      have hrepT := hrepTake h0
      have hdisj : ∀ a ∈ addrs (cs.drop i), a ∉ addrs (cs.take i) :=
        take_drop_disjoint hrep.2.2.2.2 i
      obtain ⟨m'', heq2, hrep2, hm2, hfree2⟩ :=
        @splice_before_spec T
          ⟨m', ⟨c.current, c.list.tail, c.list.len - i⟩, c.current, some 0⟩
          ⟨c.list.head, backPtr none (cs.take i), c.list.len - (c.list.len - i)⟩
          (cs.drop i) (cs.take i) hm' hrepDrop hrepT hcurDrop hdisj hdne htne
      have hins : insertAt (cs.drop i) (cs.take i) 0 = cs.take i ++ cs.drop i := by
        rw [insertAt, List.take_zero, List.nil_append, List.drop_zero]
      refine ⟨⟨m'', ⟨frontPtr (insertAt (cs.drop i) (cs.take i)
            (beforePos (cs.drop i).length (some 0))) none,
          backPtr none (insertAt (cs.drop i) (cs.take i)
            (beforePos (cs.drop i).length (some 0))),
          c.list.len - i + (c.list.len - (c.list.len - i))⟩, c.current, some 0⟩,
        some ⟨none, none, 0⟩,
        insertAt (cs.drop i) (cs.take i)
          (beforePos (cs.drop i).length (some 0)), ?_, ?_, ?_, ?_⟩
      · simp only [heq, Option.bind_eq_bind, Option.some_bind]
        exact heq2
      · exact hrep2
      · rw [show beforePos (cs.drop i).length (some 0) = 0 from rfl, hins,
          List.take_append_drop]
      · show c.list.len - i + (c.list.len - (c.list.len - i)) = cs.length
        omega
  · intro c cs hrep hcurnone
    have heq := split_before_ghost hcurnone
    by_cases hempty : c.list.len = 0
    · have hcs : cs = [] := by
        have h3 := hrep.2.2.2.1
        exact List.eq_nil_of_length_eq_zero (by omega)
      subst hcs
      have h1 : c.list.head = none := by simpa using hrep.2.1
      have h2 : c.list.tail = none := by simpa using hrep.2.2.1
      have hl : c.list = DequeueList.new := by
        show c.list = ⟨none, none, 0⟩
        rw [show (c.list : DequeueList) = ⟨c.list.head, c.list.tail, c.list.len⟩ from rfl,
          h1, h2, hempty]
      have heq2 := @splice_before_empty_donor T
        { c with list := DequeueList.new } c.list hempty
      refine ⟨{ c with list := DequeueList.new }, some c.list, ?_, ?_, ?_, ?_⟩
      · simp only [heq, Option.bind_eq_bind, Option.some_bind]
        exact heq2
      · rfl
      · show DequeueList.new = c.list
        rw [hl]
      · exact rep_new _
    · have heq2 := @splice_before_empty_bound T
        { c with list := DequeueList.new } c.list hempty rfl
      refine ⟨c, none, ?_, ?_, ?_, ?_⟩
      · simp only [heq, Option.bind_eq_bind, Option.some_bind]
        exact heq2
      · rfl
      · rfl
      · exact hrep

theorem C5_split_splice_roundtrip_witness :
    MemOk (⟨exMem, exList, some 1, some 1⟩ : CursorSt Nat).mem ∧
    (∃ c2 d cs2, (do
        let (c1, piece) ← (⟨exMem, exList, some 1, some 1⟩ : CursorSt Nat).split_before
        c1.splice_before piece) = some (c2, d) ∧
      ListRep c2.mem.heap c2.list cs2 ∧
      elems cs2 = elems exCells ∧ c2.list.len = exCells.length) :=
  ⟨exMemOk,
   C5_split_splice_roundtrip.1 ⟨exMem, exList, some 1, some 1⟩ exCells 1
     exMemOk (by decide) (by decide) (by decide)⟩

/-- C6: frame effect.  In every branch of `splice_before` and `splice_after`
(non-empty graft, empty donor, empty bound list) the cursor's `current` and
`index` fields are returned unchanged — in particular the index is not
shifted even when elements are inserted before the cursor. -/
theorem C6_splice_cursor_unchanged :
    (∀ (T : Type) (c : CursorSt T) (input : DequeueList)
        (bcs dcs : List (Nat × T)),
        MemOk c.mem → ListRep c.mem.heap c.list bcs →
        ListRep c.mem.heap input dcs →
        CursorRep bcs c.current c.index →
        (∀ a ∈ addrs bcs, a ∉ addrs dcs) → bcs ≠ [] → dcs ≠ [] →
        (∃ c' d, c.splice_before input = some (c', d) ∧
          c'.current = c.current ∧ c'.index = c.index) ∧
        (∃ c' d, c.splice_after input = some (c', d) ∧
          c'.current = c.current ∧ c'.index = c.index)) ∧
    (∀ (T : Type) (c : CursorSt T) (input : DequeueList), input.len = 0 →
        (∃ c' d, c.splice_before input = some (c', d) ∧
          c'.current = c.current ∧ c'.index = c.index) ∧
        (∃ c' d, c.splice_after input = some (c', d) ∧
          c'.current = c.current ∧ c'.index = c.index)) ∧
    (∀ (T : Type) (c : CursorSt T) (input : DequeueList),
        input.len ≠ 0 → c.list.len = 0 →
        (∃ c' d, c.splice_before input = some (c', d) ∧
          c'.current = c.current ∧ c'.index = c.index) ∧
        (∃ c' d, c.splice_after input = some (c', d) ∧
          c'.current = c.current ∧ c'.index = c.index)) := by
  refine ⟨?_, ?_, ?_⟩
  · intro T c input bcs dcs hm hrepb hrepd hcur hdisj hbne hdne
    constructor
    · obtain ⟨m', heq, -, -, -⟩ := splice_before_spec hm hrepb hrepd hcur hdisj hbne hdne
      exact ⟨_, _, heq, rfl, rfl⟩
    · obtain ⟨m', heq, -, -, -⟩ := splice_after_spec hm hrepb hrepd hcur hdisj hbne hdne
      exact ⟨_, _, heq, rfl, rfl⟩
  · intro T c input hd
    exact ⟨⟨c, some input, splice_before_empty_donor hd, rfl, rfl⟩,
      ⟨c, some input, splice_after_empty_donor hd, rfl, rfl⟩⟩
  · intro T c input hd hb
    exact ⟨⟨{ c with list := input }, none, splice_before_empty_bound hd hb, rfl, rfl⟩,
      ⟨{ c with list := input }, none, splice_after_empty_bound hd hb, rfl, rfl⟩⟩

theorem C6_splice_cursor_unchanged_witness :
    ((⟨none, none, 0⟩ : DequeueList).len = 0) ∧
    ((∃ c' d, (⟨exMem, exList, some 0, some 0⟩ : CursorSt Nat).splice_before
        ⟨none, none, 0⟩ = some (c', d) ∧
      c'.current = (⟨exMem, exList, some 0, some 0⟩ : CursorSt Nat).current ∧
      c'.index = (⟨exMem, exList, some 0, some 0⟩ : CursorSt Nat).index) ∧
    (∃ c' d, (⟨exMem, exList, some 0, some 0⟩ : CursorSt Nat).splice_after
        ⟨none, none, 0⟩ = some (c', d) ∧
      c'.current = (⟨exMem, exList, some 0, some 0⟩ : CursorSt Nat).current ∧
      c'.index = (⟨exMem, exList, some 0, some 0⟩ : CursorSt Nat).index)) :=
  ⟨rfl, C6_splice_cursor_unchanged.2.1 Nat ⟨exMem, exList, some 0, some 0⟩
    ⟨none, none, 0⟩ rfl⟩

/-- C7: cursor cycle law.  A fresh cursor starts at ghost; applying
`move_next` exactly `len + 1` times returns it to ghost (`current = none`,
`index = none`) with the memory and list untouched, and likewise for
`move_prev`.  On an empty list a single `move_next` or `move_prev` is a
no-op that stays at ghost. -/
theorem C7_move_cycle {T : Type} :
    (∀ (m : Mem T) (l : DequeueList) (cs : List (Nat × T)),
        ListRep m.heap l cs →
        ∃ c', moveNextN (l.len + 1) (cursor_mut m l) = some c' ∧
          c'.current = none ∧ c'.index = none ∧ c'.mem = m ∧ c'.list = l) ∧
    (∀ (m : Mem T) (l : DequeueList) (cs : List (Nat × T)),
        ListRep m.heap l cs →
        ∃ c', movePrevN (l.len + 1) (cursor_mut m l) = some c' ∧
          c'.current = none ∧ c'.index = none ∧ c'.mem = m ∧ c'.list = l) ∧
    (∀ (m : Mem T) (l : DequeueList),
        ListRep m.heap l [] →
        (cursor_mut m l).move_next = some (cursor_mut m l) ∧
        (cursor_mut m l).move_prev = some (cursor_mut m l)) := by
  refine ⟨?_, ?_, ?_⟩
  · intro m l cs hrep
    have hlen : l.len = cs.length := hrep.2.2.2.1
    obtain ⟨c', h, hm', hl', hcur', hidx'⟩ :=
      moveNextN_inv (l.len + 1) (cursor_mut m l) hrep rfl
    have hidx0 : c'.index = none := by
      rw [hidx', hlen]
      exact nextIndex_cycle cs.length
    have hcur0 : c'.current = none := by
      rw [hidx0] at hcur'
      exact hcur'
    exact ⟨c', h, hcur0, hidx0, hm', hl'⟩
  · intro m l cs hrep
    have hlen : l.len = cs.length := hrep.2.2.2.1
    obtain ⟨c', h, hm', hl', hcur', hidx'⟩ :=
      movePrevN_inv (l.len + 1) (cursor_mut m l) hrep rfl
    have hidx0 : c'.index = none := by
      rw [hidx', hlen]
      exact prevIndex_cycle cs.length
    have hcur0 : c'.current = none := by
      rw [hidx0] at hcur'
      exact hcur'
    exact ⟨c', h, hcur0, hidx0, hm', hl'⟩
  · intro m l hrep
    constructor
    · obtain ⟨c', h, hm', hl', hcur', hidx'⟩ :=
        @move_next_spec T (cursor_mut m l) [] hrep rfl
      have hidx0 : c'.index = none := by
        rw [hidx']
        rfl
      have hcur0 : c'.current = none := by
        rw [hidx0] at hcur'
        exact hcur'
      have hc : c' = cursor_mut m l := by
        obtain ⟨cm, cl, cc, ci⟩ := c'
        dsimp only at hm' hl' hcur0 hidx0
        subst hm' hl' hcur0 hidx0
        rfl
      rw [hc] at h
      exact h
    · obtain ⟨c', h, hm', hl', hcur', hidx'⟩ :=
        @move_prev_spec T (cursor_mut m l) [] hrep rfl
      have hidx0 : c'.index = none := by
        rw [hidx']
        rfl
      have hcur0 : c'.current = none := by
        rw [hidx0] at hcur'
        exact hcur'
      have hc : c' = cursor_mut m l := by
        obtain ⟨cm, cl, cc, ci⟩ := c'
        dsimp only at hm' hl' hcur0 hidx0
        subst hm' hl' hcur0 hidx0
        rfl
      rw [hc] at h
      exact h

theorem C7_move_cycle_witness :
    ListRep exMem.heap exList exCells ∧
    (∃ c', moveNextN (exList.len + 1) (cursor_mut exMem exList) = some c' ∧
      c'.current = none ∧ c'.index = none ∧ c'.mem = exMem ∧ c'.list = exList) :=
  ⟨by decide, C7_move_cycle.1 exMem exList exCells (by decide)⟩

/-- C8: interleaved double-ended iteration.  From a fresh iterator, any flag
sequence of `next`/`next_back` calls yields the prefix of the element
sequence taken by the front calls and (in call order, i.e. reversed) the
complementary suffix taken by the back calls, with the remaining count
tracking both ends; each call before exhaustion yields exactly one element
and decrements the count by one; once the count is 0 both calls return the
empty result, regardless of which end was drained. -/
theorem C8_iter_interleaving {T : Type} :
    ∀ (m : Mem T) (l : DequeueList) (cs : List (Nat × T)),
      ListRep m.heap l cs →
    (∀ ds : List Bool, ∃ it' F B, drain ds cs.length = (F, B) ∧
        runIter m (iter l) ds = some (it', (elems cs).take F,
          ((elems cs).drop (cs.length - B)).reverse) ∧
        it'.len = cs.length - F - B ∧ F + B ≤ cs.length) ∧
    (∀ (it : IterSt) (f b : Nat), IterInv cs it f b → f + b < cs.length →
        (∃ hf : f < cs.length, ∃ it2,
          iterNext m it = some (some (cs.get ⟨f, hf⟩).2, it2) ∧
          it2.len = it.len - 1 ∧ IterInv cs it2 (f + 1) b) ∧
        (∃ hk : cs.length - b - 1 < cs.length, ∃ it2,
          iterNextBack m it = some (some (cs.get ⟨cs.length - b - 1, hk⟩).2, it2) ∧
          it2.len = it.len - 1 ∧ IterInv cs it2 f (b + 1))) ∧
    (∀ (it : IterSt) (f b : Nat), IterInv cs it f b → f + b = cs.length →
        it.len = 0 ∧ iterNext m it = some (none, it) ∧
        iterNextBack m it = some (none, it)) ∧
    IterInv cs (iter l) 0 0 := by
  intro m l cs hrep
  refine ⟨?_, ?_, ?_, iter_init hrep⟩
  · intro ds
    obtain ⟨it', hrun, hinv'⟩ := runIter_spec hrep.1 ds (iter l) 0 0 (iter_init hrep)
    rw [show cs.length - 0 - 0 = cs.length from rfl] at hrun hinv'
    simp only [Nat.sub_zero, List.drop_zero] at hrun
    rw [elems_take_all] at hrun
    refine ⟨it', (drain ds cs.length).1, (drain ds cs.length).2, rfl, hrun, ?_, ?_⟩
    · have h1 := hinv'.2.1
      simp only [Nat.zero_add] at h1
      exact h1
    · have h1 := hinv'.1
      omega
  · intro it f b hinv hlt
    constructor
    · obtain ⟨hf, heq, hinv2⟩ := iterNext_yield hrep.1 hinv hlt
      exact ⟨hf, _, heq, rfl, hinv2⟩
    · obtain ⟨hk, heq, hinv2⟩ := iterNextBack_yield hrep.1 hinv hlt
      exact ⟨hk, _, heq, rfl, hinv2⟩
  · intro it f b hinv heq0
    exact iter_exhausted hinv heq0

theorem C8_iter_interleaving_witness :
    ListRep exMem.heap exList exCells ∧
    (∃ it' F B, drain [false, true] exCells.length = (F, B) ∧
      runIter exMem (iter exList) [false, true] = some (it', (elems exCells).take F,
        ((elems exCells).drop (exCells.length - B)).reverse) ∧
      it'.len = exCells.length - F - B ∧ F + B ≤ exCells.length) :=
  ⟨by decide,
   (C8_iter_interleaving exMem exList exCells (by decide)).1 [false, true]⟩

/-- C9: empty-result (`None`) conditions.  `pop_front`, `pop_back`, `front`
and `back` signal `None` exactly on the empty list; `current` exactly at
ghost; `peek_next` exactly when there is no node at the next position
(`index + 1`, or 0 from ghost); `peek_prev` exactly at index 0 on a node or
on an empty list from ghost; `remove_current` returns `None` exactly at
ghost and a value on a node. -/
theorem C9_none_results {T : Type} :
    (∀ (m : Mem T) (l : DequeueList) (cs : List (Nat × T)),
        MemOk m → ListRep m.heap l cs →
        ∃ m' l' r, pop_front m l = some (m', l', r) ∧ (r = none ↔ cs = [])) ∧
    (∀ (m : Mem T) (l : DequeueList) (cs : List (Nat × T)),
        MemOk m → ListRep m.heap l cs →
        ∃ m' l' r, pop_back m l = some (m', l', r) ∧ (r = none ↔ cs = [])) ∧
    (∀ (m : Mem T) (l : DequeueList) (cs : List (Nat × T)),
        ListRep m.heap l cs →
        ∃ r, front m l = some r ∧ (r = none ↔ cs = [])) ∧
    (∀ (m : Mem T) (l : DequeueList) (cs : List (Nat × T)),
        ListRep m.heap l cs →
        ∃ r, back m l = some r ∧ (r = none ↔ cs = [])) ∧
    (∀ (c : CursorSt T) (cs : List (Nat × T)),
        ListRep c.mem.heap c.list cs → CursorRep cs c.current c.index →
        ∃ r, c.current_elem = some r ∧ (r = none ↔ c.index = none)) ∧
    (∀ (c : CursorSt T) (cs : List (Nat × T)),
        ListRep c.mem.heap c.list cs → CursorRep cs c.current c.index →
        ∃ r, c.peek_next = some r ∧
          (r = none ↔ cs.length ≤ (match c.index with
            | none => 0
            | some i => i + 1))) ∧
    (∀ (c : CursorSt T) (cs : List (Nat × T)),
        ListRep c.mem.heap c.list cs → CursorRep cs c.current c.index →
        ∃ r, c.peek_prev = some r ∧
          (r = none ↔ (match c.index with
            | none => cs = []
            | some i => i = 0))) ∧
    (∀ (c : CursorSt T), c.current = none → c.remove_current = some (c, none)) ∧
    (∀ (c : CursorSt T) (cs : List (Nat × T)) (i : Nat),
        MemOk c.mem → ListRep c.mem.heap c.list cs →
        CursorRep cs c.current c.index → c.index = some i →
        ∃ st e, c.remove_current = some (st, some e)) := by
  refine ⟨?_, ?_, ?_, ?_, ?_, ?_, ?_, ?_, ?_⟩
  · intro m l cs hm hrep
    obtain ⟨m', l', heq, -, -, -⟩ := pop_front_spec hm hrep
    refine ⟨m', l', _, heq, ?_⟩
    cases cs <;> simp
  · intro m l cs hm hrep
    obtain ⟨m', l', heq, -, -, -⟩ := pop_back_spec hm hrep
    refine ⟨m', l', _, heq, ?_⟩
    rcases List.eq_nil_or_concat cs with rfl | ⟨cs', ct, rfl⟩
    · simp
    · simp [List.concat_eq_append, List.getLast?_concat]
  · intro m l cs hrep
    refine ⟨_, front_spec hrep, ?_⟩
    cases cs <;> simp
  · intro m l cs hrep
    refine ⟨_, back_spec hrep, ?_⟩
    rcases List.eq_nil_or_concat cs with rfl | ⟨cs', ct, rfl⟩
    · simp
    · have hlast : (cs' ++ [ct]).get? ((cs' ++ [ct]).length - 1) = some ct := by
        rw [show (cs' ++ [ct]).length - 1 = cs'.length from by simp]
        exact List.get?_concat_length _ _
      simp [List.concat_eq_append, hlast]
  · intro c cs hrep hcur
    refine ⟨_, current_elem_spec hrep hcur, ?_⟩
    cases hidx : c.index with
    | none => simp
    | some i =>
        have hi : i < cs.length := by
          rw [hidx] at hcur
          exact hcur.1
        simp [List.get?_eq_get hi]
        exact hi
  · intro c cs hrep hcur
    refine ⟨_, peek_next_spec hrep hcur, ?_⟩
    rw [Option.map_eq_none', List.get?_eq_none]
  · intro c cs hrep hcur
    refine ⟨_, peek_prev_spec hrep hcur, ?_⟩
    cases hidx : c.index with
    | none =>
        rw [Option.map_eq_none', List.get?_eq_none]
        constructor
        · intro h
          exact List.eq_nil_of_length_eq_zero (by omega)
        · intro h
          subst h
          simp
    | some i =>
        dsimp only
        by_cases h0 : i = 0
        · subst h0
          simp
        · have hi : i < cs.length := by
            rw [hidx] at hcur
            exact hcur.1
          rw [if_neg h0]
          have hi1 : i - 1 < cs.length := by omega
          simp [List.get?_eq_get hi1, h0]
          exact hi1
  · intro c hc
    exact remove_current_ghost hc
  · intro c cs i hm hrep hcur hidx
    obtain ⟨m', heq, -, -, -⟩ := remove_current_spec hm hrep hcur hidx
    have hi : i < cs.length := by
      rw [hidx] at hcur
      exact hcur.1
    rw [List.get?_eq_get hi, Option.map_some'] at heq
    exact ⟨_, _, heq⟩

theorem C9_none_results_witness :
    MemOk exMem ∧
    (∃ m' l' r, pop_front exMem exList = some (m', l', r) ∧
      (r = none ↔ exCells = [])) :=
  ⟨exMemOk, C9_none_results.1 exMem exList exCells exMemOk (by decide)⟩

/-- C10: building a list from a sequence.  `from_iter` (and equivalently
`extend` on a fresh empty list — both `push_back` each element in order)
produces a well-formed list whose `len` is the input length and whose full
forward iteration yields exactly the input sequence. -/
theorem C10_from_iter_extend {T : Type} :
    (∀ (m : Mem T) (xs : List T), MemOk m →
        ∃ m' l' cs' it', from_iter m xs = some (m', l') ∧
          ListRep m'.heap l' cs' ∧ elems cs' = xs ∧ l'.len = xs.length ∧
          runIter m' (iter l') (List.replicate xs.length true)
            = some (it', xs, [])) ∧
    (∀ (m : Mem T) (xs : List T), MemOk m →
        ∃ m' l' cs' it', extend m DequeueList.new xs = some (m', l') ∧
          ListRep m'.heap l' cs' ∧ elems cs' = xs ∧ l'.len = xs.length ∧
          runIter m' (iter l') (List.replicate xs.length true)
            = some (it', xs, [])) := by
  constructor
  · intro m xs hm
    obtain ⟨m', l', cs', heq, hrep, helems, hm'⟩ := from_iter_spec xs hm
    have h2 : cs'.length = xs.length := by
      rw [← helems, elems_length]
    have hlen : l'.len = xs.length := by
      have h1 : l'.len = cs'.length := hrep.2.2.2.1
      omega
    obtain ⟨it', hrun, -⟩ := runIter_all_true hrep
    rw [helems] at hrun
    refine ⟨m', l', cs', it', heq, hrep, helems, hlen, ?_⟩
    rw [show xs.length = cs'.length from h2.symm]
    exact hrun
  · intro m xs hm
    obtain ⟨m', l', cs', heq, hrep0, helems, hm'⟩ := extend_spec xs hm (rep_new m.heap)
    have hrep : ListRep m'.heap l' cs' := by simpa using hrep0
    have h2 : cs'.length = xs.length := by
      rw [← helems, elems_length]
    have hlen : l'.len = xs.length := by
      have h1 : l'.len = cs'.length := hrep.2.2.2.1
      omega
    obtain ⟨it', hrun, -⟩ := runIter_all_true hrep
    rw [helems] at hrun
    refine ⟨m', l', cs', it', heq, hrep, helems, hlen, ?_⟩
    rw [show xs.length = cs'.length from h2.symm]
    exact hrun

theorem C10_from_iter_extend_witness :
    MemOk (Mem.empty Nat) ∧
    (∃ m' l' cs' it', from_iter (Mem.empty Nat) [4, 5] = some (m', l') ∧
      ListRep m'.heap l' cs' ∧ elems cs' = [4, 5] ∧ l'.len = [4, 5].length ∧
      runIter m' (iter l') (List.replicate [4, 5].length true)
        = some (it', [4, 5], [])) :=
  ⟨memOk_empty Nat, C10_from_iter_extend.1 (Mem.empty Nat) [4, 5] (memOk_empty Nat)⟩

end Dequeue
